import Mathlib

/-!
Verification of the connection manager (`McpUnity`) of the mcp-unity bridge
and of the `get_console_logs` tool handler.

The embedding models the single-threaded event semantics of the source:

* `St` is the state of a `McpUnity` instance: the websocket handle (`ws`),
  the `pendingRequests` map (an insertion-ordered association list, matching
  the JavaScript `Map`), and the set of armed timeout timers.  Each armed
  timer records the closure it was created with: the request identifier and
  the promise whose `reject` it captured.
* Promises are identified by natural numbers allocated from a monotone
  counter (`nextPid`); settling a promise (calling its `resolve` or
  `reject`) is recorded as an event in the trace, together with transmit
  (`sent`) and `reconnect` events.
* Each public operation of the class, and each event-loop callback (an
  inbound message, a timer firing, the resolution of a fire-and-forget
  connect), is one atomic step, reflecting run-to-completion scheduling.
  A `sendRequest` call suspends at its internal `await this.connect()`;
  the possibility that a disconnect runs between that resumption and the
  promise executor (which the source guards against with its second
  `isConnected` check) is modelled by the `interveningDisc` parameter.
* A disconnect can also land while the connect's socket is still
  CONNECTING: the handlers are then detached and `this.ws` replaced, so
  the pending connect-timeout callback's guard (which re-reads `this.ws`)
  fails for the original handle and the connect promise never settles.
  The awaiting `sendRequest` caller hangs forever with no table entry;
  this path is the operation `sendRequestOrphan`, and the ghost event
  `orphaned` records the abandoned promise for accounting.
-/

namespace McpUnity

/-- The three error tags of `McpUnityError` (`ErrorType` in `utils/errors`). -/
inductive ErrorType
  | connection
  | timeout
  | toolExecution
deriving DecidableEq, Repr

/-- An `McpUnityError`: a tag, a message, and optional structured details. -/
structure McpUnityError where
  etype : ErrorType
  msg : String
  details : Option String
deriving DecidableEq, Repr

/-- How a promise gets settled: resolved with a value (possibly `undefined`,
modelled as `none`) or rejected with an `McpUnityError`. -/
inductive Outcome
  | resolved (v : Option String)
  | rejected (e : McpUnityError)
deriving DecidableEq, Repr

/-- Observable events of a run: a promise settling, a message being
transmitted on the socket, a `reconnect()` call being triggered, and the
ghost marker `orphaned p`, recording that promise `p` was abandoned by an
orphaned connect (its `await this.connect()` will never resume, see
`sendRequestOrphan`). -/
inductive Ev
  | settled (pid : Nat) (o : Outcome)
  | sent (reqId : String)
  | reconnect
  | orphaned (pid : Nat)
deriving DecidableEq, Repr

/-- An entry of `pendingRequests`: the promise whose `resolve`/`reject` it
stores and the handle of its timeout timer. -/
structure Entry where
  pid : Nat
  timerId : Nat
deriving DecidableEq, Repr

/-- The closure data captured by a timeout timer in `sendRequest`: the
request identifier and the `reject` of the promise being dispatched. -/
structure TimerCl where
  reqId : String
  pid : Nat
deriving DecidableEq, Repr

/-- The connection options built in `connect`: the `X-Client-Name` header
and the `origin` field. -/
structure ConnOptions where
  xClientName : String
  origin : String
deriving DecidableEq, Repr

/-- The websocket handle: absent (`this.ws === null`), still connecting
(created by the fire-and-forget `connect()` of `reconnect`), or in the
OPEN state. -/
inductive WsSt
  | null
  | connecting (opts : ConnOptions)
  | opened (opts : ConnOptions)
deriving DecidableEq, Repr

/-- JavaScript `a || d` on an optional string: `undefined` and the empty
string are falsy. -/
def jsOr (a : Option String) (d : String) : String :=
  match a with
  | none => d
  | some v => if v = "" then d else v

/-- State of a `McpUnity` instance, plus allocation counters for promise,
timer and generated-uuid identities, and a flag recording whether some
`sendRequest` ever overwrote a `pendingRequests` entry (identifier reuse). -/
structure St where
  ws : WsSt
  pendingRequests : List (String × Entry)
  armed : List (Nat × TimerCl)
  nextPid : Nat
  nextTimer : Nat
  nextUuid : Nat
  dupOverwrite : Bool
deriving DecidableEq, Repr

/-- `Map.has` on the pending-request table. -/
def mapHas (k : String) (m : List (String × Entry)) : Bool :=
  m.any (fun p => p.1 == k)

/-- `Map.get` on the pending-request table. -/
def mapGet (k : String) (m : List (String × Entry)) : Option Entry :=
  (m.find? (fun p => p.1 == k)).map (fun p => p.2)

/-- `Map.set`: replaces in place if the key is present (keeping insertion
order, as the JavaScript `Map` does), appends otherwise. -/
def mapSet (k : String) (v : Entry) (m : List (String × Entry)) :
    List (String × Entry) :=
  if mapHas k m then
    m.map (fun p => if p.1 == k then (k, v) else p)
  else
    m ++ [(k, v)]

/-- `Map.delete`. -/
def mapDelete (k : String) (m : List (String × Entry)) :
    List (String × Entry) :=
  m.filter (fun p => ¬ p.1 == k)

/-- `clearTimeout`: disarm the timer with the given handle. -/
def timerClear (t : Nat) (a : List (Nat × TimerCl)) : List (Nat × TimerCl) :=
  a.filter (fun p => ¬ p.1 == t)

/-- `this.REQUEST_TIMEOUT`, in milliseconds. -/
def REQUEST_TIMEOUT : Nat := 10000

/-- `this.isConnected`: a handle exists and its `readyState` is OPEN. -/
def isConnected (s : St) : Bool :=
  match s.ws with
  | .opened _ => true
  | _ => false

/-- The rejection used when draining the table in `disconnect`. -/
def connClosedErr : McpUnityError :=
  ⟨.connection, "Connection closed", none⟩

/-- The rejection used by the timeout timer callback of `sendRequest`. -/
def timeoutErr : McpUnityError :=
  ⟨.timeout, "Request timed out", none⟩

/-- The rejection used by the executor's `!this.ws || !this.isConnected`
re-check in `sendRequest`. -/
def notConnectedErr : McpUnityError :=
  ⟨.connection, "Not connected to Unity", none⟩

/-- The rejection used when `ws.send` throws in `sendRequest`. -/
def sendFailedErr (m : String) : McpUnityError :=
  ⟨.connection, "Send failed: " ++ m, none⟩

/-- The rejection produced by a failed `connect` attempt (connect timeout
or transport error), propagated through `await this.connect()`. -/
def connectFailedErr : McpUnityError :=
  ⟨.connection, "Connection failed", none⟩

/-- The rejection built by `handleMessage` from an error payload:
`ToolExecution`, message `error.message || "Unknown error"`, details. -/
def toolExecutionErr (message : Option String) (details : Option String) :
    McpUnityError :=
  ⟨.toolExecution, jsOr message "Unknown error", details⟩

/-- The settle events emitted by `disconnect` draining the table, in
iteration (insertion) order. -/
def drainEvents (m : List (String × Entry)) : List Ev :=
  m.map (fun p => .settled p.2.pid (.rejected connClosedErr))

/-- `disconnect()`: if a handle exists, detach its handlers, close it,
clear the reference, then drain the whole table — for each entry, cancel
its timer and reject its promise with `Connection: "Connection closed"`.
When no handle exists nothing happens. -/
def disconnect (s : St) : St × List Ev :=
  match s.ws with
  | .null => (s, [])
  | _ =>
    ({ s with
        ws := .null
        pendingRequests := []
        armed := s.armed.filter
          (fun tc => ¬ s.pendingRequests.any (fun p => p.2.timerId == tc.1)) },
      drainEvents s.pendingRequests)

/-- An inbound websocket message as seen by `handleMessage`: either the
payload fails `JSON.parse`, or it parses to an object with an optional
`id`, an optional `error : \x7bmessage?, details?\x7d` and a `result`
(possibly `undefined`). -/
inductive Inbound
  | malformed
  | reply (id : Option String) (error : Option (Option String × Option String))
      (result : Option String)
deriving DecidableEq, Repr

/-- `handleMessage(data)`: on a parsed reply whose (truthy) identifier is
in the table, cancel that entry's timer, remove the entry, and reject with
a `ToolExecution` error (message `error.message || "Unknown error"`, plus
details) if an `error` field is present, else resolve with `result`.
Anything else — parse failure, falsy/absent id, unmatched id — does
nothing. -/
def handleMessage (msg : Inbound) (s : St) : St × List Ev :=
  match msg with
  | .malformed => (s, [])
  | .reply id err result =>
    match id with
    | none => (s, [])
    | some i =>
      if i = "" then (s, [])
      else
        match mapGet i s.pendingRequests with
        | none => (s, [])
        | some e =>
          ({ s with
              armed := timerClear e.timerId s.armed
              pendingRequests := mapDelete i s.pendingRequests },
            [ .settled e.pid (match err with
                | some ep => .rejected (toolExecutionErr ep.1 ep.2)
                | none => .resolved result) ])

/-- The options object built in `connect`: both `X-Client-Name` and
`origin` are `clientName || ''`. -/
def connectOptions (clientName : Option String) : ConnOptions :=
  ⟨jsOr clientName "", jsOr clientName ""⟩

/-- An awaited `connect(clientName)` call, with the environment's choice of
whether the transport reaches OPEN: if already connected it is a no-op;
otherwise it first runs `disconnect()`, then creates a fresh handle which
either opens (the call resolves) or fails (`onerror`/connect-timeout both
reject the call and tear the handle down to `null`). -/
def connectStep (clientName : Option String) (success : Bool) (s : St) :
    St × List Ev :=
  if isConnected s then (s, [])
  else
    let d := disconnect s
    if success then ({ d.1 with ws := .opened (connectOptions clientName) }, d.2)
    else ({ d.1 with ws := .null }, d.2)

/-- `reconnect()`: `disconnect()` followed by a fire-and-forget
`this.connect()` — invoked with no argument, so the new handle carries
`connectOptions none`.  Its eventual resolution is a separate step
(`connectResolve`). -/
def reconnectStep (s : St) : St × List Ev :=
  let d := disconnect s
  ({ d.1 with ws := .connecting (connectOptions none) }, d.2 ++ [.reconnect])

/-- The event-loop resolving a fire-and-forget connect: a CONNECTING handle
either opens, or fails and is torn down via `disconnect`. -/
def connectResolve (success : Bool) (s : St) : St × List Ev :=
  match s.ws with
  | .connecting opts =>
    if success then ({ s with ws := .opened opts }, [])
    else disconnect s
  | _ => (s, [])

/-- `uuidv4()`, modelled as a fresh string drawn from a counter. -/
def genUuid (n : Nat) : String := "uuid-" ++ toString n

/-- The request identifier `request.id || uuidv4()` together with the
updated uuid counter. -/
def pickReqId (reqId : Option String) (nextUuid : Nat) : String × Nat :=
  match reqId with
  | none => (genUuid nextUuid, nextUuid + 1)
  | some i => if i = "" then (genUuid nextUuid, nextUuid + 1) else (i, nextUuid)

/-- The body of `sendRequest` after the connect-if-needed step: the promise
executor.  `interveningDisc` models a disconnect event running between the
resumption of `await this.connect()` and the executor; the executor's
`!this.ws || !this.isConnected` re-check then fails and the promise is
rejected with `Connection: "Not connected to Unity"`.  Otherwise the
timeout timer is created, the entry is stored (a `Map.set`, which silently
overwrites an entry already present under the same identifier without
cancelling that entry's timer — recorded in `dupOverwrite`), and the
message is sent; if `ws.send` throws, the timer is cleared, the entry
deleted, and the promise rejected with a `Connection` error.
`registerSend` is the tail of the executor after the connectivity
re-check. -/
def registerSend (rid : String) (sendError : Option String) (pid : Nat)
    (s : St) : St × List Ev :=
  let t := s.nextTimer
  let wasDup := mapHas rid s.pendingRequests
  let s3 := { s with
      nextTimer := t + 1
      armed := s.armed ++ [(t, ⟨rid, pid⟩)]
      pendingRequests := mapSet rid ⟨pid, t⟩ s.pendingRequests
      dupOverwrite := s.dupOverwrite || wasDup }
  match sendError with
  | none => (s3, [.sent rid])
  | some m =>
    ({ s3 with
        armed := timerClear t s3.armed
        pendingRequests := mapDelete rid s3.pendingRequests },
      [.settled pid (.rejected (sendFailedErr m))])

/-- The promise executor of `sendRequest`: the connectivity re-check (with
a possible intervening disconnect before it), identifier selection, and
then `registerSend`. -/
def sendRequestBody (reqId : Option String) (interveningDisc : Bool)
    (sendError : Option String) (pid : Nat) (s : St) : St × List Ev :=
  let d := if interveningDisc then disconnect s else (s, [])
  let r := pickReqId reqId d.1.nextUuid
  let s2 := { d.1 with nextUuid := r.2 }
  if ¬ isConnected s2 then
    (s2, d.2 ++ [.settled pid (.rejected notConnectedErr)])
  else
    let b := registerSend r.1 sendError pid s2
    (b.1, d.2 ++ b.2)

/-- `sendRequest(request)`: allocates the promise to be returned, performs
the connect-if-needed step (whose failure rejects that promise with the
`Connection` error thrown by `connect`), and otherwise runs the executor
body. -/
def sendRequest (reqId : Option String) (connectSucceeds : Bool)
    (interveningDisc : Bool) (sendError : Option String) (s : St) :
    St × List Ev :=
  let pid := s.nextPid
  let s0 := { s with nextPid := pid + 1 }
  if isConnected s0 then
    sendRequestBody reqId interveningDisc sendError pid s0
  else
    let c := connectStep none connectSucceeds s0
    if isConnected c.1 then
      let b := sendRequestBody reqId interveningDisc sendError pid c.1
      (b.1, c.2 ++ b.2)
    else
      (c.1, c.2 ++ [.settled pid (.rejected connectFailedErr)])

/-- A `sendRequest` call made while disconnected whose awaited
`this.connect()` never settles.  `connect` tears down any old handle and
creates a new CONNECTING one, arming a connect-timeout; `resolve` and
`reject` are only ever called from `onopen`, `onerror` and that timeout
callback.  If a `disconnect()` runs before the handle opens or errors —
an explicit `stop()`, a teardown handler, another caller's connect, or a
timeout handler's `reconnect()` — it detaches the handlers and replaces
`this.ws`, and the pending connect-timeout callback then finds its guard
`this.ws && this.ws.readyState === CONNECTING` false for the original
handle (it tests the replaced `this.ws`), so the connect promise settles
never: the awaiting `sendRequest` caller suspends forever, with no table
entry and no request timer.  The net state is that of the orphaning
disconnect; the ghost event `orphaned` records the lost promise.  When
already connected there is no CONNECTING window, so the operation does
not arise (modelled as a no-op). -/
def sendRequestOrphan (s : St) : St × List Ev :=
  if isConnected s then (s, [])
  else
    let pid := s.nextPid
    let s0 := { s with nextPid := pid + 1 }
    let d := disconnect s0
    ({ d.1 with ws := .null }, d.2 ++ [.orphaned pid])

/-- A timeout timer firing.  A cleared timer never fires.  The callback:
if the identifier captured by the closure is still in the table, delete
that entry and reject the captured promise with `Timeout`; in any case
call `this.reconnect()`. -/
def fireStep (t : Nat) (s : St) : St × List Ev :=
  match s.armed.find? (fun p => p.1 == t) with
  | none => (s, [])
  | some tc =>
    let c := tc.2
    let s0 := { s with armed := timerClear t s.armed }
    let b :=
      if mapHas c.reqId s0.pendingRequests then
        ({ s0 with pendingRequests := mapDelete c.reqId s0.pendingRequests },
          [Ev.settled c.pid (.rejected timeoutErr)])
      else (s0, ([] : List Ev))
    let r := reconnectStep b.1
    (r.1, b.2 ++ r.2)

/-- One atomic step of the event loop: a `sendRequest` call (with the
environment's choices: does the implicit connect succeed, does a disconnect
intervene before the executor, does `ws.send` throw), an inbound message,
a timer firing, an explicit `connect`/`start` call, the resolution of a
fire-and-forget connect, or an explicit `disconnect`/`stop` call. -/
inductive Op
  | send (reqId : Option String) (connectSucceeds : Bool)
      (interveningDisc : Bool) (sendError : Option String)
  | sendOrphan
  | deliver (msg : Inbound)
  | fire (t : Nat)
  | connectTo (clientName : Option String) (succeeds : Bool)
  | resolveConnect (succeeds : Bool)
  | disc
deriving DecidableEq, Repr

/-- The step function of the model. -/
def step (op : Op) (s : St) : St × List Ev :=
  match op with
  | .send reqId cs iv se => sendRequest reqId cs iv se s
  | .sendOrphan => sendRequestOrphan s
  | .deliver msg => handleMessage msg s
  | .fire t => fireStep t s
  | .connectTo n ok => connectStep n ok s
  | .resolveConnect ok => connectResolve ok s
  | .disc => disconnect s

/-- Run a sequence of steps, accumulating the event trace. -/
def run (ops : List Op) (s : St) : St × List Ev :=
  match ops with
  | [] => (s, [])
  | op :: rest =>
    let a := step op s
    let b := run rest a.1
    (b.1, a.2 ++ b.2)

/-- The initial state of a freshly constructed `McpUnity`. -/
def init : St := ⟨.null, [], [], 0, 0, 0, false⟩

/-- Number of settle events for promise `p` in a trace. -/
def cnt (evs : List Ev) (p : Nat) : Nat :=
  evs.countP (fun e => match e with | .settled q _ => q == p | _ => false)

/-- The armed timer a table entry should correspond to: its timer handle,
holding the entry's identifier and promise in its closure. -/
def entryTimer (q : String × Entry) : Nat × TimerCl :=
  (q.2.timerId, ⟨q.1, q.2.pid⟩)

/-- The promises stored in the table, in insertion order. -/
def pids (m : List (String × Entry)) : List Nat :=
  m.map (fun q => q.2.pid)

theorem cnt_append (a b : List Ev) (p : Nat) :
    cnt (a ++ b) p = cnt a p + cnt b p :=
  List.countP_append _ _ _

theorem cnt_nil (p : Nat) : cnt [] p = 0 := rfl

theorem cnt_settled (q : Nat) (o : Outcome) (p : Nat) :
    cnt [.settled q o] p = if q = p then 1 else 0 := by
  by_cases h : q = p <;> simp [cnt, List.countP_cons, h]

theorem cnt_sent (r : String) (p : Nat) : cnt [.sent r] p = 0 := rfl

theorem cnt_reconnect (p : Nat) : cnt [.reconnect] p = 0 := rfl

theorem cnt_drain (m : List (String × Entry)) (p : Nat) :
    cnt (drainEvents m) p = (pids m).count p := by
  induction m with
  | nil => rfl
  | cons q rest ih =>
    show cnt (.settled q.2.pid (.rejected connClosedErr) :: drainEvents rest) p = _
    have h1 : (Ev.settled q.2.pid (.rejected connClosedErr) :: drainEvents rest)
        = [Ev.settled q.2.pid (.rejected connClosedErr)] ++ drainEvents rest := rfl
    have h2 : pids (q :: rest) = q.2.pid :: pids rest := rfl
    rw [h1, cnt_append, ih, h2, cnt_settled, List.count_cons]
    by_cases h : q.2.pid = p <;> simp [h, Nat.add_comm]

/-- Number of `orphaned` markers for promise `p` in a trace. -/
def orphanCnt (evs : List Ev) (p : Nat) : Nat :=
  evs.countP (fun e => match e with | .orphaned q => q == p | _ => false)

theorem orphanCnt_append (a b : List Ev) (p : Nat) :
    orphanCnt (a ++ b) p = orphanCnt a p + orphanCnt b p :=
  List.countP_append _ _ _

theorem orphanCnt_nil (p : Nat) : orphanCnt [] p = 0 := rfl

theorem orphanCnt_settled (q : Nat) (o : Outcome) (p : Nat) :
    orphanCnt [.settled q o] p = 0 := rfl

theorem orphanCnt_sent (r : String) (p : Nat) :
    orphanCnt [.sent r] p = 0 := rfl

theorem orphanCnt_reconnect (p : Nat) : orphanCnt [.reconnect] p = 0 := rfl

theorem orphanCnt_orphaned (q p : Nat) :
    orphanCnt [.orphaned q] p = if q = p then 1 else 0 := by
  by_cases h : q = p <;> simp [orphanCnt, List.countP_cons, h]

theorem orphanCnt_drain (m : List (String × Entry)) (p : Nat) :
    orphanCnt (drainEvents m) p = 0 := by
  simp only [orphanCnt, List.countP_eq_zero]
  intro e hmem
  obtain ⟨q, _, hqe⟩ := List.mem_map.mp hmem
  rw [← hqe]
  exact fun h => nomatch h

theorem cnt_orphaned (q p : Nat) : cnt [.orphaned q] p = 0 := rfl

/-- Promise accounting charge of a trace against promise `p`: settlements
plus orphaned-connect abandonments. -/
def acct (evs : List Ev) (p : Nat) : Nat := cnt evs p + orphanCnt evs p

theorem acct_append (a b : List Ev) (p : Nat) :
    acct (a ++ b) p = acct a p + acct b p := by
  unfold acct
  rw [cnt_append, orphanCnt_append]
  omega

theorem acct_nil (p : Nat) : acct [] p = 0 := rfl

theorem acct_settled (q : Nat) (o : Outcome) (p : Nat) :
    acct [.settled q o] p = if q = p then 1 else 0 := by
  unfold acct
  rw [cnt_settled, orphanCnt_settled, Nat.add_zero]

theorem acct_orphaned (q p : Nat) :
    acct [.orphaned q] p = if q = p then 1 else 0 := by
  unfold acct
  rw [cnt_orphaned, orphanCnt_orphaned, Nat.zero_add]

theorem acct_sent (r : String) (p : Nat) : acct [.sent r] p = 0 := rfl

theorem acct_reconnect (p : Nat) : acct [.reconnect] p = 0 := rfl

theorem acct_drain (m : List (String × Entry)) (p : Nat) :
    acct (drainEvents m) p = (pids m).count p := by
  unfold acct
  rw [cnt_drain, orphanCnt_drain, Nat.add_zero]

theorem cnt_le_acct (evs : List Ev) (p : Nat) : cnt evs p ≤ acct evs p :=
  Nat.le_add_right _ _

theorem mapHas_iff (k : String) (m : List (String × Entry)) :
    mapHas k m = true ↔ k ∈ m.map Prod.fst := by
  simp [mapHas, List.any_eq_true, List.mem_map, beq_iff_eq]

theorem mapGet_mem {k : String} {m : List (String × Entry)} {e : Entry}
    (h : mapGet k m = some e) : (k, e) ∈ m := by
  simp only [mapGet, Option.map_eq_some'] at h
  obtain ⟨q, hq, rfl⟩ := h
  have hk : q.1 = k := by
    have := List.find?_some hq
    simpa [beq_iff_eq] using this
  have hm := List.mem_of_find?_eq_some hq
  have : q = (k, q.2) := by
    cases q; simp_all
  rwa [this] at hm

theorem mapGet_of_mem {k : String} {m : List (String × Entry)} {e : Entry}
    (hnd : (m.map Prod.fst).Nodup) (h : (k, e) ∈ m) : mapGet k m = some e := by
  induction m with
  | nil => cases h
  | cons q rest ih =>
    rcases List.mem_cons.mp h with h1 | h1
    · subst h1; simp [mapGet, List.find?]
    · have hk : ¬ q.1 = k := by
        intro hk
        have : k ∈ rest.map Prod.fst := List.mem_map.mpr ⟨(k, e), h1, rfl⟩
        rw [← hk] at this
        exact (List.nodup_cons.mp hnd).1 this
      have hnd' : (rest.map Prod.fst).Nodup := (List.nodup_cons.mp hnd).2
      simp only [mapGet, List.find?]
      rw [show (q.1 == k) = false by simpa using hk]
      exact ih hnd' h1

theorem mem_entry_unique {k : String} {m : List (String × Entry)} {e e' : Entry}
    (hnd : (m.map Prod.fst).Nodup) (h : (k, e) ∈ m) (h' : (k, e') ∈ m) : e = e' := by
  have := List.inj_on_of_nodup_map hnd h h' rfl
  simpa using this

theorem perm_cons_mapDelete {k : String} {e : Entry} {m : List (String × Entry)}
    (hnd : (m.map Prod.fst).Nodup) (h : (k, e) ∈ m) :
    m.Perm ((k, e) :: mapDelete k m) := by
  induction m with
  | nil => cases h
  | cons q rest ih =>
    have hnd' : (rest.map Prod.fst).Nodup := (List.nodup_cons.mp hnd).2
    rcases List.mem_cons.mp h with h1 | h1
    · subst h1
      have hk : k ∉ rest.map Prod.fst := (List.nodup_cons.mp hnd).1
      have hrest : mapDelete k rest = rest := by
        apply List.filter_eq_self.mpr
        intro a ha
        have hak : ¬ a.1 = k := fun hak => hk (List.mem_map.mpr ⟨a, ha, hak⟩)
        simpa using hak
      show ((k, e) :: rest).Perm ((k, e) :: mapDelete k ((k, e) :: rest))
      have : mapDelete k ((k, e) :: rest) = mapDelete k rest := by
        simp [mapDelete, List.filter]
      rw [this, hrest]
    · have hk : ¬ q.1 = k := by
        intro hk
        have : k ∈ rest.map Prod.fst := List.mem_map.mpr ⟨(k, e), h1, rfl⟩
        rw [← hk] at this
        exact (List.nodup_cons.mp hnd).1 this
      have hdel : mapDelete k (q :: rest) = q :: mapDelete k rest := by
        simp only [mapDelete, List.filter]
        rw [show (decide ¬ (q.1 == k) = true) = true by simpa using hk]
      rw [hdel]
      exact ((ih hnd' h1).cons q).trans (List.Perm.swap _ _ _)

theorem find?_eq_some_of_mem_nodup {t : Nat} {c : TimerCl}
    {a : List (Nat × TimerCl)} (hnd : (a.map Prod.fst).Nodup)
    (h : (t, c) ∈ a) : a.find? (fun p => p.1 == t) = some (t, c) := by
  induction a with
  | nil => cases h
  | cons q rest ih =>
    have hnd' : (rest.map Prod.fst).Nodup := (List.nodup_cons.mp hnd).2
    rcases List.mem_cons.mp h with h1 | h1
    · subst h1
      simp [List.find?]
    · have hk : ¬ q.1 = t := by
        intro hk
        have : t ∈ rest.map Prod.fst := List.mem_map.mpr ⟨(t, c), h1, rfl⟩
        rw [← hk] at this
        exact (List.nodup_cons.mp hnd).1 this
      simp only [List.find?]
      rw [show (q.1 == t) = false by simpa using hk]
      exact ih hnd' h1

theorem count_pids_eq_zero {p : Nat} {m : List (String × Entry)}
    (h : ∀ q ∈ m, q.2.pid ≠ p) : (pids m).count p = 0 := by
  rw [List.count_eq_zero]
  intro hp
  obtain ⟨q, hq, hqe⟩ := List.mem_map.mp hp
  exact h q hq hqe

/-- Promise `p` has been allocated but no reference to its `resolve` or
`reject` survives: it is not in any table entry and not in any armed timer
closure.  Such a promise can never be settled again. -/
def DeadPid (p : Nat) (s : St) : Prop :=
  p < s.nextPid ∧ (∀ q ∈ s.pendingRequests, q.2.pid ≠ p) ∧
    (∀ q ∈ s.armed, q.2.pid ≠ p)

instance (p : Nat) (s : St) : Decidable (DeadPid p s) := by
  unfold DeadPid; infer_instance

theorem dead_disconnect {p : Nat} {s : St} (h : DeadPid p s) :
    DeadPid p (disconnect s).1 ∧ cnt (disconnect s).2 p = 0 := by
  obtain ⟨h1, h2, h3⟩ := h
  cases hws : s.ws <;> simp only [disconnect, hws]
  · exact ⟨⟨h1, h2, h3⟩, rfl⟩
  all_goals
    refine ⟨⟨h1, by intro q hq; simp at hq, ?_⟩, ?_⟩
  all_goals try exact fun q hq => h3 q (List.mem_filter.mp hq).1
  all_goals rw [cnt_drain]; exact count_pids_eq_zero h2

theorem dead_connectStep {p : Nat} {s : St} (n : Option String) (ok : Bool)
    (h : DeadPid p s) :
    DeadPid p (connectStep n ok s).1 ∧ cnt (connectStep n ok s).2 p = 0 := by
  obtain ⟨hd, hc⟩ := dead_disconnect h
  unfold connectStep
  by_cases hcon : isConnected s = true
  · simpa [hcon] using ⟨h, rfl⟩
  · obtain ⟨d1, d2, d3⟩ := hd
    cases ok <;> simp [hcon] <;> exact ⟨⟨d1, d2, d3⟩, hc⟩

theorem dead_reconnectStep {p : Nat} {s : St} (h : DeadPid p s) :
    DeadPid p (reconnectStep s).1 ∧ cnt (reconnectStep s).2 p = 0 := by
  obtain ⟨⟨d1, d2, d3⟩, hc⟩ := dead_disconnect h
  unfold reconnectStep
  refine ⟨⟨d1, d2, d3⟩, ?_⟩
  rw [cnt_append, hc, cnt_reconnect]

theorem dead_connectResolve {p : Nat} {s : St} (ok : Bool) (h : DeadPid p s) :
    DeadPid p (connectResolve ok s).1 ∧ cnt (connectResolve ok s).2 p = 0 := by
  obtain ⟨h1, h2, h3⟩ := h
  unfold connectResolve
  cases hws : s.ws <;> simp only
  · exact ⟨⟨h1, h2, h3⟩, rfl⟩
  · cases ok
    · simpa using dead_disconnect ⟨h1, h2, h3⟩
    · exact ⟨⟨h1, h2, h3⟩, rfl⟩
  · exact ⟨⟨h1, h2, h3⟩, rfl⟩

theorem dead_handleMessage {p : Nat} {s : St} (msg : Inbound) (h : DeadPid p s) :
    DeadPid p (handleMessage msg s).1 ∧ cnt (handleMessage msg s).2 p = 0 := by
  obtain ⟨h1, h2, h3⟩ := h
  unfold handleMessage
  cases msg with
  | malformed => exact ⟨⟨h1, h2, h3⟩, rfl⟩
  | reply id err result =>
    cases id with
    | none => exact ⟨⟨h1, h2, h3⟩, rfl⟩
    | some i =>
      by_cases hi : i = ""
      · simp only [hi, if_pos rfl]
        exact ⟨⟨h1, h2, h3⟩, rfl⟩
      · simp only [if_neg hi]
        cases hg : mapGet i s.pendingRequests with
        | none => exact ⟨⟨h1, h2, h3⟩, rfl⟩
        | some e =>
          have hep : e.pid ≠ p := h2 (i, e) (mapGet_mem hg)
          refine ⟨⟨h1, ?_, ?_⟩, ?_⟩
          · exact fun q hq => h2 q (List.mem_filter.mp hq).1
          · exact fun q hq => h3 q (List.mem_filter.mp hq).1
          · rw [cnt_settled, if_neg hep]

theorem dead_fireStep {p : Nat} {s : St} (t : Nat) (h : DeadPid p s) :
    DeadPid p (fireStep t s).1 ∧ cnt (fireStep t s).2 p = 0 := by
  obtain ⟨h1, h2, h3⟩ := h
  unfold fireStep
  cases hf : s.armed.find? (fun q => q.1 == t) with
  | none => exact ⟨⟨h1, h2, h3⟩, rfl⟩
  | some tc =>
    have hcp : tc.2.pid ≠ p := h3 tc (List.mem_of_find?_eq_some hf)
    simp only
    by_cases hhas : mapHas tc.2.reqId s.pendingRequests = true
    · rw [if_pos hhas]
      have hmid : DeadPid p
          { s with
              armed := timerClear t s.armed
              pendingRequests := mapDelete tc.2.reqId s.pendingRequests } := by
        refine ⟨h1, ?_, ?_⟩
        · exact fun q hq => h2 q (List.mem_filter.mp hq).1
        · exact fun q hq => h3 q (List.mem_filter.mp hq).1
      obtain ⟨hrd, hrc⟩ := dead_reconnectStep hmid
      refine ⟨hrd, ?_⟩
      have hsplit : cnt ([Ev.settled tc.2.pid (.rejected timeoutErr)]
          ++ (reconnectStep { s with
              armed := timerClear t s.armed
              pendingRequests := mapDelete tc.2.reqId s.pendingRequests }).2) p
          = cnt [Ev.settled tc.2.pid (.rejected timeoutErr)] p
            + cnt (reconnectStep { s with
              armed := timerClear t s.armed
              pendingRequests := mapDelete tc.2.reqId s.pendingRequests }).2 p :=
        cnt_append _ _ p
      rw [hsplit, hrc, cnt_settled, if_neg hcp]
    · rw [if_neg hhas]
      have hmid : DeadPid p { s with armed := timerClear t s.armed } := by
        refine ⟨h1, h2, ?_⟩
        exact fun q hq => h3 q (List.mem_filter.mp hq).1
      obtain ⟨hrd, hrc⟩ := dead_reconnectStep hmid
      exact ⟨hrd, by simpa using hrc⟩

theorem mem_mapSet {k : String} {v : Entry} {m : List (String × Entry)}
    {q : String × Entry} (hq : q ∈ mapSet k v m) : q = (k, v) ∨ q ∈ m := by
  unfold mapSet at hq
  by_cases h : mapHas k m = true
  · rw [if_pos h] at hq
    obtain ⟨a, ha, hqe⟩ := List.mem_map.mp hq
    by_cases hak : (a.1 == k) = true
    · rw [if_pos hak] at hqe; exact Or.inl hqe.symm
    · rw [if_neg hak] at hqe; exact Or.inr (hqe ▸ ha)
  · rw [if_neg h] at hq
    rcases List.mem_append.mp hq with h' | h'
    · exact Or.inr h'
    · simp only [List.mem_singleton] at h'
      exact Or.inl h'

theorem dead_registerSend {p : Nat} {s : St} (rid : String)
    (se : Option String) (pid : Nat) (hp : pid ≠ p) (h : DeadPid p s) :
    DeadPid p (registerSend rid se pid s).1 ∧
      cnt (registerSend rid se pid s).2 p = 0 := by
  obtain ⟨h1, h2, h3⟩ := h
  have hpend : ∀ q ∈ mapSet rid ⟨pid, s.nextTimer⟩ s.pendingRequests,
      q.2.pid ≠ p := by
    intro q hq
    rcases mem_mapSet hq with h' | h'
    · rw [h']; exact hp
    · exact h2 q h'
  have harm : ∀ q ∈ s.armed ++ [(s.nextTimer, (⟨rid, pid⟩ : TimerCl))],
      q.2.pid ≠ p := by
    intro q hq
    rcases List.mem_append.mp hq with h' | h'
    · exact h3 q h'
    · simp only [List.mem_singleton] at h'
      rw [h']; exact hp
  unfold registerSend
  cases se with
  | none => exact ⟨⟨h1, hpend, harm⟩, rfl⟩
  | some m =>
    refine ⟨⟨h1, ?_, ?_⟩, ?_⟩
    · exact fun q hq => hpend q (List.mem_filter.mp hq).1
    · exact fun q hq => harm q (List.mem_filter.mp hq).1
    · rw [cnt_settled, if_neg hp]

theorem dead_sendRequestBody {p : Nat} {s : St} (reqId : Option String)
    (iv : Bool) (se : Option String) (pid : Nat) (hp : pid ≠ p)
    (h : DeadPid p s) :
    DeadPid p (sendRequestBody reqId iv se pid s).1 ∧
      cnt (sendRequestBody reqId iv se pid s).2 p = 0 := by
  have hd : DeadPid p (if iv then disconnect s else (s, [])).1 ∧
      cnt (if iv then disconnect s else (s, [])).2 p = 0 := by
    cases iv
    · exact ⟨h, rfl⟩
    · exact dead_disconnect h
  obtain ⟨⟨h1, h2, h3⟩, hdc⟩ := hd
  unfold sendRequestBody
  simp only
  by_cases hcon : isConnected { (if iv then disconnect s else (s, [])).1 with
      nextUuid := (pickReqId reqId
        (if iv then disconnect s else (s, [])).1.nextUuid).2 } = true
  · rw [if_neg (by simp [hcon])]
    obtain ⟨hb, hbc⟩ := dead_registerSend
      (pickReqId reqId (if iv then disconnect s else (s, [])).1.nextUuid).1 se
      pid hp (show DeadPid p { (if iv then disconnect s else (s, [])).1 with
        nextUuid := (pickReqId reqId
          (if iv then disconnect s else (s, [])).1.nextUuid).2 }
        from ⟨h1, h2, h3⟩)
    exact ⟨hb, by rw [cnt_append, hdc, hbc]⟩
  · rw [if_pos (by simp [hcon])]
    refine ⟨⟨h1, h2, h3⟩, ?_⟩
    rw [cnt_append, hdc, cnt_settled, if_neg hp]

theorem dead_sendRequest {p : Nat} {s : St} (reqId : Option String)
    (cs : Bool) (iv : Bool) (se : Option String) (h : DeadPid p s) :
    DeadPid p (sendRequest reqId cs iv se s).1 ∧
      cnt (sendRequest reqId cs iv se s).2 p = 0 := by
  obtain ⟨h1, h2, h3⟩ := h
  have hp : s.nextPid ≠ p := Nat.ne_of_gt h1
  have h0 : DeadPid p { s with nextPid := s.nextPid + 1 } :=
    ⟨Nat.lt_succ_of_lt h1, h2, h3⟩
  unfold sendRequest
  simp only
  by_cases hcon : isConnected { s with nextPid := s.nextPid + 1 } = true
  · rw [if_pos hcon]
    exact dead_sendRequestBody reqId iv se s.nextPid hp h0
  · rw [if_neg hcon]
    obtain ⟨hc, hcc⟩ := dead_connectStep none cs h0
    by_cases hcon2 : isConnected (connectStep none cs
        { s with nextPid := s.nextPid + 1 }).1 = true
    · rw [if_pos hcon2]
      obtain ⟨hb, hbc⟩ := dead_sendRequestBody reqId iv se s.nextPid hp hc
      exact ⟨hb, by rw [cnt_append, hcc, hbc]⟩
    · rw [if_neg hcon2]
      refine ⟨hc, ?_⟩
      rw [cnt_append, hcc, cnt_settled, if_neg hp]

theorem dead_sendOrphan {p : Nat} {s : St} (h : DeadPid p s) :
    DeadPid p (sendRequestOrphan s).1 ∧ cnt (sendRequestOrphan s).2 p = 0 := by
  unfold sendRequestOrphan
  by_cases hcon : isConnected s = true
  · rw [if_pos hcon]
    exact ⟨h, rfl⟩
  · rw [if_neg hcon]
    simp only
    obtain ⟨h1, h2, h3⟩ := h
    have hdead : DeadPid p { s with nextPid := s.nextPid + 1 } :=
      ⟨Nat.lt_succ_of_lt h1, h2, h3⟩
    obtain ⟨⟨g1, g2, g3⟩, gc⟩ := dead_disconnect hdead
    refine ⟨⟨g1, g2, g3⟩, ?_⟩
    rw [cnt_append, gc, cnt_orphaned]

theorem dead_step {p : Nat} {s : St} (op : Op) (h : DeadPid p s) :
    DeadPid p (step op s).1 ∧ cnt (step op s).2 p = 0 := by
  cases op with
  | send reqId cs iv se => exact dead_sendRequest reqId cs iv se h
  | sendOrphan => exact dead_sendOrphan h
  | deliver msg => exact dead_handleMessage msg h
  | fire t => exact dead_fireStep t h
  | connectTo n ok => exact dead_connectStep n ok h
  | resolveConnect ok => exact dead_connectResolve ok h
  | disc => exact dead_disconnect h

/-- Once no live reference to a promise survives, no continuation of the
run ever settles it: the promise is permanently pending. -/
theorem dead_run {p : Nat} {s : St} (ops : List Op) (h : DeadPid p s) :
    DeadPid p (run ops s).1 ∧ cnt (run ops s).2 p = 0 := by
  induction ops generalizing s with
  | nil => exact ⟨h, rfl⟩
  | cons op rest ih =>
    obtain ⟨h1, hc1⟩ := dead_step op h
    obtain ⟨h2, hc2⟩ := ih h1
    refine ⟨h2, ?_⟩
    show cnt ((step op s).2 ++ (run rest (step op s).1).2) p = 0
    rw [cnt_append, hc1, hc2]

/-- The basic reachability invariant, independent of identifier reuse:
whenever no OPEN handle exists the table is empty (entries are only created
on a live connection, and every teardown drains), armed timer handles are
pairwise distinct, and all of them are below the allocation counter. -/
structure InvB (s : St) : Prop where
  conn : isConnected s = false → s.pendingRequests = []
  armedNodup : (s.armed.map Prod.fst).Nodup
  armedLt : ∀ q ∈ s.armed, q.1 < s.nextTimer

theorem invB_disconnect {s : St} (h : InvB s) : InvB (disconnect s).1 := by
  cases hws : s.ws <;> simp only [disconnect, hws]
  · exact h
  all_goals exact
    { conn := fun _ => rfl
      armedNodup := h.armedNodup.sublist (List.filter_sublist _ |>.map _)
      armedLt := fun q hq => h.armedLt q (List.mem_filter.mp hq).1 }

theorem disconnect_pending_nil {s : St} (h : InvB s) :
    (disconnect s).1.pendingRequests = [] := by
  cases hws : s.ws <;> simp only [disconnect, hws]
  exact h.conn (by simp [isConnected, hws])

theorem disconnect_not_connected (s : St) :
    isConnected (disconnect s).1 = false := by
  cases hws : s.ws <;> simp [disconnect, hws, isConnected]

theorem disconnect_evs {s : St} (h : InvB s) :
    (disconnect s).2 = drainEvents s.pendingRequests := by
  cases hws : s.ws <;> simp only [disconnect, hws]
  rw [h.conn (by simp [isConnected, hws])]
  rfl

theorem disconnect_timer_cleared {s : St} (h : InvB s) :
    ∀ q ∈ s.pendingRequests, ∀ tc ∈ (disconnect s).1.armed,
      tc.1 ≠ q.2.timerId := by
  intro q hq tc htc heq
  cases hws : s.ws
  · rw [h.conn (by simp [isConnected, hws])] at hq
    cases hq
  all_goals
    simp only [disconnect, hws] at htc
    have hpred := (List.mem_filter.mp htc).2
    simp only [decide_eq_true_eq, List.any_eq_true] at hpred
    exact hpred ⟨q, hq, by simp [heq]⟩

theorem invB_connectStep {s : St} (n : Option String) (ok : Bool)
    (h : InvB s) : InvB (connectStep n ok s).1 := by
  unfold connectStep
  by_cases hcon : isConnected s = true
  · rw [if_pos hcon]; exact h
  · rw [if_neg hcon]
    have hd := invB_disconnect h
    have hp := disconnect_pending_nil h
    cases ok <;> simp only [if_true, if_false, Bool.false_eq_true]
    · exact
        { conn := fun _ => hp
          armedNodup := hd.armedNodup
          armedLt := hd.armedLt }
    · exact
        { conn := fun _ => hp
          armedNodup := hd.armedNodup
          armedLt := hd.armedLt }

theorem invB_reconnectStep {s : St} (h : InvB s) : InvB (reconnectStep s).1 := by
  have hd := invB_disconnect h
  have hp := disconnect_pending_nil h
  unfold reconnectStep
  exact
    { conn := fun _ => hp
      armedNodup := hd.armedNodup
      armedLt := hd.armedLt }

theorem reconnectStep_pending {s : St} (h : InvB s) :
    (reconnectStep s).1.pendingRequests = [] :=
  disconnect_pending_nil h

theorem invB_connectResolve {s : St} (ok : Bool) (h : InvB s) :
    InvB (connectResolve ok s).1 := by
  unfold connectResolve
  cases hws : s.ws <;> simp only
  · exact h
  · cases ok <;> simp only [if_true, if_false, Bool.false_eq_true]
    · exact invB_disconnect h
    · exact
        { conn := fun _ => h.conn (by simp [isConnected, hws])
          armedNodup := h.armedNodup
          armedLt := h.armedLt }
  · exact h

theorem invB_handleMessage {s : St} (msg : Inbound) (h : InvB s) :
    InvB (handleMessage msg s).1 := by
  cases msg with
  | malformed => exact h
  | reply id err result =>
    cases id with
    | none => exact h
    | some i =>
      by_cases hi : i = ""
      · simp only [handleMessage, if_pos hi]
        exact h
      · simp only [handleMessage, if_neg hi]
        cases hg : mapGet i s.pendingRequests with
        | none => exact h
        | some e =>
          refine
            { conn := ?_
              armedNodup := h.armedNodup.sublist (List.filter_sublist _ |>.map _)
              armedLt := fun q hq => h.armedLt q (List.mem_filter.mp hq).1 }
          intro hc
          have hp := h.conn hc
          show mapDelete i s.pendingRequests = []
          rw [hp]
          rfl

theorem invB_registerSend {s : St} (rid : String) (se : Option String)
    (pid : Nat) (hcon : isConnected s = true) (h : InvB s) :
    InvB (registerSend rid se pid s).1 := by
  have harmN : ((s.armed ++ [(s.nextTimer, (⟨rid, pid⟩ : TimerCl))]).map
      Prod.fst).Nodup := by
    rw [List.map_append]
    refine List.Nodup.append h.armedNodup (by simp) ?_
    intro a ha hb
    simp only [List.map_cons, List.map_nil, List.mem_singleton] at hb
    subst hb
    obtain ⟨q, hq, hqe⟩ := List.mem_map.mp ha
    exact absurd hqe (Nat.ne_of_lt (h.armedLt q hq))
  have harmL : ∀ q ∈ s.armed ++ [(s.nextTimer, (⟨rid, pid⟩ : TimerCl))],
      q.1 < s.nextTimer + 1 := by
    intro q hq
    rcases List.mem_append.mp hq with h' | h'
    · exact Nat.lt_succ_of_lt (h.armedLt q h')
    · simp only [List.mem_singleton] at h'
      rw [h']
      exact Nat.lt_succ_self _
  unfold registerSend
  cases se with
  | none =>
    exact
      { conn := fun hc => by rw [isConnected] at hc hcon; simp_all
        armedNodup := harmN
        armedLt := harmL }
  | some m =>
    exact
      { conn := fun hc => by rw [isConnected] at hc hcon; simp_all
        armedNodup := harmN.sublist (List.filter_sublist _ |>.map _)
        armedLt := fun q hq => harmL q (List.mem_filter.mp hq).1 }

theorem invB_sendRequestBody {s : St} (reqId : Option String) (iv : Bool)
    (se : Option String) (pid : Nat) (h : InvB s) :
    InvB (sendRequestBody reqId iv se pid s).1 := by
  have hd : InvB (if iv then disconnect s else (s, [])).1 := by
    cases iv
    · exact h
    · exact invB_disconnect h
  unfold sendRequestBody
  simp only
  set s2 : St := { (if iv then disconnect s else (s, [])).1 with
      nextUuid := (pickReqId reqId
        (if iv then disconnect s else (s, [])).1.nextUuid).2 } with hs2
  have h2 : InvB s2 :=
    { conn := hd.conn
      armedNodup := hd.armedNodup
      armedLt := hd.armedLt }
  by_cases hcon : isConnected s2 = true
  · rw [if_neg (by simp [hcon])]
    exact invB_registerSend _ se pid hcon h2
  · rw [if_pos (by simp [hcon])]
    exact h2

theorem invB_sendRequest {s : St} (reqId : Option String) (cs : Bool)
    (iv : Bool) (se : Option String) (h : InvB s) :
    InvB (sendRequest reqId cs iv se s).1 := by
  have h0 : InvB { s with nextPid := s.nextPid + 1 } :=
    { conn := h.conn, armedNodup := h.armedNodup, armedLt := h.armedLt }
  unfold sendRequest
  simp only
  by_cases hcon : isConnected { s with nextPid := s.nextPid + 1 } = true
  · rw [if_pos hcon]
    exact invB_sendRequestBody reqId iv se s.nextPid h0
  · rw [if_neg hcon]
    have hc := invB_connectStep none cs h0
    by_cases hcon2 : isConnected (connectStep none cs
        { s with nextPid := s.nextPid + 1 }).1 = true
    · rw [if_pos hcon2]
      exact invB_sendRequestBody reqId iv se s.nextPid hc
    · rw [if_neg hcon2]
      exact hc

theorem invB_fireStep {s : St} (t : Nat) (h : InvB s) :
    InvB (fireStep t s).1 := by
  unfold fireStep
  cases hf : s.armed.find? (fun q => q.1 == t) with
  | none => exact h
  | some tc =>
    simp only
    have hmid0 : InvB { s with armed := timerClear t s.armed } :=
      { conn := h.conn
        armedNodup := h.armedNodup.sublist (List.filter_sublist _ |>.map _)
        armedLt := fun q hq => h.armedLt q (List.mem_filter.mp hq).1 }
    by_cases hhas : mapHas tc.2.reqId s.pendingRequests = true
    · rw [if_pos hhas]
      apply invB_reconnectStep
      exact
        { conn := fun hc => by
            have := hmid0.conn hc
            simp only at this
            show mapDelete tc.2.reqId s.pendingRequests = []
            rw [this]
            rfl
          armedNodup := hmid0.armedNodup
          armedLt := hmid0.armedLt }
    · rw [if_neg hhas]
      exact invB_reconnectStep hmid0

theorem invB_sendOrphan {s : St} (h : InvB s) :
    InvB (sendRequestOrphan s).1 := by
  unfold sendRequestOrphan
  by_cases hcon : isConnected s = true
  · rw [if_pos hcon]
    exact h
  · rw [if_neg hcon]
    simp only
    have h1 : InvB { s with nextPid := s.nextPid + 1 } :=
      { conn := h.conn
        armedNodup := h.armedNodup
        armedLt := h.armedLt }
    have hd := invB_disconnect h1
    exact
      { conn := fun _ => disconnect_pending_nil h1
        armedNodup := hd.armedNodup
        armedLt := hd.armedLt }

theorem invB_step {s : St} (op : Op) (h : InvB s) : InvB (step op s).1 := by
  cases op with
  | send reqId cs iv se => exact invB_sendRequest reqId cs iv se h
  | sendOrphan => exact invB_sendOrphan h
  | deliver msg => exact invB_handleMessage msg h
  | fire t => exact invB_fireStep t h
  | connectTo n ok => exact invB_connectStep n ok h
  | resolveConnect ok => exact invB_connectResolve ok h
  | disc => exact invB_disconnect h

theorem invB_init : InvB init :=
  { conn := fun _ => rfl
    armedNodup := List.nodup_nil
    armedLt := fun q hq => absurd hq (List.not_mem_nil q) }

/-- Every reachable state satisfies the basic invariant. -/
theorem invB_run (ops : List Op) : InvB (run ops init).1 := by
  suffices h : ∀ s, InvB s → InvB (run ops s).1 from h init invB_init
  induction ops with
  | nil => exact fun s h => h
  | cons op rest ih =>
    intro s h
    exact ih _ (invB_step op h)

/-- The structural invariant of duplicate-free runs: table keys are
pairwise distinct, entry timers are pairwise distinct, and the armed
timers are exactly the timers of the table entries (as a multiset), each
holding its own entry's identifier and promise in its closure — the
"entry and timer torn down together" discipline. -/
structure InvP (s : St) : Prop where
  basic : InvB s
  keysNodup : (s.pendingRequests.map Prod.fst).Nodup
  timersNodup : (s.pendingRequests.map (fun q => q.2.timerId)).Nodup
  matched : s.armed.Perm (s.pendingRequests.map entryTimer)
  timerLt : ∀ q ∈ s.pendingRequests, q.2.timerId < s.nextTimer

theorem dup_disconnect (s : St) :
    (disconnect s).1.dupOverwrite = s.dupOverwrite := by
  cases hws : s.ws <;> simp [disconnect, hws]

theorem dup_connectStep (n : Option String) (ok : Bool) (s : St) :
    (connectStep n ok s).1.dupOverwrite = s.dupOverwrite := by
  unfold connectStep
  by_cases hcon : isConnected s = true
  · rw [if_pos hcon]
  · rw [if_neg hcon]
    cases ok <;> simp [dup_disconnect]

theorem dup_reconnectStep (s : St) :
    (reconnectStep s).1.dupOverwrite = s.dupOverwrite := by
  unfold reconnectStep
  simp [dup_disconnect]

theorem dup_connectResolve (ok : Bool) (s : St) :
    (connectResolve ok s).1.dupOverwrite = s.dupOverwrite := by
  unfold connectResolve
  cases hws : s.ws
  · rfl
  · cases ok
    · simp [dup_disconnect]
    · simp
  · rfl

theorem dup_handleMessage (msg : Inbound) (s : St) :
    (handleMessage msg s).1.dupOverwrite = s.dupOverwrite := by
  cases msg with
  | malformed => rfl
  | reply id err result =>
    cases id with
    | none => rfl
    | some i =>
      by_cases hi : i = ""
      · simp only [handleMessage, if_pos hi]
      · simp only [handleMessage, if_neg hi]
        cases hg : mapGet i s.pendingRequests <;> rfl

theorem dup_fireStep (t : Nat) (s : St) :
    (fireStep t s).1.dupOverwrite = s.dupOverwrite := by
  unfold fireStep
  cases hf : s.armed.find? (fun q => q.1 == t) with
  | none => rfl
  | some tc =>
    simp only
    by_cases hhas : mapHas tc.2.reqId s.pendingRequests = true
    · rw [if_pos hhas, dup_reconnectStep]
    · rw [if_neg hhas, dup_reconnectStep]

theorem dup_registerSend (rid : String) (se : Option String) (pid : Nat)
    (s : St) : (registerSend rid se pid s).1.dupOverwrite
      = (s.dupOverwrite || mapHas rid s.pendingRequests) := by
  unfold registerSend
  cases se <;> rfl

theorem dup_base (iv : Bool) (s : St) :
    (if iv then disconnect s else (s, [])).1.dupOverwrite = s.dupOverwrite := by
  cases iv
  · rfl
  · exact dup_disconnect s

theorem dup_sendRequestBody_mono {s : St} (reqId : Option String) (iv : Bool)
    (se : Option String) (pid : Nat) (h : s.dupOverwrite = true) :
    (sendRequestBody reqId iv se pid s).1.dupOverwrite = true := by
  unfold sendRequestBody
  simp only
  by_cases hcon : isConnected { (if iv then disconnect s else (s, [])).1 with
      nextUuid := (pickReqId reqId
        (if iv then disconnect s else (s, [])).1.nextUuid).2 } = true
  · rw [if_neg (by simp [hcon])]
    show (registerSend _ se pid _).1.dupOverwrite = true
    rw [dup_registerSend]
    show ((if iv then disconnect s else (s, [])).1.dupOverwrite || _) = true
    rw [dup_base iv s, h]
    rfl
  · rw [if_pos (by simp [hcon])]
    show (if iv then disconnect s else (s, [])).1.dupOverwrite = true
    rw [dup_base iv s, h]

theorem dup_sendRequest_mono {s : St} (reqId : Option String) (cs : Bool)
    (iv : Bool) (se : Option String) (h : s.dupOverwrite = true) :
    (sendRequest reqId cs iv se s).1.dupOverwrite = true := by
  unfold sendRequest
  simp only
  by_cases hcon : isConnected { s with nextPid := s.nextPid + 1 } = true
  · rw [if_pos hcon]
    exact dup_sendRequestBody_mono reqId iv se s.nextPid h
  · rw [if_neg hcon]
    have hc : (connectStep none cs
        { s with nextPid := s.nextPid + 1 }).1.dupOverwrite = true := by
      rw [dup_connectStep]
      exact h
    by_cases hcon2 : isConnected (connectStep none cs
        { s with nextPid := s.nextPid + 1 }).1 = true
    · rw [if_pos hcon2]
      exact dup_sendRequestBody_mono reqId iv se s.nextPid hc
    · rw [if_neg hcon2]
      exact hc

theorem dup_sendOrphan {s : St} (h : s.dupOverwrite = true) :
    (sendRequestOrphan s).1.dupOverwrite = true := by
  unfold sendRequestOrphan
  by_cases hcon : isConnected s = true
  · rw [if_pos hcon]
    exact h
  · rw [if_neg hcon]
    simp only
    show (disconnect { s with
      nextPid := s.nextPid + 1 }).1.dupOverwrite = true
    rw [dup_disconnect]
    exact h

theorem dup_step_mono {s : St} (op : Op) (h : s.dupOverwrite = true) :
    (step op s).1.dupOverwrite = true := by
  cases op with
  | send reqId cs iv se => exact dup_sendRequest_mono reqId cs iv se h
  | sendOrphan => exact dup_sendOrphan h
  | deliver msg => rw [show step (.deliver msg) s = handleMessage msg s
      from rfl, dup_handleMessage]; exact h
  | fire t => rw [show step (.fire t) s = fireStep t s from rfl,
      dup_fireStep]; exact h
  | connectTo n ok => rw [show step (.connectTo n ok) s = connectStep n ok s
      from rfl, dup_connectStep]; exact h
  | resolveConnect ok => rw [show step (.resolveConnect ok) s
      = connectResolve ok s from rfl, dup_connectResolve]; exact h
  | disc => rw [show step .disc s = disconnect s from rfl, dup_disconnect]
            exact h

theorem dup_run_mono {s : St} (ops : List Op) (h : s.dupOverwrite = true) :
    (run ops s).1.dupOverwrite = true := by
  induction ops generalizing s with
  | nil => exact h
  | cons op rest ih => exact ih (dup_step_mono op h)

theorem dup_step_of_run {s : St} {op : Op} {rest : List Op}
    (h : (run (op :: rest) s).1.dupOverwrite = false) :
    (step op s).1.dupOverwrite = false := by
  by_contra hc
  have : (step op s).1.dupOverwrite = true := by
    cases hs : (step op s).1.dupOverwrite
    · exact absurd hs hc
    · rfl
  have := dup_run_mono rest this
  rw [show (run (op :: rest) s).1 = (run rest (step op s).1).1 from rfl] at h
  rw [h] at this
  cases this

theorem timerClear_append_fresh {t : Nat} {c : TimerCl}
    {a : List (Nat × TimerCl)} (h : ∀ q ∈ a, q.1 ≠ t) :
    timerClear t (a ++ [(t, c)]) = a := by
  unfold timerClear
  rw [List.filter_append]
  have h1 : a.filter (fun p => ¬ p.1 == t) = a :=
    List.filter_eq_self.mpr (fun q hq => by simpa using h q hq)
  have h2 : List.filter (fun p => ¬ p.1 == t) [(t, c)] = [] := by simp
  rw [h1, h2, List.append_nil]

theorem mapDelete_append_fresh {k : String} {v : Entry}
    {m : List (String × Entry)} (h : mapHas k m = false) :
    mapDelete k (m ++ [(k, v)]) = m := by
  unfold mapDelete
  rw [List.filter_append]
  have h1 : m.filter (fun p => ¬ p.1 == k) = m := by
    apply List.filter_eq_self.mpr
    intro q hq
    have : ¬ q.1 = k := by
      intro hqe
      rw [show mapHas k m = true from (mapHas_iff k m).mpr
        (List.mem_map.mpr ⟨q, hq, hqe⟩)] at h
      cases h
    simpa using this
  have h2 : List.filter (fun p => ¬ p.1 == k) [(k, v)] = [] := by simp
  rw [h1, h2, List.append_nil]

theorem mapSet_fresh {k : String} (v : Entry) {m : List (String × Entry)}
    (h : mapHas k m = false) : mapSet k v m = m ++ [(k, v)] := by
  unfold mapSet
  rw [if_neg]
  rw [h]
  simp

theorem pids_count_cons_perm {k : String} {e : Entry}
    {m : List (String × Entry)} (hnd : (m.map Prod.fst).Nodup)
    (hmem : (k, e) ∈ m) (p : Nat) :
    (pids m).count p
      = (if e.pid = p then 1 else 0) + (pids (mapDelete k m)).count p := by
  have hperm := (perm_cons_mapDelete hnd hmem).map (fun q => q.2.pid)
  rw [show (pids m).count p
    = (((k, e) :: mapDelete k m).map (fun q => q.2.pid)).count p
    from hperm.count_eq p]
  rw [List.map_cons, List.count_cons]
  by_cases h : e.pid = p <;> simp [h, pids, Nat.add_comm]

theorem invP_init : InvP init :=
  { basic := invB_init
    keysNodup := List.nodup_nil
    timersNodup := List.nodup_nil
    matched := List.Perm.refl _
    timerLt := fun q hq => absurd hq (List.not_mem_nil q) }

theorem drained_armed_nil {s : St} (h : InvP s) :
    s.armed.filter
      (fun tc => ¬ s.pendingRequests.any (fun p => p.2.timerId == tc.1))
      = [] := by
  rw [List.filter_eq_nil_iff]
  intro a ha
  obtain ⟨q, hq, hqe⟩ := List.mem_map.mp (h.matched.mem_iff.mp ha)
  simp only [decide_eq_true_eq, Decidable.not_not, List.any_eq_true]
  refine ⟨q, hq, ?_⟩
  rw [← hqe]
  simp [entryTimer]

theorem invP_disconnect {s : St} (h : InvP s) : InvP (disconnect s).1 := by
  cases hws : s.ws
  · simpa only [disconnect, hws] using h
  all_goals
    simp only [disconnect, hws]
    exact
      { basic := by
          have hb := invB_disconnect h.basic
          simpa only [disconnect, hws] using hb
        keysNodup := List.nodup_nil
        timersNodup := List.nodup_nil
        matched := by rw [drained_armed_nil h]; exact List.Perm.refl _
        timerLt := fun q hq => absurd hq (List.not_mem_nil q) }

theorem mapDelete_entryTimer_filter {s : St} (h : InvP s) {k : String}
    {e : Entry} (hmem : (k, e) ∈ s.pendingRequests) :
    ((mapDelete k s.pendingRequests).map entryTimer).filter
      (fun p => ¬ p.1 == e.timerId)
      = (mapDelete k s.pendingRequests).map entryTimer := by
  apply List.filter_eq_self.mpr
  intro a ha
  obtain ⟨q, hq, hqe⟩ := List.mem_map.mp ha
  have hqp : q ∈ s.pendingRequests := (List.mem_filter.mp hq).1
  have hqk : ¬ q.1 = k := by
    have := (List.mem_filter.mp hq).2
    simpa using this
  have hqt : q.2.timerId ≠ e.timerId := by
    intro heq
    have := List.inj_on_of_nodup_map h.timersNodup hqp hmem heq
    exact hqk (by rw [this])
  rw [← hqe]
  simpa [entryTimer] using hqt

theorem remove_matched {s : St} (h : InvP s) {k : String} {e : Entry}
    (hmem : (k, e) ∈ s.pendingRequests) :
    (timerClear e.timerId s.armed).Perm
      ((mapDelete k s.pendingRequests).map entryTimer) := by
  have h1 : s.armed.Perm
      (entryTimer (k, e) :: (mapDelete k s.pendingRequests).map entryTimer) :=
    h.matched.trans ((perm_cons_mapDelete h.keysNodup hmem).map entryTimer)
  have h2 := h1.filter (fun p => ¬ p.1 == e.timerId)
  rw [List.filter_cons] at h2
  rw [show (decide ¬ ((entryTimer (k, e)).1 == e.timerId) = true) = false
    from by simp [entryTimer]] at h2
  simp only [Bool.false_eq_true, if_false] at h2
  rw [mapDelete_entryTimer_filter h hmem] at h2
  exact h2

theorem invP_remove {s : St} (h : InvP s) {k : String} {e : Entry}
    (hmem : (k, e) ∈ s.pendingRequests) :
    InvP { s with
        pendingRequests := mapDelete k s.pendingRequests
        armed := timerClear e.timerId s.armed } :=
  { basic :=
      { conn := fun hc => by
          show mapDelete k s.pendingRequests = []
          rw [h.basic.conn hc]
          rfl
        armedNodup :=
          h.basic.armedNodup.sublist (List.filter_sublist _ |>.map _)
        armedLt := fun q hq => h.basic.armedLt q (List.mem_filter.mp hq).1 }
    keysNodup := h.keysNodup.sublist (List.filter_sublist _ |>.map _)
    timersNodup := h.timersNodup.sublist (List.filter_sublist _ |>.map _)
    matched := remove_matched h hmem
    timerLt := fun q hq => h.timerLt q (List.mem_filter.mp hq).1 }

theorem invP_connectStep {s : St} (n : Option String) (ok : Bool)
    (h : InvP s) : InvP (connectStep n ok s).1 := by
  unfold connectStep
  by_cases hcon : isConnected s = true
  · rw [if_pos hcon]
    exact h
  · rw [if_neg hcon]
    have hd := invP_disconnect h
    have hp := disconnect_pending_nil h.basic
    cases ok <;> simp only [if_true, if_false, Bool.false_eq_true]
    all_goals exact
      { basic :=
          { conn := fun _ => hp
            armedNodup := hd.basic.armedNodup
            armedLt := hd.basic.armedLt }
        keysNodup := hd.keysNodup
        timersNodup := hd.timersNodup
        matched := hd.matched
        timerLt := hd.timerLt }

theorem invP_reconnectStep {s : St} (h : InvP s) : InvP (reconnectStep s).1 := by
  have hd := invP_disconnect h
  have hp := disconnect_pending_nil h.basic
  unfold reconnectStep
  exact
    { basic :=
        { conn := fun _ => hp
          armedNodup := hd.basic.armedNodup
          armedLt := hd.basic.armedLt }
      keysNodup := hd.keysNodup
      timersNodup := hd.timersNodup
      matched := hd.matched
      timerLt := hd.timerLt }

theorem invP_connectResolve {s : St} (ok : Bool) (h : InvP s) :
    InvP (connectResolve ok s).1 := by
  unfold connectResolve
  cases hws : s.ws
  · exact h
  · cases ok <;> simp only [if_true, if_false, Bool.false_eq_true]
    · exact invP_disconnect h
    · exact
        { basic :=
            { conn := fun _ => h.basic.conn (by simp [isConnected, hws])
              armedNodup := h.basic.armedNodup
              armedLt := h.basic.armedLt }
          keysNodup := h.keysNodup
          timersNodup := h.timersNodup
          matched := h.matched
          timerLt := h.timerLt }
  · exact h

theorem invP_handleMessage {s : St} (msg : Inbound) (h : InvP s) :
    InvP (handleMessage msg s).1 := by
  cases msg with
  | malformed => exact h
  | reply id err result =>
    cases id with
    | none => exact h
    | some i =>
      by_cases hi : i = ""
      · simp only [handleMessage, if_pos hi]
        exact h
      · simp only [handleMessage, if_neg hi]
        cases hg : mapGet i s.pendingRequests with
        | none => exact h
        | some e => exact invP_remove h (mapGet_mem hg)

theorem fire_entry {s : St} (h : InvP s) {t : Nat} {tc : Nat × TimerCl}
    (hf : s.armed.find? (fun q => q.1 == t) = some tc) :
    tc.1 = t ∧ (tc.2.reqId, (⟨tc.2.pid, t⟩ : Entry)) ∈ s.pendingRequests := by
  have ht : tc.1 = t := by simpa using List.find?_some hf
  have hmem := List.mem_of_find?_eq_some hf
  obtain ⟨q, hq, hqe⟩ := List.mem_map.mp (h.matched.mem_iff.mp hmem)
  have h1 : q.2.timerId = tc.1 := by rw [← hqe]; rfl
  have h2 : q.1 = tc.2.reqId := by rw [← hqe]; rfl
  have h3 : q.2.pid = tc.2.pid := by rw [← hqe]; rfl
  refine ⟨ht, ?_⟩
  have : q = (tc.2.reqId, (⟨tc.2.pid, t⟩ : Entry)) := by
    cases q with
    | mk q1 q2 =>
      cases q2 with
      | mk qp qt =>
        simp only at h1 h2 h3
        rw [h2, h3, ← ht, ← h1]
  rwa [this] at hq

theorem fire_has {s : St} (h : InvP s) {t : Nat} {tc : Nat × TimerCl}
    (hf : s.armed.find? (fun q => q.1 == t) = some tc) :
    mapHas tc.2.reqId s.pendingRequests = true :=
  (mapHas_iff _ _).mpr (List.mem_map.mpr
    ⟨_, (fire_entry h hf).2, rfl⟩)

theorem invP_fireStep {s : St} (t : Nat) (h : InvP s) :
    InvP (fireStep t s).1 := by
  unfold fireStep
  cases hf : s.armed.find? (fun q => q.1 == t) with
  | none => exact h
  | some tc =>
    simp only
    rw [if_pos (fire_has h hf)]
    apply invP_reconnectStep
    have hmem := (fire_entry h hf).2
    have hrm := invP_remove h hmem
    simpa only using hrm

theorem invP_registerSend {s : St} (rid : String) (se : Option String)
    (pid : Nat) (hcon : isConnected s = true)
    (hdup : mapHas rid s.pendingRequests = false) (h : InvP s) :
    InvP (registerSend rid se pid s).1 := by
  have hknotin : rid ∉ s.pendingRequests.map Prod.fst := by
    intro hk
    rw [(mapHas_iff _ _).mpr hk] at hdup
    cases hdup
  have hset := mapSet_fresh (⟨pid, s.nextTimer⟩ : Entry) hdup
  have hkeys : ((s.pendingRequests ++ [(rid, (⟨pid, s.nextTimer⟩ : Entry))]).map
      Prod.fst).Nodup := by
    rw [List.map_append]
    refine List.Nodup.append h.keysNodup (by simp) ?_
    intro a ha hb
    simp only [List.map_cons, List.map_nil, List.mem_singleton] at hb
    subst hb
    exact hknotin ha
  have htimers : ((s.pendingRequests ++ [(rid, (⟨pid, s.nextTimer⟩ : Entry))]).map
      (fun q => q.2.timerId)).Nodup := by
    rw [List.map_append]
    refine List.Nodup.append h.timersNodup (by simp) ?_
    intro a ha hb
    simp only [List.map_cons, List.map_nil, List.mem_singleton] at hb
    subst hb
    obtain ⟨q, hq, hqe⟩ := List.mem_map.mp ha
    exact absurd hqe (Nat.ne_of_lt (h.timerLt q hq))
  have hmatch : (s.armed ++ [(s.nextTimer, (⟨rid, pid⟩ : TimerCl))]).Perm
      ((s.pendingRequests ++ [(rid, (⟨pid, s.nextTimer⟩ : Entry))]).map
        entryTimer) := by
    rw [List.map_append]
    exact h.matched.append (List.Perm.refl _)
  have hlt : ∀ q ∈ s.pendingRequests ++ [(rid, (⟨pid, s.nextTimer⟩ : Entry))],
      q.2.timerId < s.nextTimer + 1 := by
    intro q hq
    rcases List.mem_append.mp hq with h' | h'
    · exact Nat.lt_succ_of_lt (h.timerLt q h')
    · simp only [List.mem_singleton] at h'
      rw [h']
      exact Nat.lt_succ_self _
  have hbase := invB_registerSend rid se pid hcon h.basic
  cases se with
  | none =>
    refine { basic := hbase, keysNodup := ?_, timersNodup := ?_,
             matched := ?_, timerLt := ?_ }
    · show (List.map Prod.fst (mapSet rid (⟨pid, s.nextTimer⟩ : Entry)
        s.pendingRequests)).Nodup
      rw [hset]
      exact hkeys
    · show (List.map (fun q => q.2.timerId)
        (mapSet rid (⟨pid, s.nextTimer⟩ : Entry) s.pendingRequests)).Nodup
      rw [hset]
      exact htimers
    · show (s.armed ++ [(s.nextTimer, (⟨rid, pid⟩ : TimerCl))]).Perm
        (List.map entryTimer (mapSet rid (⟨pid, s.nextTimer⟩ : Entry)
          s.pendingRequests))
      rw [hset]
      exact hmatch
    · show ∀ q ∈ mapSet rid (⟨pid, s.nextTimer⟩ : Entry) s.pendingRequests,
        q.2.timerId < s.nextTimer + 1
      rw [hset]
      exact hlt
  | some m =>
    have harm : timerClear s.nextTimer
        (s.armed ++ [(s.nextTimer, (⟨rid, pid⟩ : TimerCl))]) = s.armed :=
      timerClear_append_fresh
        (fun q hq => Nat.ne_of_lt (h.basic.armedLt q hq))
    have hpend : mapDelete rid (mapSet rid (⟨pid, s.nextTimer⟩ : Entry)
        s.pendingRequests) = s.pendingRequests := by
      rw [hset]
      exact mapDelete_append_fresh hdup
    refine { basic := hbase, keysNodup := ?_, timersNodup := ?_,
             matched := ?_, timerLt := ?_ }
    · show (List.map Prod.fst (mapDelete rid (mapSet rid
        (⟨pid, s.nextTimer⟩ : Entry) s.pendingRequests))).Nodup
      rw [hpend]
      exact h.keysNodup
    · show (List.map (fun q => q.2.timerId) (mapDelete rid (mapSet rid
        (⟨pid, s.nextTimer⟩ : Entry) s.pendingRequests))).Nodup
      rw [hpend]
      exact h.timersNodup
    · show (timerClear s.nextTimer (s.armed
        ++ [(s.nextTimer, (⟨rid, pid⟩ : TimerCl))])).Perm
        (List.map entryTimer (mapDelete rid (mapSet rid
          (⟨pid, s.nextTimer⟩ : Entry) s.pendingRequests)))
      rw [harm, hpend]
      exact h.matched
    · show ∀ q ∈ mapDelete rid (mapSet rid (⟨pid, s.nextTimer⟩ : Entry)
        s.pendingRequests), q.2.timerId < s.nextTimer + 1
      rw [hpend]
      exact fun q hq => Nat.lt_succ_of_lt (h.timerLt q hq)

theorem invP_sendRequestBody {s : St} (reqId : Option String) (iv : Bool)
    (se : Option String) (pid : Nat)
    (hdup : (sendRequestBody reqId iv se pid s).1.dupOverwrite = false)
    (h : InvP s) : InvP (sendRequestBody reqId iv se pid s).1 := by
  have hd : InvP (if iv then disconnect s else (s, [])).1 := by
    cases iv
    · exact h
    · exact invP_disconnect h
  have h2 : InvP { (if iv then disconnect s else (s, [])).1 with
      nextUuid := (pickReqId reqId
        (if iv then disconnect s else (s, [])).1.nextUuid).2 } :=
    { basic :=
        { conn := hd.basic.conn
          armedNodup := hd.basic.armedNodup
          armedLt := hd.basic.armedLt }
      keysNodup := hd.keysNodup
      timersNodup := hd.timersNodup
      matched := hd.matched
      timerLt := hd.timerLt }
  unfold sendRequestBody at hdup ⊢
  simp only at hdup ⊢
  by_cases hcon : isConnected { (if iv then disconnect s else (s, [])).1 with
      nextUuid := (pickReqId reqId
        (if iv then disconnect s else (s, [])).1.nextUuid).2 } = true
  · rw [if_neg (by simp [hcon])] at hdup ⊢
    have hdup2 := hdup
    rw [show ((registerSend (pickReqId reqId
        (if iv then disconnect s else (s, [])).1.nextUuid).1 se pid
        { (if iv then disconnect s else (s, [])).1 with
          nextUuid := (pickReqId reqId
            (if iv then disconnect s else (s, [])).1.nextUuid).2 }).1,
        (if iv then disconnect s else (s, [])).2
          ++ (registerSend (pickReqId reqId
            (if iv then disconnect s else (s, [])).1.nextUuid).1 se pid
            { (if iv then disconnect s else (s, [])).1 with
              nextUuid := (pickReqId reqId
                (if iv then disconnect s else (s, [])).1.nextUuid).2 }).2).1
      = (registerSend (pickReqId reqId
        (if iv then disconnect s else (s, [])).1.nextUuid).1 se pid
        { (if iv then disconnect s else (s, [])).1 with
          nextUuid := (pickReqId reqId
            (if iv then disconnect s else (s, [])).1.nextUuid).2 }).1
      from rfl] at hdup2
    rw [dup_registerSend] at hdup2
    exact invP_registerSend _ se pid hcon
      (Bool.or_eq_false_iff.mp hdup2).2 h2
  · rw [if_pos (by simp [hcon])]
    exact h2

theorem invP_sendRequest {s : St} (reqId : Option String) (cs : Bool)
    (iv : Bool) (se : Option String)
    (hdup : (sendRequest reqId cs iv se s).1.dupOverwrite = false)
    (h : InvP s) : InvP (sendRequest reqId cs iv se s).1 := by
  have h0 : InvP { s with nextPid := s.nextPid + 1 } :=
    { basic :=
        { conn := h.basic.conn
          armedNodup := h.basic.armedNodup
          armedLt := h.basic.armedLt }
      keysNodup := h.keysNodup
      timersNodup := h.timersNodup
      matched := h.matched
      timerLt := h.timerLt }
  unfold sendRequest at hdup ⊢
  simp only at hdup ⊢
  by_cases hcon : isConnected { s with nextPid := s.nextPid + 1 } = true
  · rw [if_pos hcon] at hdup ⊢
    exact invP_sendRequestBody reqId iv se s.nextPid hdup h0
  · rw [if_neg hcon] at hdup ⊢
    have hc := invP_connectStep none cs h0
    by_cases hcon2 : isConnected (connectStep none cs
        { s with nextPid := s.nextPid + 1 }).1 = true
    · rw [if_pos hcon2] at hdup ⊢
      exact invP_sendRequestBody reqId iv se s.nextPid hdup hc
    · rw [if_neg hcon2]
      exact hc

theorem invP_sendOrphan {s : St} (h : InvP s) :
    InvP (sendRequestOrphan s).1 := by
  unfold sendRequestOrphan
  by_cases hcon : isConnected s = true
  · rw [if_pos hcon]
    exact h
  · rw [if_neg hcon]
    simp only
    have h0 : InvP { s with nextPid := s.nextPid + 1 } :=
      { basic :=
          { conn := h.basic.conn
            armedNodup := h.basic.armedNodup
            armedLt := h.basic.armedLt }
        keysNodup := h.keysNodup
        timersNodup := h.timersNodup
        matched := h.matched
        timerLt := h.timerLt }
    have hd := invP_disconnect h0
    exact
      { basic :=
          { conn := fun _ => disconnect_pending_nil h0.basic
            armedNodup := hd.basic.armedNodup
            armedLt := hd.basic.armedLt }
        keysNodup := hd.keysNodup
        timersNodup := hd.timersNodup
        matched := hd.matched
        timerLt := hd.timerLt }

theorem invP_step {s : St} (op : Op)
    (hdup : (step op s).1.dupOverwrite = false) (h : InvP s) :
    InvP (step op s).1 := by
  cases op with
  | send reqId cs iv se => exact invP_sendRequest reqId cs iv se hdup h
  | sendOrphan => exact invP_sendOrphan h
  | deliver msg => exact invP_handleMessage msg h
  | fire t => exact invP_fireStep t h
  | connectTo n ok => exact invP_connectStep n ok h
  | resolveConnect ok => exact invP_connectResolve ok h
  | disc => exact invP_disconnect h

/-- The promise accounting of a run: every allocated promise is either
settled exactly once in the trace, abandoned exactly once by an orphaned
connect, or live in the table, and promises not yet allocated appear
nowhere. -/
def Bal (s : St) (evs : List Ev) : Prop :=
  ∀ p, (if p < s.nextPid then 1 else 0)
    = acct evs p + (pids s.pendingRequests).count p

/-- Mid-`sendRequest` accounting: promise `x` has been allocated by the
call in progress but is not yet settled or registered. -/
def BalX (x : Nat) (s : St) (evs : List Ev) : Prop :=
  (∀ p, p ≠ x → (if p < s.nextPid then 1 else 0)
    = acct evs p + (pids s.pendingRequests).count p)
  ∧ x < s.nextPid ∧ acct evs x = 0
  ∧ (pids s.pendingRequests).count x = 0

theorem bal_init : Bal init [] := by
  intro p
  simp [init, acct, cnt, orphanCnt, pids]

theorem bal_noop {s : St} {evs : List Ev} (hb : Bal s evs) :
    Bal s (evs ++ []) := by
  intro p
  rw [List.append_nil]
  exact hb p

theorem balX_noop {x : Nat} {s : St} {evs : List Ev} (hx : BalX x s evs) :
    BalX x s (evs ++ []) := by
  obtain ⟨h1, h2, h3, h4⟩ := hx
  refine ⟨?_, h2, ?_, h4⟩
  · intro p hp
    rw [acct_append, acct_nil, Nat.add_zero]
    exact h1 p hp
  · rw [acct_append, acct_nil, Nat.add_zero]
    exact h3

theorem bal_disconnect {s : St} {evs : List Ev} (hb : Bal s evs) :
    Bal (disconnect s).1 (evs ++ (disconnect s).2) := by
  cases hws : s.ws <;> simp only [disconnect, hws]
  · intro p
    rw [acct_append, acct_nil, Nat.add_zero]
    exact hb p
  all_goals
    intro p
    rw [acct_append, acct_drain]
    show (if p < s.nextPid then 1 else 0)
      = acct evs p + (pids s.pendingRequests).count p
        + (pids ([] : List (String × Entry))).count p
    rw [show (pids ([] : List (String × Entry))).count p = 0 from rfl,
      Nat.add_zero]
    exact hb p

theorem bal_connectStep {s : St} {evs : List Ev} (n : Option String)
    (ok : Bool) (hb : Bal s evs) :
    Bal (connectStep n ok s).1 (evs ++ (connectStep n ok s).2) := by
  unfold connectStep
  by_cases hcon : isConnected s = true
  · rw [if_pos hcon]
    intro p
    rw [acct_append, acct_nil, Nat.add_zero]
    exact hb p
  · rw [if_neg hcon]
    have hd := bal_disconnect hb
    cases ok <;> simp only [if_true, if_false, Bool.false_eq_true]
    · exact fun p => hd p
    · exact fun p => hd p

theorem bal_reconnectStep {s : St} {evs : List Ev} (hb : Bal s evs) :
    Bal (reconnectStep s).1 (evs ++ (reconnectStep s).2) := by
  have hd := bal_disconnect hb
  unfold reconnectStep
  intro p
  rw [show evs ++ ((disconnect s).2 ++ [Ev.reconnect])
    = (evs ++ (disconnect s).2) ++ [Ev.reconnect] from
    (List.append_assoc _ _ _).symm, acct_append, acct_reconnect, Nat.add_zero]
  exact hd p

theorem bal_connectResolve {s : St} {evs : List Ev} (ok : Bool)
    (hb : Bal s evs) :
    Bal (connectResolve ok s).1 (evs ++ (connectResolve ok s).2) := by
  unfold connectResolve
  cases hws : s.ws
  · intro p
    rw [acct_append, acct_nil, Nat.add_zero]
    exact hb p
  · cases ok <;> simp only [if_true, if_false, Bool.false_eq_true]
    · exact bal_disconnect hb
    · intro p
      rw [acct_append, acct_nil, Nat.add_zero]
      exact hb p
  · intro p
    rw [acct_append, acct_nil, Nat.add_zero]
    exact hb p

theorem bal_remove_settle {s : St} {evs : List Ev} (h : InvP s)
    (hb : Bal s evs) {k : String} {e : Entry}
    (hmem : (k, e) ∈ s.pendingRequests) (o : Outcome) :
    Bal { s with
        pendingRequests := mapDelete k s.pendingRequests
        armed := timerClear e.timerId s.armed }
      (evs ++ [.settled e.pid o]) := by
  intro p
  have hc := pids_count_cons_perm h.keysNodup hmem p
  have hbp := hb p
  rw [acct_append, acct_settled]
  show (if p < s.nextPid then 1 else 0)
    = acct evs p + (if e.pid = p then 1 else 0)
      + (pids (mapDelete k s.pendingRequests)).count p
  by_cases hp : e.pid = p
  · rw [if_pos hp]
    rw [if_pos hp] at hc
    omega
  · rw [if_neg hp]
    rw [if_neg hp] at hc
    omega

theorem bal_handleMessage {s : St} {evs : List Ev} (msg : Inbound)
    (h : InvP s) (hb : Bal s evs) :
    Bal (handleMessage msg s).1 (evs ++ (handleMessage msg s).2) := by
  cases msg with
  | malformed => exact bal_noop hb
  | reply id err result =>
    cases id with
    | none => exact bal_noop hb
    | some i =>
      by_cases hi : i = ""
      · simp only [handleMessage, if_pos hi]
        exact bal_noop hb
      · simp only [handleMessage, if_neg hi]
        cases hg : mapGet i s.pendingRequests with
        | none => exact bal_noop hb
        | some e => exact bal_remove_settle h hb (mapGet_mem hg) _

theorem bal_fireStep {s : St} {evs : List Ev} (t : Nat) (h : InvP s)
    (hb : Bal s evs) :
    Bal (fireStep t s).1 (evs ++ (fireStep t s).2) := by
  unfold fireStep
  cases hf : s.armed.find? (fun q => q.1 == t) with
  | none => exact bal_noop hb
  | some tc =>
    simp only
    rw [if_pos (fire_has h hf)]
    have hmem := (fire_entry h hf).2
    have h1 := bal_remove_settle h hb hmem
      (.rejected timeoutErr)
    have hP1 := invP_remove h hmem
    have h2 := bal_reconnectStep h1
    intro p
    have := h2 p
    rwa [List.append_assoc] at this

theorem balX_intro {s : St} {evs : List Ev} (hb : Bal s evs) :
    BalX s.nextPid { s with nextPid := s.nextPid + 1 } evs := by
  have hfresh := hb s.nextPid
  rw [if_neg (Nat.lt_irrefl _)] at hfresh
  refine ⟨?_, Nat.lt_succ_self _, ?_, ?_⟩
  · intro p hp
    have hbp := hb p
    by_cases h1 : p < s.nextPid
    · rw [if_pos h1] at hbp
      show (if p < s.nextPid + 1 then 1 else 0) = _
      rw [if_pos (Nat.lt_succ_of_lt h1)]
      exact hbp
    · rw [if_neg h1] at hbp
      show (if p < s.nextPid + 1 then 1 else 0) = _
      rw [if_neg (by omega)]
      exact hbp
  · omega
  · show (pids s.pendingRequests).count s.nextPid = 0
    omega

theorem balX_disconnect {x : Nat} {s : St} {evs : List Ev}
    (hx : BalX x s evs) :
    BalX x (disconnect s).1 (evs ++ (disconnect s).2) := by
  obtain ⟨h1, h2, h3, h4⟩ := hx
  cases hws : s.ws <;> simp only [disconnect, hws]
  · refine ⟨?_, h2, ?_, h4⟩
    · intro p hp
      rw [acct_append, acct_nil, Nat.add_zero]
      exact h1 p hp
    · rw [acct_append, acct_nil, Nat.add_zero]
      exact h3
  all_goals
    refine ⟨?_, h2, ?_, by rw [show (pids ([] : List (String × Entry))).count x
      = 0 from rfl]⟩
  all_goals try
    intro p hp
    rw [acct_append, acct_drain]
    show (if p < s.nextPid then 1 else 0)
      = acct evs p + (pids s.pendingRequests).count p
        + (pids ([] : List (String × Entry))).count p
    rw [show (pids ([] : List (String × Entry))).count p = 0 from rfl,
      Nat.add_zero]
    exact h1 p hp
  all_goals
    rw [acct_append, acct_drain, h3, h4]

theorem balX_connectStep {x : Nat} {s : St} {evs : List Ev}
    (n : Option String) (ok : Bool) (hx : BalX x s evs) :
    BalX x (connectStep n ok s).1 (evs ++ (connectStep n ok s).2) := by
  obtain ⟨h1, h2, h3, h4⟩ := hx
  unfold connectStep
  by_cases hcon : isConnected s = true
  · rw [if_pos hcon]
    refine ⟨?_, h2, ?_, h4⟩
    · intro p hp
      rw [acct_append, acct_nil, Nat.add_zero]
      exact h1 p hp
    · rw [acct_append, acct_nil, Nat.add_zero]
      exact h3
  · rw [if_neg hcon]
    have hd := balX_disconnect ⟨h1, h2, h3, h4⟩
    cases ok <;> simp only [if_true, if_false, Bool.false_eq_true]
    · exact hd
    · exact hd

theorem bal_of_balX_settle {x : Nat} {s : St} {evs : List Ev}
    (hx : BalX x s evs) (o : Outcome) :
    Bal s (evs ++ [.settled x o]) := by
  obtain ⟨h1, h2, h3, h4⟩ := hx
  intro p
  rw [acct_append, acct_settled]
  by_cases hp : p = x
  · subst hp
    rw [if_pos rfl, if_pos h2, h3, h4]
  · have hz : (if x = p then 1 else 0) = 0 := if_neg (fun hh => hp hh.symm)
    rw [hz, Nat.add_zero]
    exact h1 p hp

theorem bal_of_balX_orphan {x : Nat} {s : St} {evs : List Ev}
    (hx : BalX x s evs) :
    Bal s (evs ++ [.orphaned x]) := by
  obtain ⟨h1, h2, h3, h4⟩ := hx
  intro p
  rw [acct_append, acct_orphaned]
  by_cases hp : p = x
  · subst hp
    rw [if_pos rfl, if_pos h2, h3, h4]
  · have hz : (if x = p then 1 else 0) = 0 := if_neg (fun hh => hp hh.symm)
    rw [hz, Nat.add_zero]
    exact h1 p hp

theorem bal_registerSend {x : Nat} {s : St} {evs : List Ev} (rid : String)
    (se : Option String) (hx : BalX x s evs)
    (hdup : mapHas rid s.pendingRequests = false) (h : InvP s) :
    Bal (registerSend rid se x s).1 (evs ++ (registerSend rid se x s).2) := by
  obtain ⟨h1, h2, h3, h4⟩ := hx
  have hset := mapSet_fresh (⟨x, s.nextTimer⟩ : Entry) hdup
  cases se with
  | none =>
    show Bal { s with
        nextTimer := s.nextTimer + 1
        armed := s.armed ++ [(s.nextTimer, (⟨rid, x⟩ : TimerCl))]
        pendingRequests := mapSet rid (⟨x, s.nextTimer⟩ : Entry)
          s.pendingRequests
        dupOverwrite := s.dupOverwrite || mapHas rid s.pendingRequests }
      (evs ++ [.sent rid])
    intro p
    rw [acct_append, acct_sent, Nat.add_zero]
    show (if p < s.nextPid then 1 else 0)
      = acct evs p + (pids (mapSet rid (⟨x, s.nextTimer⟩ : Entry)
        s.pendingRequests)).count p
    rw [hset, show pids (s.pendingRequests
      ++ [(rid, (⟨x, s.nextTimer⟩ : Entry))])
      = pids s.pendingRequests ++ [x] from List.map_append _ _ _,
      List.count_append]
    by_cases hp : p = x
    · subst hp
      rw [if_pos h2, h3, show List.count p [p] = 1 from by simp, h4]
    · rw [show List.count p [x] = 0 from by
        simp [List.count_singleton]
        exact fun hh => hp hh.symm, Nat.add_zero]
      exact h1 p hp
  | some m =>
    have hpend : mapDelete rid (mapSet rid (⟨x, s.nextTimer⟩ : Entry)
        s.pendingRequests) = s.pendingRequests := by
      rw [hset]
      exact mapDelete_append_fresh hdup
    show Bal _ (evs ++ [.settled x (.rejected (sendFailedErr m))])
    intro p
    have := bal_of_balX_settle ⟨h1, h2, h3, h4⟩
      (.rejected (sendFailedErr m)) p
    rw [acct_append, acct_settled] at this ⊢
    show (if p < s.nextPid then 1 else 0)
      = acct evs p + (if x = p then 1 else 0)
        + (pids (mapDelete rid (mapSet rid (⟨x, s.nextTimer⟩ : Entry)
          s.pendingRequests))).count p
    rw [hpend]
    exact this

theorem bal_sendRequestBody {x : Nat} {s : St} {evs : List Ev}
    (reqId : Option String) (iv : Bool) (se : Option String)
    (hdup : (sendRequestBody reqId iv se x s).1.dupOverwrite = false)
    (h : InvP s) (hx : BalX x s evs) :
    Bal (sendRequestBody reqId iv se x s).1
      (evs ++ (sendRequestBody reqId iv se x s).2) := by
  have hd : InvP (if iv then disconnect s else (s, [])).1 := by
    cases iv
    · exact h
    · exact invP_disconnect h
  have hx1 : BalX x (if iv then disconnect s else (s, [])).1
      (evs ++ (if iv then disconnect s else (s, [])).2) := by
    cases iv
    · exact balX_noop hx
    · exact balX_disconnect hx
  have h2 : InvP { (if iv then disconnect s else (s, [])).1 with
      nextUuid := (pickReqId reqId
        (if iv then disconnect s else (s, [])).1.nextUuid).2 } :=
    { basic :=
        { conn := hd.basic.conn
          armedNodup := hd.basic.armedNodup
          armedLt := hd.basic.armedLt }
      keysNodup := hd.keysNodup
      timersNodup := hd.timersNodup
      matched := hd.matched
      timerLt := hd.timerLt }
  have hx2 : BalX x { (if iv then disconnect s else (s, [])).1 with
      nextUuid := (pickReqId reqId
        (if iv then disconnect s else (s, [])).1.nextUuid).2 }
      (evs ++ (if iv then disconnect s else (s, [])).2) := hx1
  unfold sendRequestBody at hdup ⊢
  simp only at hdup ⊢
  by_cases hcon : isConnected { (if iv then disconnect s else (s, [])).1 with
      nextUuid := (pickReqId reqId
        (if iv then disconnect s else (s, [])).1.nextUuid).2 } = true
  · rw [if_neg (by simp [hcon])] at hdup ⊢
    have hdup2 := hdup
    rw [show ((registerSend (pickReqId reqId
        (if iv then disconnect s else (s, [])).1.nextUuid).1 se x
        { (if iv then disconnect s else (s, [])).1 with
          nextUuid := (pickReqId reqId
            (if iv then disconnect s else (s, [])).1.nextUuid).2 }).1,
        (if iv then disconnect s else (s, [])).2
          ++ (registerSend (pickReqId reqId
            (if iv then disconnect s else (s, [])).1.nextUuid).1 se x
            { (if iv then disconnect s else (s, [])).1 with
              nextUuid := (pickReqId reqId
                (if iv then disconnect s else (s, [])).1.nextUuid).2 }).2).1
      = (registerSend (pickReqId reqId
        (if iv then disconnect s else (s, [])).1.nextUuid).1 se x
        { (if iv then disconnect s else (s, [])).1 with
          nextUuid := (pickReqId reqId
            (if iv then disconnect s else (s, [])).1.nextUuid).2 }).1
      from rfl] at hdup2
    rw [dup_registerSend] at hdup2
    have hreg := bal_registerSend _ se hx2
      (Bool.or_eq_false_iff.mp hdup2).2 h2
    intro p
    have := hreg p
    rwa [List.append_assoc] at this
  · rw [if_pos (by simp [hcon])]
    have hst := bal_of_balX_settle hx2 (.rejected notConnectedErr)
    intro p
    have := hst p
    rwa [List.append_assoc] at this

theorem bal_sendRequest {s : St} {evs : List Ev} (reqId : Option String)
    (cs : Bool) (iv : Bool) (se : Option String)
    (hdup : (sendRequest reqId cs iv se s).1.dupOverwrite = false)
    (h : InvP s) (hb : Bal s evs) :
    Bal (sendRequest reqId cs iv se s).1
      (evs ++ (sendRequest reqId cs iv se s).2) := by
  have h0 : InvP { s with nextPid := s.nextPid + 1 } :=
    { basic :=
        { conn := h.basic.conn
          armedNodup := h.basic.armedNodup
          armedLt := h.basic.armedLt }
      keysNodup := h.keysNodup
      timersNodup := h.timersNodup
      matched := h.matched
      timerLt := h.timerLt }
  have hx := balX_intro hb
  unfold sendRequest at hdup ⊢
  simp only at hdup ⊢
  by_cases hcon : isConnected { s with nextPid := s.nextPid + 1 } = true
  · rw [if_pos hcon] at hdup ⊢
    exact bal_sendRequestBody reqId iv se hdup h0 hx
  · rw [if_neg hcon] at hdup ⊢
    have hc := invP_connectStep none cs h0
    have hxc := balX_connectStep none cs hx
    by_cases hcon2 : isConnected (connectStep none cs
        { s with nextPid := s.nextPid + 1 }).1 = true
    · rw [if_pos hcon2] at hdup ⊢
      have := bal_sendRequestBody reqId iv se hdup hc hxc
      intro p
      have hp := this p
      rwa [List.append_assoc] at hp
    · rw [if_neg hcon2]
      have hst := bal_of_balX_settle hxc (.rejected connectFailedErr)
      intro p
      have := hst p
      rwa [List.append_assoc] at this

theorem bal_sendOrphan {s : St} {evs : List Ev} (hb : Bal s evs) :
    Bal (sendRequestOrphan s).1 (evs ++ (sendRequestOrphan s).2) := by
  unfold sendRequestOrphan
  by_cases hcon : isConnected s = true
  · rw [if_pos hcon]
    intro p
    rw [acct_append, acct_nil, Nat.add_zero]
    exact hb p
  · rw [if_neg hcon]
    simp only
    have hx := balX_intro hb
    have hxd := balX_disconnect hx
    have hfin := bal_of_balX_orphan hxd
    intro p
    have := hfin p
    rwa [List.append_assoc] at this

theorem bal_step {s : St} {evs : List Ev} (op : Op)
    (hdup : (step op s).1.dupOverwrite = false) (h : InvP s)
    (hb : Bal s evs) : Bal (step op s).1 (evs ++ (step op s).2) := by
  cases op with
  | send reqId cs iv se => exact bal_sendRequest reqId cs iv se hdup h hb
  | sendOrphan => exact bal_sendOrphan hb
  | deliver msg => exact bal_handleMessage msg h hb
  | fire t => exact bal_fireStep t h hb
  | connectTo n ok => exact bal_connectStep n ok hb
  | resolveConnect ok => exact bal_connectResolve ok hb
  | disc => exact bal_disconnect hb

/-- Combined invariant over duplicate-free runs. -/
theorem inv_run {s : St} {evs : List Ev} (ops : List Op)
    (hdup : (run ops s).1.dupOverwrite = false) (h : InvP s)
    (hb : Bal s evs) :
    InvP (run ops s).1 ∧ Bal (run ops s).1 (evs ++ (run ops s).2) := by
  induction ops generalizing s evs with
  | nil => exact ⟨h, bal_noop hb⟩
  | cons op rest ih =>
    have hdstep : (step op s).1.dupOverwrite = false := dup_step_of_run hdup
    have h1 := invP_step op hdstep h
    have hb1 := bal_step op hdstep h hb
    have hrest : (run rest (step op s).1).1.dupOverwrite = false := hdup
    obtain ⟨h2, hb2⟩ := ih hrest h1 hb1
    refine ⟨h2, ?_⟩
    intro p
    have hx := hb2 p
    show (if p < (run rest (step op s).1).1.nextPid then 1 else 0)
      = acct (evs ++ ((step op s).2 ++ (run rest (step op s).1).2)) p
        + (pids (run rest (step op s).1).1.pendingRequests).count p
    rw [show evs ++ ((step op s).2 ++ (run rest (step op s).1).2)
      = (evs ++ (step op s).2) ++ (run rest (step op s).1).2 from
      (List.append_assoc _ _ _).symm]
    exact hx

theorem invariants_of_run (ops : List Op)
    (hdup : (run ops init).1.dupOverwrite = false) :
    InvP (run ops init).1 ∧ Bal (run ops init).1 (run ops init).2 := by
  obtain ⟨h1, h2⟩ := inv_run ops hdup invP_init bal_init
  refine ⟨h1, ?_⟩
  intro p
  have := h2 p
  rwa [List.nil_append] at this

theorem mapHas_mapDelete (k : String) (m : List (String × Entry)) :
    mapHas k (mapDelete k m) = false := by
  cases hh : mapHas k (mapDelete k m)
  · rfl
  · exfalso
    obtain ⟨q, hq, hqe⟩ := List.mem_map.mp ((mapHas_iff _ _).mp hh)
    have := (List.mem_filter.mp hq).2
    simp only [decide_eq_true_eq] at this
    exact this (by simpa using hqe)

theorem mapGet_mapDelete (k : String) (m : List (String × Entry)) :
    mapGet k (mapDelete k m) = none := by
  unfold mapGet
  rw [List.find?_eq_none.mpr]
  · rfl
  · intro q hq
    have := (List.mem_filter.mp hq).2
    simpa using this

theorem mapDelete_idem (k : String) (m : List (String × Entry)) :
    mapDelete k (mapDelete k m) = mapDelete k m :=
  List.filter_eq_self.mpr (fun q hq => (List.mem_filter.mp hq).2)

theorem run_append_fst (a b : List Op) (s : St) :
    (run (a ++ b) s).1 = (run b (run a s).1).1 := by
  induction a generalizing s with
  | nil => rfl
  | cons op rest ih =>
    show (run (rest ++ b) (step op s).1).1 = _
    rw [ih]
    rfl

theorem run_append_snd (a b : List Op) (s : St) :
    (run (a ++ b) s).2 = (run a s).2 ++ (run b (run a s).1).2 := by
  induction a generalizing s with
  | nil => rfl
  | cons op rest ih =>
    show (step op s).2 ++ (run (rest ++ b) (step op s).1).2 = _
    rw [ih]
    show _ = ((step op s).2 ++ (run rest (step op s).1).2)
      ++ (run b (run rest (step op s).1).1).2
    rw [List.append_assoc]

theorem reconnectStep_ws (s : St) :
    (reconnectStep s).1.ws = .connecting (connectOptions none) := rfl

theorem reconnectStep_pending_cases (s : St) :
    (reconnectStep s).1.pendingRequests = [] ∨
      (reconnectStep s).1.pendingRequests = s.pendingRequests := by
  show (disconnect s).1.pendingRequests = [] ∨
    (disconnect s).1.pendingRequests = s.pendingRequests
  cases hws : s.ws
  · exact Or.inr (by simp only [disconnect, hws])
  · exact Or.inl (by simp only [disconnect, hws])
  · exact Or.inl (by simp only [disconnect, hws])

theorem count_reconnect_drain (m : List (String × Entry)) :
    (drainEvents m).count Ev.reconnect = 0 := by
  rw [List.count_eq_zero]
  intro hmem
  obtain ⟨q, _, hqe⟩ := List.mem_map.mp hmem
  cases hqe

theorem isSent_def (e : Ev) :
    (match e with | .sent _ => true | _ => false) = true
      ↔ ∃ r, e = .sent r := by
  cases e <;> simp

theorem countP_sent_drain (m : List (String × Entry)) :
    (drainEvents m).countP
      (fun e => match e with | .sent _ => true | _ => false) = 0 := by
  rw [List.countP_eq_zero]
  intro e hmem
  obtain ⟨q, _, hqe⟩ := List.mem_map.mp hmem
  rw [← hqe]
  simp

/-- C3 (counterexample).  Two `sendRequest` calls reusing identifier `"X"`:
after the second call the first call's timer (handle 0) is still armed even
though the first call's entry has been displaced from the table — no
current table entry owns timer 0, refuting "an entry and its timer are
torn down together". -/
theorem C3_counterexample :
    ((0, (⟨"X", 0⟩ : TimerCl)) ∈ (run [.send (some "X") true false none,
      .send (some "X") true false none] init).1.armed) ∧
    (∀ q ∈ (run [.send (some "X") true false none,
      .send (some "X") true false none] init).1.pendingRequests,
      q.2.timerId ≠ 0) := by
  decide

/-- C3 (amended): in every reachable state of a run in which no
`sendRequest` ever overwrote a pending entry (no identifier reuse), an
identifier appears in the table at most once, the armed timers are exactly
the timers of the current table entries with matching closures (entry and
timer torn down together, no orphan armed timer), and removal is
idempotent (deleting an absent identifier is a no-op).  With identifier
reuse the displaced entry's timer stays armed (see the counterexample). -/
theorem C3_table_discipline (ops : List Op)
    (hdup : (run ops init).1.dupOverwrite = false) :
    ((run ops init).1.pendingRequests.map Prod.fst).Nodup ∧
    (run ops init).1.armed.Perm
      ((run ops init).1.pendingRequests.map entryTimer) ∧
    (∀ k m, mapDelete k (mapDelete k m) = mapDelete k m) := by
  obtain ⟨hP, _⟩ := invariants_of_run ops hdup
  exact ⟨hP.keysNodup, hP.matched, mapDelete_idem⟩

theorem C3_table_discipline_witness :
    ((run [.send (some "A") true false none] init).1.dupOverwrite = false) ∧
    (((run [.send (some "A") true false none]
        init).1.pendingRequests.map Prod.fst).Nodup ∧
      (run [.send (some "A") true false none] init).1.armed.Perm
        ((run [.send (some "A") true false none]
          init).1.pendingRequests.map entryTimer) ∧
      (∀ k m, mapDelete k (mapDelete k m) = mapDelete k m)) :=
  ⟨by decide, C3_table_discipline [.send (some "A") true false none]
    (by decide)⟩

/-- C4: after a `disconnect()` call in any reachable state — whether or not
a handle exists — the table is empty, `isConnected` is false, the emitted
events are exactly one `Connection: "Connection closed"` rejection per
entry that was pending at the moment of the call, every such entry's timer
is no longer armed, and the rejection error is the `Connection` tag with
message `"Connection closed"`. -/
theorem C4_disconnect_drains (ops : List Op) :
    ((disconnect (run ops init).1).1.pendingRequests = []) ∧
    (isConnected (disconnect (run ops init).1).1 = false) ∧
    ((disconnect (run ops init).1).2
      = drainEvents (run ops init).1.pendingRequests) ∧
    (∀ q ∈ (run ops init).1.pendingRequests,
      Ev.settled q.2.pid (.rejected connClosedErr)
        ∈ (disconnect (run ops init).1).2 ∧
      ∀ tc ∈ (disconnect (run ops init).1).1.armed, tc.1 ≠ q.2.timerId) ∧
    connClosedErr = ⟨.connection, "Connection closed", none⟩ := by
  have hB := invB_run ops
  refine ⟨disconnect_pending_nil hB, disconnect_not_connected _,
    disconnect_evs hB, ?_, rfl⟩
  intro q hq
  refine ⟨?_, fun tc htc => disconnect_timer_cleared hB q hq tc htc⟩
  rw [disconnect_evs hB]
  exact List.mem_map.mpr ⟨q, hq, rfl⟩

theorem C4_disconnect_drains_witness :
    ((disconnect (run [.send (some "A") true false none]
        init).1).1.pendingRequests = []) ∧
    (isConnected (disconnect (run [.send (some "A") true false none]
        init).1).1 = false) ∧
    ((disconnect (run [.send (some "A") true false none] init).1).2
      = drainEvents (run [.send (some "A") true false none]
        init).1.pendingRequests) ∧
    (∀ q ∈ (run [.send (some "A") true false none] init).1.pendingRequests,
      Ev.settled q.2.pid (.rejected connClosedErr)
        ∈ (disconnect (run [.send (some "A") true false none] init).1).2 ∧
      ∀ tc ∈ (disconnect (run [.send (some "A") true false none]
        init).1).1.armed, tc.1 ≠ q.2.timerId) ∧
    connClosedErr = ⟨.connection, "Connection closed", none⟩ :=
  C4_disconnect_drains [.send (some "A") true false none]

/-- C7: an inbound message that parses, carries a truthy identifier, and
matches a table entry makes `handleMessage` cancel that entry's timer
(no timer with that handle stays armed), remove the entry (the identifier
no longer resolves), and settle the waiter: a rejection with a
`ToolExecution` error carrying `error.message || "Unknown error"` and the
error's details when an error field is present, and a resolution with the
payload's result field otherwise. -/
theorem C7_reply_routing (s : St) (i : String)
    (err : Option (Option String × Option String)) (res : Option String)
    (e : Entry) (hi : i ≠ "") (hg : mapGet i s.pendingRequests = some e) :
    (∀ c, (e.timerId, c) ∉
      (handleMessage (.reply (some i) err res) s).1.armed) ∧
    mapGet i (handleMessage (.reply (some i) err res)
      s).1.pendingRequests = none ∧
    (handleMessage (.reply (some i) err res) s).2
      = [.settled e.pid (match err with
          | some ep => .rejected (toolExecutionErr ep.1 ep.2)
          | none => .resolved res)] ∧
    (∀ mes det, toolExecutionErr mes det
      = ⟨.toolExecution, jsOr mes "Unknown error", det⟩) := by
  have hred : handleMessage (.reply (some i) err res) s
      = ({ s with
            armed := timerClear e.timerId s.armed
            pendingRequests := mapDelete i s.pendingRequests },
        [.settled e.pid (match err with
          | some ep => .rejected (toolExecutionErr ep.1 ep.2)
          | none => .resolved res)]) := by
    simp only [handleMessage, if_neg hi, hg]
  rw [hred]
  refine ⟨?_, mapGet_mapDelete i s.pendingRequests, rfl, fun mes det => rfl⟩
  intro c hc
  have := (List.mem_filter.mp hc).2
  simp at this

theorem C7_reply_routing_witness :
    let s₁ := (run [.send (some "A") true false none] init).1
    (("A" : String) ≠ "") ∧ mapGet "A" s₁.pendingRequests
        = some (⟨0, 0⟩ : Entry) ∧
    ((∀ c, ((0 : Nat), c) ∉ (handleMessage
        (.reply (some "A") (some (some "boom", none)) none) s₁).1.armed) ∧
      mapGet "A" (handleMessage (.reply (some "A") (some (some "boom", none))
        none) s₁).1.pendingRequests = none ∧
      (handleMessage (.reply (some "A") (some (some "boom", none)) none)
        s₁).2 = [.settled 0 (.rejected (toolExecutionErr (some "boom")
          none))] ∧
      (∀ mes det, toolExecutionErr mes det
        = ⟨.toolExecution, jsOr mes "Unknown error", det⟩)) :=
  ⟨by decide, by decide,
    C7_reply_routing _ "A" (some (some "boom", none)) none ⟨0, 0⟩
      (by decide) (by decide)⟩

/-- C8: an inbound message that fails to parse, lacks a (truthy)
identifier, or carries an identifier not present in the table leaves
`handleMessage` without any observable effect: the state is returned
unchanged and no settle event is emitted (the handler also cannot throw —
the parse failure is caught inside it). -/
theorem C8_silent_drop (s : St) (msg : Inbound)
    (h : msg = .malformed ∨ (∃ err res, msg = .reply none err res) ∨
      (∃ i err res, msg = .reply (some i) err res ∧
        (i = "" ∨ mapGet i s.pendingRequests = none))) :
    handleMessage msg s = (s, []) := by
  rcases h with h | ⟨err, res, h⟩ | ⟨i, err, res, h, hcase⟩
  · rw [h]
    rfl
  · rw [h]
    rfl
  · rw [h]
    rcases hcase with hi | hg
    · simp only [handleMessage, if_pos hi]
    · by_cases hi : i = ""
      · simp only [handleMessage, if_pos hi]
      · simp only [handleMessage, if_neg hi, hg]

theorem C8_silent_drop_witness :
    ((Inbound.reply (some "Z") none (some "late"))
      = .malformed ∨ (∃ err res, (Inbound.reply (some "Z") none
        (some "late")) = .reply none err res) ∨
      (∃ i err res, (Inbound.reply (some "Z") none (some "late"))
        = .reply (some i) err res ∧ (i = "" ∨ mapGet i
          (run [.send (some "A") true false none]
            init).1.pendingRequests = none))) ∧
    handleMessage (.reply (some "Z") none (some "late"))
      (run [.send (some "A") true false none] init).1
      = ((run [.send (some "A") true false none] init).1, []) :=
  ⟨Or.inr (Or.inr ⟨"Z", none, some "late", rfl, Or.inr (by decide)⟩),
    C8_silent_drop _ _ (Or.inr (Or.inr ⟨"Z", none, some "late", rfl,
      Or.inr (by decide)⟩))⟩

/-- C9: every reconnect — including the one fired by a request timeout —
invokes `connect` with no argument, so the fresh handle is created with
`X-Client-Name` header `""` and origin `""`, whatever client name any
earlier `start`/`connect` call supplied (the state, and hence any
previously stored label, is universally quantified). -/
theorem C9_reconnect_unlabelled (s : St) (t : Nat) (tc : Nat × TimerCl)
    (hf : s.armed.find? (fun q => q.1 == t) = some tc) :
    (fireStep t s).1.ws = .connecting (connectOptions none) ∧
    (∀ s' : St, (reconnectStep s').1.ws
      = .connecting (connectOptions none)) ∧
    connectOptions none = ⟨"", ""⟩ := by
  refine ⟨?_, fun s' => reconnectStep_ws s', rfl⟩
  unfold fireStep
  rw [hf]
  simp only
  by_cases hhas : mapHas tc.2.reqId s.pendingRequests = true
  · rw [if_pos hhas]
    exact reconnectStep_ws _
  · rw [if_neg hhas]
    exact reconnectStep_ws _

theorem C9_reconnect_unlabelled_witness :
    ((run [.connectTo (some "my-client") true,
        .send (some "A") true false none] init).1.armed.find?
      (fun q => q.1 == 0) = some (0, (⟨"A", 0⟩ : TimerCl))) ∧
    ((fireStep 0 (run [.connectTo (some "my-client") true,
        .send (some "A") true false none] init).1).1.ws
        = .connecting (connectOptions none) ∧
      (∀ s' : St, (reconnectStep s').1.ws
        = .connecting (connectOptions none)) ∧
      connectOptions none = ⟨"", ""⟩) :=
  ⟨by decide, C9_reconnect_unlabelled _ 0 (0, ⟨"A", 0⟩) (by decide)⟩

theorem mem_mapSet_ne {k rid : String} {e' v : Entry}
    {m : List (String × Entry)} (hne : k ≠ rid) :
    (k, e') ∈ mapSet rid v m ↔ (k, e') ∈ m := by
  unfold mapSet
  by_cases hh : mapHas rid m = true
  · rw [if_pos hh]
    constructor
    · intro hq
      obtain ⟨a, ha, hqe⟩ := List.mem_map.mp hq
      by_cases hak : (a.1 == rid) = true
      · rw [if_pos hak] at hqe
        exact absurd (congrArg Prod.fst hqe).symm (by simpa using hne)
      · rw [if_neg hak] at hqe
        rwa [← hqe]
    · intro hq
      refine List.mem_map.mpr ⟨(k, e'), hq, ?_⟩
      rw [if_neg (by simpa using hne)]
  · rw [if_neg hh]
    constructor
    · intro hq
      rcases List.mem_append.mp hq with h' | h'
      · exact h'
      · simp only [List.mem_singleton] at h'
        exact absurd (congrArg Prod.fst h') hne
    · exact fun hq => List.mem_append.mpr (Or.inl hq)

theorem fireStep_ws {s : St} {t : Nat} {tc : Nat × TimerCl}
    (hf : s.armed.find? (fun q => q.1 == t) = some tc) :
    (fireStep t s).1.ws = .connecting (connectOptions none) := by
  unfold fireStep
  rw [hf]
  simp only
  by_cases hhas : mapHas tc.2.reqId s.pendingRequests = true
  · rw [if_pos hhas]
    exact reconnectStep_ws _
  · rw [if_neg hhas]
    exact reconnectStep_ws _

theorem fireStep_pending_nil {s : St} {t : Nat} {tc : Nat × TimerCl}
    (hB : InvB s) (hf : s.armed.find? (fun q => q.1 == t) = some tc) :
    (fireStep t s).1.pendingRequests = [] := by
  have hres := invB_fireStep t hB
  exact hres.conn (by simp [isConnected, fireStep_ws hf])

theorem fireStep_evs {s : St} {t : Nat} {tc : Nat × TimerCl} (hB : InvB s)
    (hf : s.armed.find? (fun q => q.1 == t) = some tc)
    (hhas : mapHas tc.2.reqId s.pendingRequests = true) :
    (fireStep t s).2 = Ev.settled tc.2.pid (.rejected timeoutErr)
      :: (drainEvents (mapDelete tc.2.reqId s.pendingRequests)
        ++ [.reconnect]) := by
  have hB1 : InvB { s with
      armed := timerClear t s.armed
      pendingRequests := mapDelete tc.2.reqId s.pendingRequests } :=
    { conn := fun hc => by
        show mapDelete tc.2.reqId s.pendingRequests = []
        rw [hB.conn hc]
        rfl
      armedNodup := hB.armedNodup.sublist (List.filter_sublist _ |>.map _)
      armedLt := fun q hq => hB.armedLt q (List.mem_filter.mp hq).1 }
  unfold fireStep
  rw [hf]
  simp only
  rw [if_pos hhas]
  show Ev.settled tc.2.pid (.rejected timeoutErr)
    :: (reconnectStep { s with
        armed := timerClear t s.armed
        pendingRequests := mapDelete tc.2.reqId s.pendingRequests }).2 = _
  unfold reconnectStep
  show Ev.settled tc.2.pid (.rejected timeoutErr)
    :: ((disconnect { s with
        armed := timerClear t s.armed
        pendingRequests := mapDelete tc.2.reqId s.pendingRequests }).2
      ++ [.reconnect]) = _
  rw [disconnect_evs hB1]

/-- C5: when a request's timeout timer fires while its identifier is still
in the table (no reply or error received yet), the captured caller is
rejected with a `Timeout: "Request timed out"` error, the identifier is
removed from the table, exactly one `reconnect()` is triggered, no message
is retransmitted, and the configured `REQUEST_TIMEOUT` is 10000 ms. -/
theorem C5_timeout_behavior (ops : List Op) (t : Nat) (c : TimerCl)
    (harm : (t, c) ∈ (run ops init).1.armed)
    (hhas : mapHas c.reqId (run ops init).1.pendingRequests = true) :
    Ev.settled c.pid (.rejected timeoutErr)
      ∈ (fireStep t (run ops init).1).2 ∧
    timeoutErr = ⟨.timeout, "Request timed out", none⟩ ∧
    mapHas c.reqId (fireStep t (run ops init).1).1.pendingRequests
      = false ∧
    (fireStep t (run ops init).1).2.count Ev.reconnect = 1 ∧
    (fireStep t (run ops init).1).2.countP
      (fun e => match e with | .sent _ => true | _ => false) = 0 ∧
    REQUEST_TIMEOUT = 10000 := by
  have hB := invB_run ops
  have hf := find?_eq_some_of_mem_nodup hB.armedNodup harm
  have hevs := fireStep_evs hB hf hhas
  have hnil := fireStep_pending_nil hB hf
  refine ⟨?_, rfl, ?_, ?_, ?_, rfl⟩
  · rw [hevs]
    exact List.mem_cons_self _ _
  · rw [hnil]
    rfl
  · rw [hevs, List.count_cons, List.count_append, count_reconnect_drain]
    simp
  · rw [hevs, List.countP_cons, List.countP_append, countP_sent_drain]
    simp

theorem C5_timeout_behavior_witness :
    (((0 : Nat), (⟨"A", 0⟩ : TimerCl))
      ∈ (run [.send (some "A") true false none] init).1.armed) ∧
    (mapHas "A" (run [.send (some "A") true false none]
      init).1.pendingRequests = true) ∧
    (Ev.settled 0 (.rejected timeoutErr)
      ∈ (fireStep 0 (run [.send (some "A") true false none] init).1).2 ∧
    timeoutErr = ⟨.timeout, "Request timed out", none⟩ ∧
    mapHas "A" (fireStep 0 (run [.send (some "A") true false none]
      init).1).1.pendingRequests = false ∧
    (fireStep 0 (run [.send (some "A") true false none]
      init).1).2.count Ev.reconnect = 1 ∧
    (fireStep 0 (run [.send (some "A") true false none]
      init).1).2.countP
      (fun e => match e with | .sent _ => true | _ => false) = 0 ∧
    REQUEST_TIMEOUT = 10000) :=
  ⟨by decide, by decide,
    C5_timeout_behavior [.send (some "A") true false none] 0 ⟨"A", 0⟩
      (by decide) (by decide)⟩

/-- C2 (counterexample).  With requests "A" (promise 0, timer 0) and "B"
(promise 1) both pending, firing request A's timeout timer also rejects
request B's waiter — with a `Connection: "Connection closed"` error — and
removes B's entry, because the timeout handler's `reconnect()` runs
`disconnect()`, which drains the whole table.  This refutes the claim
that a Timeout failure leaves every other pending entry unchanged. -/
theorem C2_counterexample :
    (("B", (⟨1, 1⟩ : Entry)) ∈ (run [.send (some "A") true false none,
      .send (some "B") true false none] init).1.pendingRequests) ∧
    ((0, (⟨"A", 0⟩ : TimerCl)) ∈ (run [.send (some "A") true false none,
      .send (some "B") true false none] init).1.armed) ∧
    (Ev.settled 1 (.rejected connClosedErr)
      ∈ (fireStep 0 (run [.send (some "A") true false none,
        .send (some "B") true false none] init).1).2) ∧
    ((fireStep 0 (run [.send (some "A") true false none,
      .send (some "B") true false none] init).1).1.pendingRequests
      = []) := by
  decide

/-- C2 (amended): a `ToolExecution` failure (matching error reply) and a
`Connection` failure during send affect only their own entry — every other
table entry, and every other armed timer, is unchanged, and the only event
emitted is that one caller's rejection.  A `Timeout` failure, however,
rejects its own caller and then — through the reconnect it triggers, whose
`disconnect()` drains the table — also rejects every other pending entry
with a `Connection: "Connection closed"` error, leaving the table empty. -/
theorem C2_failure_isolation :
    (∀ (s : St) (i : String) (ep : Option String × Option String)
        (res : Option String) (e : Entry), i ≠ "" →
      mapGet i s.pendingRequests = some e →
      (∀ k e', k ≠ i →
        ((k, e') ∈ (handleMessage (.reply (some i) (some ep) res)
          s).1.pendingRequests ↔ (k, e') ∈ s.pendingRequests)) ∧
      (∀ tc, tc.1 ≠ e.timerId →
        (tc ∈ (handleMessage (.reply (some i) (some ep) res) s).1.armed
          ↔ tc ∈ s.armed)) ∧
      (handleMessage (.reply (some i) (some ep) res) s).2
        = [.settled e.pid (.rejected (toolExecutionErr ep.1 ep.2))]) ∧
    (∀ (s : St) (rid m : String) (pid : Nat),
      (∀ k e', k ≠ rid →
        ((k, e') ∈ (registerSend rid (some m) pid s).1.pendingRequests
          ↔ (k, e') ∈ s.pendingRequests)) ∧
      (∀ tc, tc.1 ≠ s.nextTimer →
        (tc ∈ (registerSend rid (some m) pid s).1.armed ↔ tc ∈ s.armed)) ∧
      (registerSend rid (some m) pid s).2
        = [.settled pid (.rejected (sendFailedErr m))]) ∧
    (∀ (ops : List Op) (t : Nat) (c : TimerCl),
      (t, c) ∈ (run ops init).1.armed →
      mapHas c.reqId (run ops init).1.pendingRequests = true →
      (∀ k e', (k, e') ∈ (run ops init).1.pendingRequests → k ≠ c.reqId →
        Ev.settled e'.pid (.rejected connClosedErr)
          ∈ (fireStep t (run ops init).1).2) ∧
      (fireStep t (run ops init).1).1.pendingRequests = []) := by
  refine ⟨?_, ?_, ?_⟩
  · intro s i ep res e hi hg
    have hred : handleMessage (.reply (some i) (some ep) res) s
        = ({ s with
              armed := timerClear e.timerId s.armed
              pendingRequests := mapDelete i s.pendingRequests },
          [.settled e.pid (.rejected (toolExecutionErr ep.1 ep.2))]) := by
      simp only [handleMessage, if_neg hi, hg]
    rw [hred]
    refine ⟨?_, ?_, rfl⟩
    · intro k e' hk
      constructor
      · intro hq
        exact (List.mem_filter.mp hq).1
      · intro hq
        exact List.mem_filter.mpr ⟨hq, by simpa using hk⟩
    · intro tc htc
      constructor
      · intro hq
        exact (List.mem_filter.mp hq).1
      · intro hq
        exact List.mem_filter.mpr ⟨hq, by simpa using htc⟩
  · intro s rid m pid
    have hred : registerSend rid (some m) pid s
        = ({ s with
              nextTimer := s.nextTimer + 1
              armed := timerClear s.nextTimer
                (s.armed ++ [(s.nextTimer, (⟨rid, pid⟩ : TimerCl))])
              pendingRequests := mapDelete rid (mapSet rid
                (⟨pid, s.nextTimer⟩ : Entry) s.pendingRequests)
              dupOverwrite := s.dupOverwrite
                || mapHas rid s.pendingRequests },
          [.settled pid (.rejected (sendFailedErr m))]) := by
      simp only [registerSend]
    rw [hred]
    refine ⟨?_, ?_, rfl⟩
    · intro k e' hk
      constructor
      · intro hq
        exact (mem_mapSet_ne hk).mp (List.mem_filter.mp hq).1
      · intro hq
        exact List.mem_filter.mpr ⟨(mem_mapSet_ne hk).mpr hq,
          by simpa using hk⟩
    · intro tc htc
      constructor
      · intro hq
        rcases List.mem_append.mp (List.mem_filter.mp hq).1 with h' | h'
        · exact h'
        · simp only [List.mem_singleton] at h'
          exact absurd (congrArg Prod.fst h') htc
      · intro hq
        exact List.mem_filter.mpr ⟨List.mem_append.mpr (Or.inl hq),
          by simpa using htc⟩
  · intro ops t c harm hhas
    have hB := invB_run ops
    have hf := find?_eq_some_of_mem_nodup hB.armedNodup harm
    have hevs := fireStep_evs hB hf hhas
    have hnil := fireStep_pending_nil hB hf
    refine ⟨?_, hnil⟩
    intro k e' hk hne
    rw [hevs]
    apply List.mem_cons_of_mem
    apply List.mem_append_left
    exact List.mem_map.mpr ⟨(k, e'),
      List.mem_filter.mpr ⟨hk, by simpa using hne⟩, rfl⟩

theorem C2_failure_isolation_witness :
    (((0, (⟨"A", 0⟩ : TimerCl)) ∈ (run [.send (some "A") true false none,
      .send (some "B") true false none] init).1.armed) ∧
    (mapHas "A" (run [.send (some "A") true false none,
      .send (some "B") true false none] init).1.pendingRequests = true)) ∧
    ((∀ k e', (k, e') ∈ (run [.send (some "A") true false none,
        .send (some "B") true false none] init).1.pendingRequests →
        k ≠ "A" →
        Ev.settled e'.pid (.rejected connClosedErr)
          ∈ (fireStep 0 (run [.send (some "A") true false none,
            .send (some "B") true false none] init).1).2) ∧
      (fireStep 0 (run [.send (some "A") true false none,
        .send (some "B") true false none]
        init).1).1.pendingRequests = []) :=
  ⟨⟨by decide, by decide⟩,
    C2_failure_isolation.2.2 [.send (some "A") true false none,
      .send (some "B") true false none] 0 ⟨"A", 0⟩
      (by decide) (by decide)⟩

theorem fire_settles {s : St} (h : InvP s) {k : String} {e : Entry}
    (hmem : (k, e) ∈ s.pendingRequests) :
    Ev.settled e.pid (.rejected timeoutErr)
      ∈ (fireStep e.timerId s).2 := by
  have harm : (e.timerId, (⟨k, e.pid⟩ : TimerCl)) ∈ s.armed :=
    h.matched.mem_iff.mpr (List.mem_map.mpr ⟨(k, e), hmem, rfl⟩)
  have hf := find?_eq_some_of_mem_nodup h.basic.armedNodup harm
  have hhas : mapHas ((⟨k, e.pid⟩ : TimerCl)).reqId s.pendingRequests
      = true :=
    (mapHas_iff _ _).mpr (List.mem_map.mpr ⟨(k, e), hmem, rfl⟩)
  have hevs := fireStep_evs h.basic hf hhas
  rw [hevs]
  exact List.mem_cons_self _ _


/-! ### Unconditional at-most-once settlement

The structural invariant `InvS` below holds in every reachable state,
identifier reuse or not: the entry pids and the armed-closure pids are
each without repeats and below the promise allocation counter, and an
entry and an armed closure agree on handle, pid and request identifier as
soon as they share a pid or a handle (registration creates the entry, the
timer and its closure together, and nothing ever mutates them).  Every
settlement therefore leaves the settled promise dead — no table entry and
no armed closure references it — so no promise is ever settled twice. -/

theorem map_noop_of_no_key {k : String} (v : Entry)
    {m : List (String × Entry)} (h : mapHas k m = false) :
    m.map (fun p => if p.1 == k then (k, v) else p) = m := by
  induction m with
  | nil => rfl
  | cons q rest ih =>
    unfold mapHas at h
    rw [List.any_cons, Bool.or_eq_false_iff] at h
    have h2 : mapHas k rest = false := h.2
    rw [List.map_cons, ih h2]
    rw [show (if q.1 == k then (k, v) else q) = q from by simp [h.1]]

theorem mapDelete_no_key {k : String} {m : List (String × Entry)}
    (h : mapHas k m = false) : mapDelete k m = m := by
  apply List.filter_eq_self.mpr
  intro q hq
  have hne : ¬ q.1 = k := by
    intro hqe
    rw [show mapHas k m = true from (mapHas_iff k m).mpr
      (List.mem_map.mpr ⟨q, hq, hqe⟩)] at h
    cases h
  simpa using hne

theorem perm_map_replace {k : String} (v : Entry) :
    ∀ m : List (String × Entry), (m.map Prod.fst).Nodup →
      mapHas k m = true →
      (m.map (fun p => if p.1 == k then (k, v) else p)).Perm
        ((k, v) :: mapDelete k m) := by
  intro m
  induction m with
  | nil => intro _ hh; cases hh
  | cons q rest ih =>
    intro hnd hh
    have hnd' : (rest.map Prod.fst).Nodup := (List.nodup_cons.mp hnd).2
    cases hq : (q.1 == k) with
    | true =>
      have hqk : q.1 = k := by simpa using hq
      have hnorest : mapHas k rest = false := by
        cases hr : mapHas k rest
        · rfl
        · exfalso
          apply (List.nodup_cons.mp hnd).1
          rw [hqk]
          exact (mapHas_iff _ _).mp hr
      have hdel : mapDelete k (q :: rest) = mapDelete k rest := by
        simp only [mapDelete, List.filter]
        rw [show (decide ¬ (q.1 == k) = true) = false by simp [hq]]
      rw [List.map_cons, map_noop_of_no_key v hnorest, hdel,
        mapDelete_no_key hnorest,
        show (if q.1 == k then (k, v) else q) = (k, v) from by simp [hq]]
    | false =>
      have hrest : mapHas k rest = true := by
        unfold mapHas at hh ⊢
        rw [List.any_cons, hq] at hh
        simpa using hh
      have hdel : mapDelete k (q :: rest) = q :: mapDelete k rest := by
        simp only [mapDelete, List.filter]
        rw [show (decide ¬ (q.1 == k) = true) = true by simp [hq]]
      rw [List.map_cons, hdel,
        show (if q.1 == k then (k, v) else q) = q from by simp [hq]]
      exact ((ih hnd' hrest).cons q).trans (List.Perm.swap _ _ _)

theorem perm_mapSet (k : String) (v : Entry) {m : List (String × Entry)}
    (hnd : (m.map Prod.fst).Nodup) :
    (mapSet k v m).Perm ((k, v) :: mapDelete k m) := by
  unfold mapSet
  by_cases hh : mapHas k m = true
  · rw [if_pos hh]
    exact perm_map_replace v m hnd hh
  · rw [if_neg hh]
    have hb : mapHas k m = false := by
      cases hmb : mapHas k m
      · rfl
      · exact absurd hmb hh
    rw [mapDelete_no_key hb]
    exact List.perm_append_singleton _ _

theorem keys_mapDelete_not_mem (k : String) (m : List (String × Entry)) :
    k ∉ (mapDelete k m).map Prod.fst := by
  intro hmem
  obtain ⟨q, hq, hqe⟩ := List.mem_map.mp hmem
  have h2 := (List.mem_filter.mp hq).2
  simp only [decide_eq_true_eq] at h2
  exact h2 (by simpa using hqe)

theorem keysNodup_mapSet (k : String) (v : Entry)
    {m : List (String × Entry)} (hnd : (m.map Prod.fst).Nodup) :
    ((mapSet k v m).map Prod.fst).Nodup := by
  rw [List.Perm.nodup_iff ((perm_mapSet k v hnd).map Prod.fst)]
  rw [List.map_cons]
  exact List.nodup_cons.mpr ⟨keys_mapDelete_not_mem k m,
    hnd.sublist ((List.filter_sublist _).map _)⟩

theorem mem_mapSet_iff (k : String) (v : Entry) {m : List (String × Entry)}
    (hnd : (m.map Prod.fst).Nodup) {q : String × Entry} :
    q ∈ mapSet k v m ↔ q = (k, v) ∨ q ∈ mapDelete k m := by
  rw [(perm_mapSet k v hnd).mem_iff, List.mem_cons]

theorem mem_of_mapDelete {k : String} {m : List (String × Entry)}
    {q : String × Entry} (hq : q ∈ mapDelete k m) : q ∈ m :=
  (List.mem_filter.mp hq).1

theorem key_ne_of_mapDelete {k : String} {m : List (String × Entry)}
    {q : String × Entry} (hq : q ∈ mapDelete k m) : ¬ q.1 = k := by
  have h2 := (List.mem_filter.mp hq).2
  simp only [decide_eq_true_eq] at h2
  intro he
  exact h2 (by simpa using he)

theorem disconnect_pending_sub (s : St) {q : String × Entry}
    (hq : q ∈ (disconnect s).1.pendingRequests) : q ∈ s.pendingRequests := by
  cases hws : s.ws <;> simp only [disconnect, hws] at hq
  · exact hq
  all_goals cases hq

theorem disconnect_armed_sub (s : St) {r : Nat × TimerCl}
    (hr : r ∈ (disconnect s).1.armed) : r ∈ s.armed := by
  cases hws : s.ws <;> simp only [disconnect, hws] at hr
  · exact hr
  all_goals exact (List.mem_filter.mp hr).1

theorem disconnect_nextPid (s : St) :
    (disconnect s).1.nextPid = s.nextPid := by
  cases hws : s.ws <;> simp [disconnect, hws]

theorem connectStep_nextPid (n : Option String) (ok : Bool) (s : St) :
    (connectStep n ok s).1.nextPid = s.nextPid := by
  unfold connectStep
  by_cases hcon : isConnected s = true
  · rw [if_pos hcon]
  · rw [if_neg hcon]
    cases ok <;> simp only [if_true, if_false, Bool.false_eq_true]
    · exact disconnect_nextPid s
    · exact disconnect_nextPid s

theorem connectStep_pending_sub (n : Option String) (ok : Bool) (s : St)
    {q : String × Entry}
    (hq : q ∈ (connectStep n ok s).1.pendingRequests) :
    q ∈ s.pendingRequests := by
  unfold connectStep at hq
  by_cases hcon : isConnected s = true
  · rw [if_pos hcon] at hq
    exact hq
  · rw [if_neg hcon] at hq
    cases ok <;> simp only [if_true, if_false, Bool.false_eq_true] at hq
    · exact disconnect_pending_sub s hq
    · exact disconnect_pending_sub s hq

theorem connectStep_armed_sub (n : Option String) (ok : Bool) (s : St)
    {r : Nat × TimerCl} (hr : r ∈ (connectStep n ok s).1.armed) :
    r ∈ s.armed := by
  unfold connectStep at hr
  by_cases hcon : isConnected s = true
  · rw [if_pos hcon] at hr
    exact hr
  · rw [if_neg hcon] at hr
    cases ok <;> simp only [if_true, if_false, Bool.false_eq_true] at hr
    · exact disconnect_armed_sub s hr
    · exact disconnect_armed_sub s hr

theorem cnt_disconnect_eq_zero {s : St} {p : Nat}
    (h : ∀ q ∈ s.pendingRequests, q.2.pid ≠ p) :
    cnt (disconnect s).2 p = 0 := by
  cases hws : s.ws <;> simp only [disconnect, hws]
  · rfl
  all_goals
    rw [cnt_drain]
    exact count_pids_eq_zero h

theorem cnt_connectStep_eq_zero {n : Option String} {ok : Bool} {s : St}
    {p : Nat} (h : ∀ q ∈ s.pendingRequests, q.2.pid ≠ p) :
    cnt (connectStep n ok s).2 p = 0 := by
  unfold connectStep
  by_cases hcon : isConnected s = true
  · rw [if_pos hcon]
    rfl
  · rw [if_neg hcon]
    cases ok <;> simp only [if_true, if_false, Bool.false_eq_true]
    · exact cnt_disconnect_eq_zero h
    · exact cnt_disconnect_eq_zero h

theorem cnt_registerSend_ne (rid : String) (se : Option String) {x : Nat}
    {s : St} {p : Nat} (hNe : x ≠ p) :
    cnt (registerSend rid se x s).2 p = 0 := by
  unfold registerSend
  cases se with
  | none => rfl
  | some m => rw [cnt_settled, if_neg hNe]

theorem cnt_cons (e : Ev) (evs : List Ev) (p : Nat) :
    cnt (e :: evs) p = cnt [e] p + cnt evs p := by
  show cnt ([e] ++ evs) p = _
  rw [cnt_append]

/-- Structural invariant of reachable states, independent of identifier
reuse: uniqueness and bounds of the promise references held by the table
and the armed timers, and the entry–closure agreement (`link`). -/
structure InvS (s : St) : Prop where
  kN : (s.pendingRequests.map Prod.fst).Nodup
  pN : (pids s.pendingRequests).Nodup
  aN : (s.armed.map (fun r => r.2.pid)).Nodup
  pLt : ∀ q ∈ s.pendingRequests, q.2.pid < s.nextPid
  aLt : ∀ r ∈ s.armed, r.2.pid < s.nextPid
  tLt : ∀ q ∈ s.pendingRequests, q.2.timerId < s.nextTimer
  link : ∀ q ∈ s.pendingRequests, ∀ r ∈ s.armed,
    r.2.pid = q.2.pid ∨ r.1 = q.2.timerId →
    r.1 = q.2.timerId ∧ r.2.pid = q.2.pid ∧ r.2.reqId = q.1

theorem invS_init : InvS init :=
  { kN := List.nodup_nil
    pN := List.nodup_nil
    aN := List.nodup_nil
    pLt := fun q hq => absurd hq (List.not_mem_nil q)
    aLt := fun r hr => absurd hr (List.not_mem_nil r)
    tLt := fun q hq => absurd hq (List.not_mem_nil q)
    link := fun q hq => absurd hq (List.not_mem_nil q) }

theorem invS_restrict_armed {s : St} (h : InvS s) (t : Nat) :
    InvS { s with armed := timerClear t s.armed } :=
  { kN := h.kN
    pN := h.pN
    aN := h.aN.sublist ((List.filter_sublist _).map _)
    pLt := h.pLt
    aLt := fun r hr => h.aLt r (List.mem_filter.mp hr).1
    tLt := h.tLt
    link := fun q hq r hr hor =>
      h.link q hq r (List.mem_filter.mp hr).1 hor }

theorem invS_restrict_pending {s : St} (h : InvS s) (k : String) :
    InvS { s with pendingRequests := mapDelete k s.pendingRequests } :=
  { kN := h.kN.sublist ((List.filter_sublist _).map _)
    pN := h.pN.sublist ((List.filter_sublist _).map _)
    aN := h.aN
    pLt := fun q hq => h.pLt q (mem_of_mapDelete hq)
    aLt := h.aLt
    tLt := fun q hq => h.tLt q (mem_of_mapDelete hq)
    link := fun q hq r hr hor =>
      h.link q (mem_of_mapDelete hq) r hr hor }

theorem invS_disconnect {s : St} (h : InvS s) : InvS (disconnect s).1 := by
  cases hws : s.ws <;> simp only [disconnect, hws]
  · exact h
  all_goals exact
    { kN := List.nodup_nil
      pN := List.nodup_nil
      aN := h.aN.sublist ((List.filter_sublist _).map _)
      pLt := fun q hq => absurd hq (List.not_mem_nil q)
      aLt := fun r hr => h.aLt r (List.mem_filter.mp hr).1
      tLt := fun q hq => absurd hq (List.not_mem_nil q)
      link := fun q hq => absurd hq (List.not_mem_nil q) }

theorem invS_connectStep (n : Option String) (ok : Bool) {s : St}
    (h : InvS s) : InvS (connectStep n ok s).1 := by
  unfold connectStep
  by_cases hcon : isConnected s = true
  · rw [if_pos hcon]
    exact h
  · rw [if_neg hcon]
    have hd := invS_disconnect h
    cases ok <;> simp only [if_true, if_false, Bool.false_eq_true]
    · exact
        { kN := hd.kN, pN := hd.pN, aN := hd.aN, pLt := hd.pLt
          aLt := hd.aLt, tLt := hd.tLt, link := hd.link }
    · exact
        { kN := hd.kN, pN := hd.pN, aN := hd.aN, pLt := hd.pLt
          aLt := hd.aLt, tLt := hd.tLt, link := hd.link }

theorem invS_reconnectStep {s : St} (h : InvS s) :
    InvS (reconnectStep s).1 := by
  have hd := invS_disconnect h
  unfold reconnectStep
  exact
    { kN := hd.kN, pN := hd.pN, aN := hd.aN, pLt := hd.pLt
      aLt := hd.aLt, tLt := hd.tLt, link := hd.link }

theorem invS_connectResolve (ok : Bool) {s : St} (h : InvS s) :
    InvS (connectResolve ok s).1 := by
  unfold connectResolve
  cases hws : s.ws <;> simp only
  · exact h
  · cases ok <;> simp only [if_true, if_false, Bool.false_eq_true]
    · exact invS_disconnect h
    · exact
        { kN := h.kN, pN := h.pN, aN := h.aN, pLt := h.pLt
          aLt := h.aLt, tLt := h.tLt, link := h.link }
  · exact h

theorem invS_handleMessage (msg : Inbound) {s : St} (h : InvS s) :
    InvS (handleMessage msg s).1 := by
  cases msg with
  | malformed => exact h
  | reply id err result =>
    cases id with
    | none => exact h
    | some i =>
      by_cases hi : i = ""
      · simp only [handleMessage, if_pos hi]
        exact h
      · simp only [handleMessage, if_neg hi]
        cases hg : mapGet i s.pendingRequests with
        | none => exact h
        | some e =>
          exact
            { kN := h.kN.sublist ((List.filter_sublist _).map _)
              pN := h.pN.sublist ((List.filter_sublist _).map _)
              aN := h.aN.sublist ((List.filter_sublist _).map _)
              pLt := fun q hq => h.pLt q (mem_of_mapDelete hq)
              aLt := fun r hr => h.aLt r (List.mem_filter.mp hr).1
              tLt := fun q hq => h.tLt q (mem_of_mapDelete hq)
              link := fun q hq r hr hor =>
                h.link q (mem_of_mapDelete hq) r (List.mem_filter.mp hr).1
                  hor }

theorem invS_fireStep (t : Nat) {s : St} (h : InvS s) :
    InvS (fireStep t s).1 := by
  unfold fireStep
  cases hf : s.armed.find? (fun q => q.1 == t) with
  | none => exact h
  | some tc =>
    simp only
    by_cases hhas : mapHas tc.2.reqId s.pendingRequests = true
    · rw [if_pos hhas]
      exact invS_reconnectStep
        (invS_restrict_pending (invS_restrict_armed h t) tc.2.reqId)
    · rw [if_neg hhas]
      exact invS_reconnectStep (invS_restrict_armed h t)

theorem invS_registerSend (rid : String) (se : Option String) {x : Nat}
    {s : St} (hB : InvB s) (h : InvS s)
    (hxP : ∀ q ∈ s.pendingRequests, q.2.pid < x)
    (hxA : ∀ r ∈ s.armed, r.2.pid < x)
    (hxN : x < s.nextPid) :
    InvS (registerSend rid se x s).1 := by
  have hperm := perm_mapSet rid (⟨x, s.nextTimer⟩ : Entry) h.kN
  have hs3 : InvS { s with
      nextTimer := s.nextTimer + 1
      armed := s.armed ++ [(s.nextTimer, (⟨rid, x⟩ : TimerCl))]
      pendingRequests := mapSet rid (⟨x, s.nextTimer⟩ : Entry)
        s.pendingRequests
      dupOverwrite := s.dupOverwrite || mapHas rid s.pendingRequests } :=
    { kN := keysNodup_mapSet rid _ h.kN
      pN := by
        show ((mapSet rid (⟨x, s.nextTimer⟩ : Entry)
          s.pendingRequests).map (fun q => q.2.pid)).Nodup
        rw [List.Perm.nodup_iff (hperm.map (fun q => q.2.pid)),
          List.map_cons]
        refine List.nodup_cons.mpr ⟨?_, ?_⟩
        · intro hmem
          obtain ⟨q, hq, hqe⟩ := List.mem_map.mp hmem
          exact absurd hqe (Nat.ne_of_lt (hxP q (mem_of_mapDelete hq)))
        · exact h.pN.sublist ((List.filter_sublist _).map _)
      aN := by
        show ((s.armed ++ [(s.nextTimer, (⟨rid, x⟩ : TimerCl))]).map
          (fun r => r.2.pid)).Nodup
        rw [List.Perm.nodup_iff ((List.perm_append_singleton
          (s.nextTimer, (⟨rid, x⟩ : TimerCl)) s.armed).map
          (fun r => r.2.pid)), List.map_cons]
        refine List.nodup_cons.mpr ⟨?_, h.aN⟩
        intro hmem
        obtain ⟨r, hr, hre⟩ := List.mem_map.mp hmem
        exact absurd hre (Nat.ne_of_lt (hxA r hr))
      pLt := by
        intro q hq
        rcases mem_mapSet hq with h' | h'
        · rw [h']
          exact hxN
        · exact h.pLt q h'
      aLt := by
        intro r hr
        rcases List.mem_append.mp hr with h' | h'
        · exact h.aLt r h'
        · simp only [List.mem_singleton] at h'
          rw [h']
          exact hxN
      tLt := by
        intro q hq
        rcases mem_mapSet hq with h' | h'
        · rw [h']
          exact Nat.lt_succ_self _
        · exact Nat.lt_succ_of_lt (h.tLt q h')
      link := by
        intro q hq r hr hor
        rcases (mem_mapSet_iff rid _ h.kN).mp hq with he | hm
        · rcases List.mem_append.mp hr with h' | h'
          · exfalso
            rw [he] at hor
            rcases hor with h1 | h1
            · exact absurd h1 (Nat.ne_of_lt (hxA r h'))
            · exact absurd h1 (Nat.ne_of_lt (hB.armedLt r h'))
          · simp only [List.mem_singleton] at h'
            rw [he, h']
            exact ⟨rfl, rfl, rfl⟩
        · rcases List.mem_append.mp hr with h' | h'
          · exact h.link q (mem_of_mapDelete hm) r h' hor
          · exfalso
            simp only [List.mem_singleton] at h'
            rw [h'] at hor
            rcases hor with h1 | h1
            · exact absurd h1.symm
                (Nat.ne_of_lt (hxP q (mem_of_mapDelete hm)))
            · exact absurd h1.symm
                (Nat.ne_of_lt (h.tLt q (mem_of_mapDelete hm))) }
  unfold registerSend
  cases se with
  | none => exact hs3
  | some m =>
    exact
      { kN := hs3.kN.sublist ((List.filter_sublist _).map _)
        pN := hs3.pN.sublist ((List.filter_sublist _).map _)
        aN := hs3.aN.sublist ((List.filter_sublist _).map _)
        pLt := fun q hq => hs3.pLt q (mem_of_mapDelete hq)
        aLt := fun r hr => hs3.aLt r (List.mem_filter.mp hr).1
        tLt := fun q hq => hs3.tLt q (mem_of_mapDelete hq)
        link := fun q hq r hr hor =>
          hs3.link q (mem_of_mapDelete hq) r (List.mem_filter.mp hr).1 hor }

theorem invS_sendRequestBody (reqId : Option String) (iv : Bool)
    (se : Option String) {x : Nat} {s : St} (hB : InvB s) (h : InvS s)
    (hxP : ∀ q ∈ s.pendingRequests, q.2.pid < x)
    (hxA : ∀ r ∈ s.armed, r.2.pid < x)
    (hxN : x < s.nextPid) :
    InvS (sendRequestBody reqId iv se x s).1 := by
  have hBd : InvB (if iv then disconnect s else (s, [])).1 := by
    cases iv
    · exact hB
    · exact invB_disconnect hB
  have hd : InvS (if iv then disconnect s else (s, [])).1 := by
    cases iv
    · exact h
    · exact invS_disconnect h
  have hxPd : ∀ q ∈ (if iv then disconnect s else (s, [])).1.pendingRequests,
      q.2.pid < x := by
    cases iv
    · exact hxP
    · exact fun q hq => hxP q (disconnect_pending_sub s hq)
  have hxAd : ∀ r ∈ (if iv then disconnect s else (s, [])).1.armed,
      r.2.pid < x := by
    cases iv
    · exact hxA
    · exact fun r hr => hxA r (disconnect_armed_sub s hr)
  have hxNd : x < (if iv then disconnect s else (s, [])).1.nextPid := by
    cases iv
    · exact hxN
    · show x < (disconnect s).1.nextPid
      rw [disconnect_nextPid]
      exact hxN
  unfold sendRequestBody
  simp only
  set s2 : St := { (if iv then disconnect s else (s, [])).1 with
      nextUuid := (pickReqId reqId
        (if iv then disconnect s else (s, [])).1.nextUuid).2 } with hs2
  have hB2 : InvB s2 :=
    { conn := hBd.conn
      armedNodup := hBd.armedNodup
      armedLt := hBd.armedLt }
  have h2 : InvS s2 :=
    { kN := hd.kN, pN := hd.pN, aN := hd.aN, pLt := hd.pLt
      aLt := hd.aLt, tLt := hd.tLt, link := hd.link }
  by_cases hcon : isConnected s2 = true
  · rw [if_neg (by simp [hcon])]
    exact invS_registerSend _ se hB2 h2 hxPd hxAd hxNd
  · rw [if_pos (by simp [hcon])]
    exact h2

theorem invS_sendRequest (reqId : Option String) (cs : Bool) (iv : Bool)
    (se : Option String) {s : St} (hB : InvB s) (h : InvS s) :
    InvS (sendRequest reqId cs iv se s).1 := by
  have hB0 : InvB { s with nextPid := s.nextPid + 1 } :=
    { conn := hB.conn, armedNodup := hB.armedNodup, armedLt := hB.armedLt }
  have h0 : InvS { s with nextPid := s.nextPid + 1 } :=
    { kN := h.kN, pN := h.pN, aN := h.aN
      pLt := fun q hq => Nat.lt_succ_of_lt (h.pLt q hq)
      aLt := fun r hr => Nat.lt_succ_of_lt (h.aLt r hr)
      tLt := h.tLt
      link := h.link }
  unfold sendRequest
  simp only
  by_cases hcon : isConnected { s with nextPid := s.nextPid + 1 } = true
  · rw [if_pos hcon]
    exact invS_sendRequestBody reqId iv se hB0 h0 h.pLt h.aLt
      (Nat.lt_succ_self _)
  · rw [if_neg hcon]
    have hBc := invB_connectStep none cs hB0
    have hc := invS_connectStep none cs h0
    by_cases hcon2 : isConnected (connectStep none cs
        { s with nextPid := s.nextPid + 1 }).1 = true
    · rw [if_pos hcon2]
      refine invS_sendRequestBody reqId iv se hBc hc ?_ ?_ ?_
      · exact fun q hq => h.pLt q (connectStep_pending_sub none cs
          { s with nextPid := s.nextPid + 1 } hq)
      · exact fun r hr => h.aLt r (connectStep_armed_sub none cs
          { s with nextPid := s.nextPid + 1 } hr)
      · rw [connectStep_nextPid]
        exact Nat.lt_succ_self _
    · rw [if_neg hcon2]
      exact hc

theorem invS_sendOrphan {s : St} (h : InvS s) :
    InvS (sendRequestOrphan s).1 := by
  unfold sendRequestOrphan
  by_cases hcon : isConnected s = true
  · rw [if_pos hcon]
    exact h
  · rw [if_neg hcon]
    simp only
    have h0 : InvS { s with nextPid := s.nextPid + 1 } :=
      { kN := h.kN, pN := h.pN, aN := h.aN
        pLt := fun q hq => Nat.lt_succ_of_lt (h.pLt q hq)
        aLt := fun r hr => Nat.lt_succ_of_lt (h.aLt r hr)
        tLt := h.tLt
        link := h.link }
    have hd := invS_disconnect h0
    exact
      { kN := hd.kN, pN := hd.pN, aN := hd.aN, pLt := hd.pLt
        aLt := hd.aLt, tLt := hd.tLt, link := hd.link }

theorem invS_step (op : Op) {s : St} (hB : InvB s) (h : InvS s) :
    InvS (step op s).1 := by
  cases op with
  | send reqId cs iv se => exact invS_sendRequest reqId cs iv se hB h
  | sendOrphan => exact invS_sendOrphan h
  | deliver msg => exact invS_handleMessage msg h
  | fire t => exact invS_fireStep t h
  | connectTo n ok => exact invS_connectStep n ok h
  | resolveConnect ok => exact invS_connectResolve ok h
  | disc => exact invS_disconnect h

theorem settleDead_nil {s' : St} (p : Nat) :
    cnt ([] : List Ev) p ≤ 1 ∧ (1 ≤ cnt ([] : List Ev) p → DeadPid p s') := by
  constructor
  · rw [cnt_nil]
    omega
  · intro hge
    rw [cnt_nil] at hge
    exact absurd hge (by omega)

theorem settleDead_disconnect {s : St} (hS : InvS s) (p : Nat) :
    cnt (disconnect s).2 p ≤ 1 ∧
    (1 ≤ cnt (disconnect s).2 p → DeadPid p (disconnect s).1) := by
  cases hws : s.ws <;> simp only [disconnect, hws]
  · exact settleDead_nil p
  all_goals
    constructor
    · rw [cnt_drain]
      exact List.nodup_iff_count_le_one.mp hS.pN p
    · intro hge
      rw [cnt_drain] at hge
      have hmem : p ∈ pids s.pendingRequests := by
        rw [← List.count_pos_iff]
        omega
      obtain ⟨q, hq, hqe⟩ := List.mem_map.mp hmem
      refine ⟨hqe ▸ hS.pLt q hq, ?_, ?_⟩
      · intro q' hq'
        exact absurd hq' (List.not_mem_nil q')
      · intro r hr hrp
        have hrA := (List.mem_filter.mp hr).1
        have hfilt := (List.mem_filter.mp hr).2
        have hlink := hS.link q hq r hrA (Or.inl (by rw [hrp, ← hqe]))
        simp only [decide_eq_true_eq, List.any_eq_true] at hfilt
        exact hfilt ⟨q, hq, by rw [hlink.1]; simp⟩

theorem settleDead_connectStep (n : Option String) (ok : Bool) {s : St}
    (hS : InvS s) (p : Nat) :
    cnt (connectStep n ok s).2 p ≤ 1 ∧
    (1 ≤ cnt (connectStep n ok s).2 p → DeadPid p (connectStep n ok s).1) := by
  unfold connectStep
  by_cases hcon : isConnected s = true
  · rw [if_pos hcon]
    exact settleDead_nil p
  · rw [if_neg hcon]
    have hdd := settleDead_disconnect hS p
    cases ok <;> simp only [if_true, if_false, Bool.false_eq_true]
    · exact ⟨hdd.1, fun hge =>
        ⟨(hdd.2 hge).1, (hdd.2 hge).2.1, (hdd.2 hge).2.2⟩⟩
    · exact ⟨hdd.1, fun hge =>
        ⟨(hdd.2 hge).1, (hdd.2 hge).2.1, (hdd.2 hge).2.2⟩⟩

theorem settleDead_connectResolve (ok : Bool) {s : St} (hS : InvS s)
    (p : Nat) :
    cnt (connectResolve ok s).2 p ≤ 1 ∧
    (1 ≤ cnt (connectResolve ok s).2 p →
      DeadPid p (connectResolve ok s).1) := by
  unfold connectResolve
  cases hws : s.ws <;> simp only
  · exact settleDead_nil p
  · cases ok <;> simp only [if_true, if_false, Bool.false_eq_true]
    · exact settleDead_disconnect hS p
    · exact settleDead_nil p
  · exact settleDead_nil p

theorem settleDead_handleMessage (msg : Inbound) {s : St} (hS : InvS s)
    (p : Nat) :
    cnt (handleMessage msg s).2 p ≤ 1 ∧
    (1 ≤ cnt (handleMessage msg s).2 p →
      DeadPid p (handleMessage msg s).1) := by
  cases msg with
  | malformed => exact settleDead_nil p
  | reply id err result =>
    cases id with
    | none => exact settleDead_nil p
    | some i =>
      by_cases hi : i = ""
      · simp only [handleMessage, if_pos hi]
        exact settleDead_nil p
      · simp only [handleMessage, if_neg hi]
        cases hg : mapGet i s.pendingRequests with
        | none => exact settleDead_nil p
        | some e =>
          have hie : (i, e) ∈ s.pendingRequests := mapGet_mem hg
          constructor
          · rw [cnt_settled]
            by_cases he : e.pid = p
            · rw [if_pos he]
            · rw [if_neg he]
              omega
          · intro hge
            rw [cnt_settled] at hge
            by_cases he : e.pid = p
            · subst he
              refine ⟨hS.pLt (i, e) hie, ?_, ?_⟩
              · intro q' hq' hqp
                have hq'mem := mem_of_mapDelete hq'
                have hqe : q' = (i, e) :=
                  List.inj_on_of_nodup_map hS.pN hq'mem hie hqp
                exact key_ne_of_mapDelete hq' (by rw [hqe])
              · intro r hr hrp
                have hrA := (List.mem_filter.mp hr).1
                have hlink := hS.link (i, e) hie r hrA (Or.inl hrp)
                have h2 := (List.mem_filter.mp hr).2
                simp only [decide_eq_true_eq] at h2
                exact h2 (by rw [hlink.1]; simp)
            · rw [if_neg he] at hge
              exact absurd hge (by omega)

theorem fireStep_evs_split {s : St} {t : Nat} {tc : Nat × TimerCl}
    (hf : s.armed.find? (fun q => q.1 == t) = some tc)
    (hhas : mapHas tc.2.reqId s.pendingRequests = true) :
    (fireStep t s).2 = Ev.settled tc.2.pid (.rejected timeoutErr)
      :: ((disconnect { s with
          armed := timerClear t s.armed
          pendingRequests := mapDelete tc.2.reqId s.pendingRequests }).2
        ++ [.reconnect]) := by
  unfold fireStep
  rw [hf]
  simp only
  rw [if_pos hhas]
  show Ev.settled tc.2.pid (.rejected timeoutErr)
    :: (reconnectStep { s with
        armed := timerClear t s.armed
        pendingRequests := mapDelete tc.2.reqId s.pendingRequests }).2 = _
  unfold reconnectStep
  rfl

theorem fireStep_st_split {s : St} {t : Nat} {tc : Nat × TimerCl}
    (hf : s.armed.find? (fun q => q.1 == t) = some tc)
    (hhas : mapHas tc.2.reqId s.pendingRequests = true) :
    (fireStep t s).1 = (reconnectStep { s with
        armed := timerClear t s.armed
        pendingRequests := mapDelete tc.2.reqId s.pendingRequests }).1 := by
  unfold fireStep
  rw [hf]
  simp only
  rw [if_pos hhas]

theorem fireStep_evs_split_nohas {s : St} {t : Nat} {tc : Nat × TimerCl}
    (hf : s.armed.find? (fun q => q.1 == t) = some tc)
    (hhas : ¬ mapHas tc.2.reqId s.pendingRequests = true) :
    (fireStep t s).2
      = (disconnect { s with armed := timerClear t s.armed }).2
        ++ [.reconnect] := by
  unfold fireStep
  rw [hf]
  simp only
  rw [if_neg hhas]
  show ([] : List Ev)
    ++ (reconnectStep { s with armed := timerClear t s.armed }).2 = _
  unfold reconnectStep
  rfl

theorem fireStep_st_split_nohas {s : St} {t : Nat} {tc : Nat × TimerCl}
    (hf : s.armed.find? (fun q => q.1 == t) = some tc)
    (hhas : ¬ mapHas tc.2.reqId s.pendingRequests = true) :
    (fireStep t s).1
      = (reconnectStep { s with armed := timerClear t s.armed }).1 := by
  unfold fireStep
  rw [hf]
  simp only
  rw [if_neg hhas]

theorem settleDead_fireStep (t : Nat) {s : St} (hS : InvS s) (p : Nat) :
    cnt (fireStep t s).2 p ≤ 1 ∧
    (1 ≤ cnt (fireStep t s).2 p → DeadPid p (fireStep t s).1) := by
  cases hf : s.armed.find? (fun q => q.1 == t) with
  | none =>
    have hevs : (fireStep t s).2 = [] := by
      unfold fireStep
      rw [hf]
    have hst : (fireStep t s).1 = s := by
      unfold fireStep
      rw [hf]
    rw [hevs, hst]
    exact settleDead_nil p
  | some tc =>
    have htc : tc ∈ s.armed := List.mem_of_find?_eq_some hf
    have htct : tc.1 = t := by
      have := List.find?_some hf
      simpa using this
    by_cases hhas : mapHas tc.2.reqId s.pendingRequests = true
    · rw [fireStep_evs_split hf hhas, fireStep_st_split hf hhas]
      have hSB : InvS { s with
          armed := timerClear t s.armed
          pendingRequests := mapDelete tc.2.reqId s.pendingRequests } :=
        invS_restrict_pending (invS_restrict_armed hS t) tc.2.reqId
      have hdd := settleDead_disconnect hSB p
      rw [cnt_cons, cnt_settled, cnt_append, cnt_reconnect, Nat.add_zero]
      by_cases he : tc.2.pid = p
      · rw [if_pos he]
        have hzero : cnt (disconnect { s with
            armed := timerClear t s.armed
            pendingRequests := mapDelete tc.2.reqId
              s.pendingRequests }).2 p = 0 := by
          apply cnt_disconnect_eq_zero
          intro q hq hqp
          have hqmem := mem_of_mapDelete hq
          have hlink := hS.link q hqmem tc htc (Or.inl (by rw [he, ← hqp]))
          exact key_ne_of_mapDelete hq hlink.2.2.symm
        rw [hzero]
        constructor
        · omega
        · intro _
          subst he
          have hdead1 : DeadPid tc.2.pid { s with
              armed := timerClear t s.armed
              pendingRequests := mapDelete tc.2.reqId s.pendingRequests } := by
            refine ⟨hS.aLt tc htc, ?_, ?_⟩
            · intro q hq hqp
              have hqmem := mem_of_mapDelete hq
              have hlink := hS.link q hqmem tc htc (Or.inl hqp.symm)
              exact key_ne_of_mapDelete hq hlink.2.2.symm
            · intro r hr hrp
              have hrA := (List.mem_filter.mp hr).1
              have hre : r = tc := List.inj_on_of_nodup_map hS.aN hrA htc hrp
              have h2 := (List.mem_filter.mp hr).2
              simp only [decide_eq_true_eq] at h2
              exact h2 (by rw [hre, htct]; simp)
          exact (dead_reconnectStep hdead1).1
      · rw [if_neg he]
        constructor
        · have := hdd.1
          omega
        · intro hge
          have hd2 := hdd.2 (by omega)
          exact ⟨hd2.1, hd2.2.1, hd2.2.2⟩
    · rw [fireStep_evs_split_nohas hf hhas, fireStep_st_split_nohas hf hhas]
      have hdd := settleDead_disconnect (invS_restrict_armed hS t) p
      rw [cnt_append, cnt_reconnect, Nat.add_zero]
      constructor
      · exact hdd.1
      · intro hge
        have hd2 := hdd.2 hge
        exact ⟨hd2.1, hd2.2.1, hd2.2.2⟩

theorem settleDead_registerSend (rid : String) (se : Option String)
    {x : Nat} {s : St}
    (hxP : ∀ q ∈ s.pendingRequests, q.2.pid < x)
    (hxA : ∀ r ∈ s.armed, r.2.pid < x)
    (hxN : x < s.nextPid) (p : Nat) :
    cnt (registerSend rid se x s).2 p ≤ 1 ∧
    (1 ≤ cnt (registerSend rid se x s).2 p →
      DeadPid p (registerSend rid se x s).1) := by
  unfold registerSend
  cases se with
  | none =>
    constructor
    · rw [show cnt [Ev.sent rid] p = 0 from rfl]
      omega
    · intro hge
      rw [show cnt [Ev.sent rid] p = 0 from rfl] at hge
      exact absurd hge (by omega)
  | some m =>
    constructor
    · rw [cnt_settled]
      by_cases he : x = p
      · rw [if_pos he]
      · rw [if_neg he]
        omega
    · intro hge
      rw [cnt_settled] at hge
      by_cases he : x = p
      · subst he
        refine ⟨hxN, ?_, ?_⟩
        · intro q hq hqp
          rcases mem_mapSet (mem_of_mapDelete hq) with h' | h'
          · exact key_ne_of_mapDelete hq (by rw [h'])
          · exact absurd hqp (Nat.ne_of_lt (hxP q h'))
        · intro r hr hrp
          have hrmem := (List.mem_filter.mp hr).1
          rcases List.mem_append.mp hrmem with h' | h'
          · exact absurd hrp (Nat.ne_of_lt (hxA r h'))
          · simp only [List.mem_singleton] at h'
            have h2 := (List.mem_filter.mp hr).2
            simp only [decide_eq_true_eq] at h2
            exact h2 (by rw [h']; simp)
      · rw [if_neg he] at hge
        exact absurd hge (by omega)

theorem settleDead_sendRequestBody (reqId : Option String) (iv : Bool)
    (se : Option String) {x : Nat} {s : St} (hS : InvS s)
    (hxP : ∀ q ∈ s.pendingRequests, q.2.pid < x)
    (hxA : ∀ r ∈ s.armed, r.2.pid < x)
    (hxN : x < s.nextPid) (p : Nat) :
    cnt (sendRequestBody reqId iv se x s).2 p ≤ 1 ∧
    (1 ≤ cnt (sendRequestBody reqId iv se x s).2 p →
      DeadPid p (sendRequestBody reqId iv se x s).1) := by
  have hdd : cnt (if iv then disconnect s else (s, [])).2 p ≤ 1 ∧
      (1 ≤ cnt (if iv then disconnect s else (s, [])).2 p →
        DeadPid p (if iv then disconnect s else (s, [])).1) := by
    cases iv
    · exact settleDead_nil p
    · exact settleDead_disconnect hS p
  have hxPd : ∀ q ∈ (if iv then disconnect s else (s, [])).1.pendingRequests,
      q.2.pid < x := by
    cases iv
    · exact hxP
    · exact fun q hq => hxP q (disconnect_pending_sub s hq)
  have hxAd : ∀ r ∈ (if iv then disconnect s else (s, [])).1.armed,
      r.2.pid < x := by
    cases iv
    · exact hxA
    · exact fun r hr => hxA r (disconnect_armed_sub s hr)
  have hxNd : x < (if iv then disconnect s else (s, [])).1.nextPid := by
    cases iv
    · exact hxN
    · show x < (disconnect s).1.nextPid
      rw [disconnect_nextPid]
      exact hxN
  have hdx : cnt (if iv then disconnect s else (s, [])).2 x = 0 := by
    cases iv
    · rfl
    · exact cnt_disconnect_eq_zero (fun q hq => Nat.ne_of_lt (hxP q hq))
  unfold sendRequestBody
  simp only
  set r2 := pickReqId reqId
    (if iv then disconnect s else (s, [])).1.nextUuid with hr2
  set s2 : St := { (if iv then disconnect s else (s, [])).1 with
      nextUuid := r2.2 } with hs2
  have hxP2 : ∀ q ∈ s2.pendingRequests, q.2.pid < x := hxPd
  have hxA2 : ∀ r ∈ s2.armed, r.2.pid < x := hxAd
  have hxN2 : x < s2.nextPid := hxNd
  by_cases hcon : isConnected s2 = true
  · rw [if_neg (by simp [hcon])]
    have hreg := settleDead_registerSend r2.1 se hxP2 hxA2 hxN2 p
    constructor
    · rw [cnt_append]
      by_cases hd1 : 1 ≤ cnt (if iv then disconnect s else (s, [])).2 p
      · have hpx : x ≠ p := by
          intro he
          rw [← he] at hd1
          omega
        rw [cnt_registerSend_ne r2.1 se hpx]
        have := hdd.1
        omega
      · have h0 : cnt (if iv then disconnect s else (s, [])).2 p = 0 := by
          omega
        rw [h0]
        have := hreg.1
        omega
    · intro hge
      rw [cnt_append] at hge
      by_cases hd1 : 1 ≤ cnt (if iv then disconnect s else (s, [])).2 p
      · have hpx : x ≠ p := by
          intro he
          rw [← he] at hd1
          omega
        have hdead := hdd.2 hd1
        have hdead2 : DeadPid p s2 := ⟨hdead.1, hdead.2.1, hdead.2.2⟩
        exact (dead_registerSend r2.1 se x hpx hdead2).1
      · have h0 : cnt (if iv then disconnect s else (s, [])).2 p = 0 := by
          omega
        rw [h0] at hge
        exact hreg.2 (by omega)
  · rw [if_pos (by simp [hcon])]
    constructor
    · rw [cnt_append, cnt_settled]
      by_cases he : x = p
      · subst he
        rw [if_pos rfl, hdx]
      · rw [if_neg he]
        have := hdd.1
        omega
    · intro hge
      rw [cnt_append, cnt_settled] at hge
      by_cases he : x = p
      · subst he
        exact ⟨hxN2, fun q hq hqp => absurd hqp
            (Nat.ne_of_lt (hxP2 q hq)),
          fun r hr hrp => absurd hrp (Nat.ne_of_lt (hxA2 r hr))⟩
      · rw [if_neg he] at hge
        have hdead := hdd.2 (by omega)
        exact ⟨hdead.1, hdead.2.1, hdead.2.2⟩

theorem settleDead_sendRequest (reqId : Option String) (cs : Bool)
    (iv : Bool) (se : Option String) {s : St} (hS : InvS s) (p : Nat) :
    cnt (sendRequest reqId cs iv se s).2 p ≤ 1 ∧
    (1 ≤ cnt (sendRequest reqId cs iv se s).2 p →
      DeadPid p (sendRequest reqId cs iv se s).1) := by
  have h0 : InvS { s with nextPid := s.nextPid + 1 } :=
    { kN := hS.kN, pN := hS.pN, aN := hS.aN
      pLt := fun q hq => Nat.lt_succ_of_lt (hS.pLt q hq)
      aLt := fun r hr => Nat.lt_succ_of_lt (hS.aLt r hr)
      tLt := hS.tLt
      link := hS.link }
  unfold sendRequest
  simp only
  by_cases hcon : isConnected { s with nextPid := s.nextPid + 1 } = true
  · rw [if_pos hcon]
    exact settleDead_sendRequestBody reqId iv se h0 hS.pLt hS.aLt
      (Nat.lt_succ_self _) p
  · rw [if_neg hcon]
    set c := connectStep none cs { s with nextPid := s.nextPid + 1 } with hc
    have hcS : InvS c.1 := invS_connectStep none cs h0
    have hcdd : cnt c.2 p ≤ 1 ∧ (1 ≤ cnt c.2 p → DeadPid p c.1) :=
      settleDead_connectStep none cs h0 p
    have hcx : cnt c.2 s.nextPid = 0 :=
      cnt_connectStep_eq_zero (fun q hq => Nat.ne_of_lt (hS.pLt q hq))
    by_cases hcon2 : isConnected c.1 = true
    · rw [if_pos hcon2]
      have hbody := settleDead_sendRequestBody reqId iv se hcS
        (fun q hq => hS.pLt q (connectStep_pending_sub none cs
          { s with nextPid := s.nextPid + 1 } hq))
        (fun r hr => hS.aLt r (connectStep_armed_sub none cs
          { s with nextPid := s.nextPid + 1 } hr))
        (by rw [hc, connectStep_nextPid]; exact Nat.lt_succ_self _) p
      constructor
      · rw [cnt_append]
        by_cases hd1 : 1 ≤ cnt c.2 p
        · have hpx : s.nextPid ≠ p := by
            intro he
            rw [he] at hcx
            omega
          have hz := (dead_sendRequestBody reqId iv se s.nextPid hpx
            (hcdd.2 hd1)).2
          rw [hz]
          have := hcdd.1
          omega
        · have h0c : cnt c.2 p = 0 := by omega
          rw [h0c]
          have := hbody.1
          omega
      · intro hge
        rw [cnt_append] at hge
        by_cases hd1 : 1 ≤ cnt c.2 p
        · have hpx : s.nextPid ≠ p := by
            intro he
            rw [he] at hcx
            omega
          exact (dead_sendRequestBody reqId iv se s.nextPid hpx
            (hcdd.2 hd1)).1
        · have h0c : cnt c.2 p = 0 := by omega
          rw [h0c] at hge
          exact hbody.2 (by omega)
    · rw [if_neg hcon2]
      constructor
      · rw [cnt_append, cnt_settled]
        by_cases he : s.nextPid = p
        · subst he
          rw [if_pos rfl, hcx]
        · rw [if_neg he]
          have := hcdd.1
          omega
      · intro hge
        rw [cnt_append, cnt_settled] at hge
        by_cases he : s.nextPid = p
        · subst he
          refine ⟨?_, ?_, ?_⟩
          · rw [hc, connectStep_nextPid]
            exact Nat.lt_succ_self _
          · exact fun q hq hqp => absurd hqp
              (Nat.ne_of_lt (hS.pLt q (connectStep_pending_sub none cs
                { s with nextPid := s.nextPid + 1 } hq)))
          · exact fun r hr hrp => absurd hrp
              (Nat.ne_of_lt (hS.aLt r (connectStep_armed_sub none cs
                { s with nextPid := s.nextPid + 1 } hr)))
        · rw [if_neg he] at hge
          exact hcdd.2 (by omega)

theorem settleDead_sendOrphan {s : St} (hS : InvS s) (p : Nat) :
    cnt (sendRequestOrphan s).2 p ≤ 1 ∧
    (1 ≤ cnt (sendRequestOrphan s).2 p →
      DeadPid p (sendRequestOrphan s).1) := by
  unfold sendRequestOrphan
  by_cases hcon : isConnected s = true
  · rw [if_pos hcon]
    exact settleDead_nil p
  · rw [if_neg hcon]
    simp only
    have h0 : InvS { s with nextPid := s.nextPid + 1 } :=
      { kN := hS.kN, pN := hS.pN, aN := hS.aN
        pLt := fun q hq => Nat.lt_succ_of_lt (hS.pLt q hq)
        aLt := fun r hr => Nat.lt_succ_of_lt (hS.aLt r hr)
        tLt := hS.tLt
        link := hS.link }
    have hdd := settleDead_disconnect h0 p
    constructor
    · rw [cnt_append, cnt_orphaned, Nat.add_zero]
      exact hdd.1
    · intro hge
      rw [cnt_append, cnt_orphaned, Nat.add_zero] at hge
      have hd2 := hdd.2 hge
      exact ⟨hd2.1, hd2.2.1, hd2.2.2⟩

theorem settleDead_step (op : Op) {s : St} (hS : InvS s) (p : Nat) :
    cnt (step op s).2 p ≤ 1 ∧
    (1 ≤ cnt (step op s).2 p → DeadPid p (step op s).1) := by
  cases op with
  | send reqId cs iv se => exact settleDead_sendRequest reqId cs iv se hS p
  | sendOrphan => exact settleDead_sendOrphan hS p
  | deliver msg => exact settleDead_handleMessage msg hS p
  | fire t => exact settleDead_fireStep t hS p
  | connectTo n ok => exact settleDead_connectStep n ok hS p
  | resolveConnect ok => exact settleDead_connectResolve ok hS p
  | disc => exact settleDead_disconnect hS p

theorem cnt_le_one_invariant (ops : List Op) :
    ∀ s : St, InvB s → InvS s → ∀ evs : List Ev,
      (∀ q, cnt evs q ≤ 1) → (∀ q, 1 ≤ cnt evs q → DeadPid q s) →
      ∀ p, cnt (evs ++ (run ops s).2) p ≤ 1 := by
  induction ops with
  | nil =>
    intro s _ _ evs hle _ p
    rw [show (run ([] : List Op) s).2 = [] from rfl, List.append_nil]
    exact hle p
  | cons op rest ih =>
    intro s hB hS evs hle hsd p
    have hB1 := invB_step op hB
    have hS1 := invS_step op hB hS
    have hle1 : ∀ q, cnt (evs ++ (step op s).2) q ≤ 1 := by
      intro q
      rw [cnt_append]
      by_cases h1 : 1 ≤ cnt evs q
      · have hz := (dead_step op (hsd q h1)).2
        have := hle q
        omega
      · have := (settleDead_step op hS q).1
        omega
    have hsd1 : ∀ q, 1 ≤ cnt (evs ++ (step op s).2) q →
        DeadPid q (step op s).1 := by
      intro q hq
      rw [cnt_append] at hq
      by_cases h1 : 1 ≤ cnt evs q
      · exact (dead_step op (hsd q h1)).1
      · exact (settleDead_step op hS q).2 (by omega)
    have hres := ih (step op s).1 hB1 hS1 (evs ++ (step op s).2) hle1 hsd1 p
    rw [show (run (op :: rest) s).2
      = (step op s).2 ++ (run rest (step op s).1).2 from rfl,
      ← List.append_assoc]
    exact hres

theorem cnt_run_le_one (ops : List Op) (p : Nat) :
    cnt (run ops init).2 p ≤ 1 := by
  have hres := cnt_le_one_invariant ops init invB_init invS_init []
    (fun q => by rw [cnt_nil]; omega)
    (fun q hq => absurd hq (by rw [cnt_nil]; omega)) p
  rwa [List.nil_append] at hres

/-- C1 (counterexample).  Two refutations.  First, duplicate identifiers:
two `sendRequest` calls supplying the same identifier `"X"` both register
and transmit, the second call's entry overwriting the first without
cancelling the first call's timer; after both timers fire, promise 1 —
the second dispatched request — has not been settled and, as the
universally quantified continuation shows, can never be settled by any
further sequence of operations.  Second, an orphaned connect: a
`sendRequest` call made while disconnected whose `await this.connect()`
is cut short by a disconnect during the CONNECTING window (the handlers
are detached and the connect-timeout guard tests the replaced `this.ws`,
so the connect promise never settles); promise 0 is allocated, no table
entry exists, and no continuation can ever settle it.  In both cases a
dispatched promise is permanently pending, refuting the claim. -/
theorem C1_counterexample :
    (Ev.sent "X" ∈ (run [.send (some "X") true false none,
      .send (some "X") true false none, .fire 0, .fire 1] init).2) ∧
    (1 < (run [.send (some "X") true false none,
      .send (some "X") true false none, .fire 0, .fire 1]
      init).1.nextPid) ∧
    (cnt (run [.send (some "X") true false none,
      .send (some "X") true false none, .fire 0, .fire 1] init).2 1 = 0) ∧
    (∀ ext : List Op, cnt (run ([.send (some "X") true false none,
      .send (some "X") true false none, .fire 0, .fire 1] ++ ext)
      init).2 1 = 0) ∧
    (0 < (run [Op.sendOrphan] init).1.nextPid) ∧
    ((run [Op.sendOrphan] init).1.pendingRequests = []) ∧
    (cnt (run [Op.sendOrphan] init).2 0 = 0) ∧
    (∀ ext : List Op,
      cnt (run ([Op.sendOrphan] ++ ext) init).2 0 = 0) := by
  refine ⟨by decide, by decide, by decide, ?_, by decide, by decide,
    by decide, ?_⟩
  · intro ext
    rw [run_append_snd, cnt_append]
    rw [show cnt (run [.send (some "X") true false none,
      .send (some "X") true false none, .fire 0, .fire 1] init).2 1 = 0
      from by decide]
    rw [(dead_run ext (show DeadPid 1 (run [.send (some "X") true false none,
      .send (some "X") true false none, .fire 0, .fire 1] init).1
      from by decide)).2]
  · intro ext
    rw [run_append_snd, cnt_append]
    rw [show cnt (run [Op.sendOrphan] init).2 0 = 0 from by decide]
    rw [(dead_run ext (show DeadPid 0 (run [Op.sendOrphan] init).1
      from by decide)).2]

/-- C1 (amended): in every run, duplicate identifiers or not, every
promise is settled at most once — a request's `resolve`/`reject` pair is
never invoked twice.  In runs in which no `sendRequest` reuses an
identifier still pending (`dupOverwrite` stays false), every allocated
promise is exactly one of: settled exactly once; abandoned exactly once
by an orphaned connect (a disconnect landed during the CONNECTING window
of its implicit `await this.connect()`, whose timeout guard then tests
the replaced `this.ws`, so the caller hangs with no table entry); or
still live, backed by a table entry whose timer, when it fires, settles
it with a `Timeout` rejection — and promises never allocated are never
settled nor abandoned.  Every rejection tag is one of `Connection`,
`Timeout`, `ToolExecution`.  With a reused identifier or an orphaned
connect a dispatched promise can hang forever (see the
counterexample). -/
theorem C1_settle_exactly_once (ops : List Op) :
    (∀ p, cnt (run ops init).2 p ≤ 1) ∧
    ((run ops init).1.dupOverwrite = false →
      (∀ p, p < (run ops init).1.nextPid →
        (cnt (run ops init).2 p = 1 ∧ orphanCnt (run ops init).2 p = 0) ∨
        (cnt (run ops init).2 p = 0 ∧ orphanCnt (run ops init).2 p = 1) ∨
        (cnt (run ops init).2 p = 0 ∧ orphanCnt (run ops init).2 p = 0 ∧
          ∃ k e, (k, e) ∈ (run ops init).1.pendingRequests ∧ e.pid = p ∧
            Ev.settled p (.rejected timeoutErr)
              ∈ (fireStep e.timerId (run ops init).1).2)) ∧
      (∀ p, (run ops init).1.nextPid ≤ p →
        cnt (run ops init).2 p = 0 ∧ orphanCnt (run ops init).2 p = 0)) ∧
    (∀ e : ErrorType, e = .connection ∨ e = .timeout ∨ e = .toolExecution)
    := by
  refine ⟨cnt_run_le_one ops, ?_, ?_⟩
  · intro hdup
    obtain ⟨hP, hb⟩ := invariants_of_run ops hdup
    constructor
    · intro p hp
      have hbp := hb p
      rw [if_pos hp] at hbp
      rw [show acct (run ops init).2 p
        = cnt (run ops init).2 p + orphanCnt (run ops init).2 p
        from rfl] at hbp
      by_cases hc : cnt (run ops init).2 p = 1
      · exact Or.inl ⟨hc, by omega⟩
      · by_cases ho : orphanCnt (run ops init).2 p = 1
        · exact Or.inr (Or.inl ⟨by omega, ho⟩)
        · have hcnt0 : cnt (run ops init).2 p = 0 := by omega
          have ho0 : orphanCnt (run ops init).2 p = 0 := by omega
          have hppos : p ∈ pids (run ops init).1.pendingRequests := by
            rw [← List.count_pos_iff]
            omega
          obtain ⟨q, hq, hqe⟩ := List.mem_map.mp hppos
          refine Or.inr (Or.inr ⟨hcnt0, ho0, q.1, q.2,
            by simpa using hq, hqe, ?_⟩)
          have hfire := fire_settles hP (show (q.1, q.2)
            ∈ (run ops init).1.pendingRequests from by simpa using hq)
          rwa [hqe] at hfire
    · intro p hp
      have hbp := hb p
      rw [if_neg (by omega)] at hbp
      rw [show acct (run ops init).2 p
        = cnt (run ops init).2 p + orphanCnt (run ops init).2 p
        from rfl] at hbp
      exact ⟨by omega, by omega⟩
  · intro e
    cases e
    · exact Or.inl rfl
    · exact Or.inr (Or.inl rfl)
    · exact Or.inr (Or.inr rfl)

theorem C1_settle_exactly_once_witness :
    (∀ p, cnt (run [.send (some "A") true false none,
      .deliver (.reply (some "A") none (some "r"))] init).2 p ≤ 1) ∧
    ((∀ p, p < (run [.send (some "A") true false none,
        .deliver (.reply (some "A") none (some "r"))] init).1.nextPid →
      (cnt (run [.send (some "A") true false none,
          .deliver (.reply (some "A") none (some "r"))] init).2 p = 1 ∧
        orphanCnt (run [.send (some "A") true false none,
          .deliver (.reply (some "A") none (some "r"))] init).2 p = 0) ∨
      (cnt (run [.send (some "A") true false none,
          .deliver (.reply (some "A") none (some "r"))] init).2 p = 0 ∧
        orphanCnt (run [.send (some "A") true false none,
          .deliver (.reply (some "A") none (some "r"))] init).2 p = 1) ∨
      (cnt (run [.send (some "A") true false none,
          .deliver (.reply (some "A") none (some "r"))] init).2 p = 0 ∧
        orphanCnt (run [.send (some "A") true false none,
          .deliver (.reply (some "A") none (some "r"))] init).2 p = 0 ∧
        ∃ k e, (k, e) ∈ (run [.send (some "A") true false none,
          .deliver (.reply (some "A") none (some "r"))]
          init).1.pendingRequests ∧ e.pid = p ∧
          Ev.settled p (.rejected timeoutErr)
            ∈ (fireStep e.timerId (run [.send (some "A") true false none,
              .deliver (.reply (some "A") none (some "r"))] init).1).2)) ∧
      (∀ p, (run [.send (some "A") true false none,
          .deliver (.reply (some "A") none (some "r"))] init).1.nextPid
          ≤ p →
        cnt (run [.send (some "A") true false none,
          .deliver (.reply (some "A") none (some "r"))] init).2 p = 0 ∧
        orphanCnt (run [.send (some "A") true false none,
          .deliver (.reply (some "A") none (some "r"))]
          init).2 p = 0)) ∧
    (∀ e : ErrorType, e = .connection ∨ e = .timeout
      ∨ e = .toolExecution) :=
  ⟨(C1_settle_exactly_once [.send (some "A") true false none,
      .deliver (.reply (some "A") none (some "r"))]).1,
    (C1_settle_exactly_once [.send (some "A") true false none,
      .deliver (.reply (some "A") none (some "r"))]).2.1 (by decide),
    (C1_settle_exactly_once [.send (some "A") true false none,
      .deliver (.reply (some "A") none (some "r"))]).2.2⟩

theorem disconnect_nextUuid (s : St) :
    (disconnect s).1.nextUuid = s.nextUuid := by
  cases hws : s.ws <;> simp [disconnect, hws]

theorem disconnect_nextTimer (s : St) :
    (disconnect s).1.nextTimer = s.nextTimer := by
  cases hws : s.ws <;> simp [disconnect, hws]

theorem connectStep_nextUuid (n : Option String) (ok : Bool) (s : St) :
    (connectStep n ok s).1.nextUuid = s.nextUuid := by
  unfold connectStep
  by_cases hcon : isConnected s = true
  · rw [if_pos hcon]
  · rw [if_neg hcon]
    cases ok <;> simp [disconnect_nextUuid]

theorem connectStep_nextTimer (n : Option String) (ok : Bool) (s : St) :
    (connectStep n ok s).1.nextTimer = s.nextTimer := by
  unfold connectStep
  by_cases hcon : isConnected s = true
  · rw [if_pos hcon]
  · rw [if_neg hcon]
    cases ok <;> simp [disconnect_nextTimer]

theorem connectStep_true_connected (n : Option String) (s : St) :
    isConnected (connectStep n true s).1 = true := by
  unfold connectStep
  by_cases hcon : isConnected s = true
  · rw [if_pos hcon]
    exact hcon
  · rw [if_neg hcon]
    rfl

theorem connectStep_false_not_connected (n : Option String) {s : St}
    (hcon : isConnected s = false) :
    isConnected (connectStep n false s).1 = false := by
  unfold connectStep
  rw [if_neg (by rw [hcon]; exact Bool.false_ne_true)]
  rfl

theorem connectStep_evs_nil (n : Option String) (ok : Bool) {s : St}
    (hB : InvB s) (hcon : isConnected s = false) :
    (connectStep n ok s).2 = [] := by
  unfold connectStep
  rw [if_neg (by rw [hcon]; exact Bool.false_ne_true)]
  have he : (disconnect s).2 = [] := by
    rw [disconnect_evs hB, hB.conn hcon]
    rfl
  cases ok <;> simp [he]

theorem connectStep_pending_nil (n : Option String) (ok : Bool) {s : St}
    (hB : InvB s) (hcon : isConnected s = false) :
    (connectStep n ok s).1.pendingRequests = [] := by
  unfold connectStep
  rw [if_neg (by rw [hcon]; exact Bool.false_ne_true)]
  cases ok <;> simp [disconnect_pending_nil hB]

theorem notin_fresh_armed {s : St} (hB : InvB s) (c : TimerCl) :
    (s.nextTimer, c) ∉ s.armed := fun hmem =>
  absurd rfl (Nat.ne_of_lt (hB.armedLt _ hmem))

theorem body_facts {s : St} (hB : InvB s) (hcon : isConnected s = true)
    (reqId : Option String) (iv : Bool) (se : Option String) (pid : Nat) :
    ((∃ e : McpUnityError, e.etype = .connection ∧
        Ev.settled pid (.rejected e)
          ∈ (sendRequestBody reqId iv se pid s).2)
      ↔ (iv = true ∨ se ≠ none)) ∧
    ((iv = true ∨ se ≠ none) →
      mapHas (pickReqId reqId s.nextUuid).1
        (sendRequestBody reqId iv se pid s).1.pendingRequests = false ∧
      (∀ c : TimerCl, (s.nextTimer, c)
        ∉ (sendRequestBody reqId iv se pid s).1.armed)) := by
  cases iv with
  | false =>
    have hred : sendRequestBody reqId false se pid s
        = ((registerSend (pickReqId reqId s.nextUuid).1 se pid
            { s with nextUuid := (pickReqId reqId s.nextUuid).2 }).1,
          [] ++ (registerSend (pickReqId reqId s.nextUuid).1 se pid
            { s with nextUuid := (pickReqId reqId s.nextUuid).2 }).2) := by
      unfold sendRequestBody
      simp only
      rw [if_neg (by simp [show isConnected { s with
        nextUuid := (pickReqId reqId s.nextUuid).2 } = true from hcon])]
      rfl
    rw [hred]
    cases se with
    | none =>
      constructor
      · constructor
        · rintro ⟨e, _, hmem⟩
          rw [show (registerSend (pickReqId reqId s.nextUuid).1 none pid
            { s with nextUuid := (pickReqId reqId s.nextUuid).2 }).2
            = [.sent (pickReqId reqId s.nextUuid).1] from rfl] at hmem
          simp at hmem
        · rintro (h | h)
          · cases h
          · exact absurd rfl h
      · rintro (h | h)
        · cases h
        · exact absurd rfl h
    | some m =>
      have h2 : (registerSend (pickReqId reqId s.nextUuid).1 (some m) pid
          { s with nextUuid := (pickReqId reqId s.nextUuid).2 }).2
          = [.settled pid (.rejected (sendFailedErr m))] := rfl
      constructor
      · constructor
        · intro _
          exact Or.inr (fun hh => Option.noConfusion hh)
        · intro _
          refine ⟨sendFailedErr m, rfl, ?_⟩
          rw [h2]
          simp
      · intro _
        constructor
        · show mapHas (pickReqId reqId s.nextUuid).1
            (mapDelete (pickReqId reqId s.nextUuid).1
              (mapSet (pickReqId reqId s.nextUuid).1
                (⟨pid, s.nextTimer⟩ : Entry) s.pendingRequests)) = false
          exact mapHas_mapDelete _ _
        · intro c hmem
          have hmem2 : (s.nextTimer, c) ∈ timerClear s.nextTimer
              (s.armed ++ [(s.nextTimer,
                (⟨(pickReqId reqId s.nextUuid).1, pid⟩ : TimerCl))]) := hmem
          have := (List.mem_filter.mp hmem2).2
          simp at this
  | true =>
    have hncon : isConnected { (disconnect s).1 with
        nextUuid := (pickReqId reqId (disconnect s).1.nextUuid).2 }
        = false := disconnect_not_connected s
    have hred : sendRequestBody reqId true se pid s
        = ({ (disconnect s).1 with
            nextUuid := (pickReqId reqId (disconnect s).1.nextUuid).2 },
          (disconnect s).2 ++ [.settled pid (.rejected notConnectedErr)])
        := by
      unfold sendRequestBody
      simp only
      rw [if_pos (by simp [hncon])]
      rfl
    rw [hred]
    constructor
    · constructor
      · intro _
        exact Or.inl rfl
      · intro _
        refine ⟨notConnectedErr, rfl, ?_⟩
        exact List.mem_append_right _ (List.mem_singleton_self _)
    · intro _
      constructor
      · show mapHas (pickReqId reqId s.nextUuid).1
          (disconnect s).1.pendingRequests = false
        rw [disconnect_pending_nil hB]
        rfl
      · intro c hmem
        have hmem2 : (s.nextTimer, c) ∈ (disconnect s).1.armed := hmem
        have hlt := (invB_disconnect hB).armedLt _ hmem2
        rw [disconnect_nextTimer] at hlt
        exact absurd rfl (Nat.ne_of_lt hlt)

theorem send_cases {s : St} (hB : InvB s) (reqId : Option String)
    (cs iv : Bool) (se : Option String) :
    ((∃ e : McpUnityError, e.etype = .connection ∧
        Ev.settled s.nextPid (.rejected e)
          ∈ (sendRequest reqId cs iv se s).2)
      ↔ ((isConnected s = false ∧ cs = false) ∨ iv = true ∨ se ≠ none)) ∧
    (((isConnected s = false ∧ cs = false) ∨ iv = true ∨ se ≠ none) →
      mapHas (pickReqId reqId s.nextUuid).1
        (sendRequest reqId cs iv se s).1.pendingRequests = false ∧
      (∀ c : TimerCl, (s.nextTimer, c)
        ∉ (sendRequest reqId cs iv se s).1.armed)) := by
  have hB0 : InvB { s with nextPid := s.nextPid + 1 } :=
    { conn := hB.conn, armedNodup := hB.armedNodup, armedLt := hB.armedLt }
  by_cases hcon : isConnected s = true
  · have hred : sendRequest reqId cs iv se s
        = sendRequestBody reqId iv se s.nextPid
          { s with nextPid := s.nextPid + 1 } := by
      unfold sendRequest
      simp only
      rw [if_pos (show isConnected { s with nextPid := s.nextPid + 1 }
        = true from hcon)]
    rw [hred]
    have hbf := body_facts hB0 (show isConnected { s with
      nextPid := s.nextPid + 1 } = true from hcon) reqId iv se s.nextPid
    constructor
    · constructor
      · intro hex
        rcases hbf.1.mp hex with h | h
        · exact Or.inr (Or.inl h)
        · exact Or.inr (Or.inr h)
      · rintro (⟨hcf, _⟩ | h | h)
        · rw [hcon] at hcf
          cases hcf
        · exact hbf.1.mpr (Or.inl h)
        · exact hbf.1.mpr (Or.inr h)
    · rintro (⟨hcf, _⟩ | h | h)
      · rw [hcon] at hcf
        cases hcf
      · exact hbf.2 (Or.inl h)
      · exact hbf.2 (Or.inr h)
  · have hconF : isConnected s = false := by
      cases hc : isConnected s
      · rfl
      · exact absurd hc hcon
    have hconF0 : isConnected { s with nextPid := s.nextPid + 1 }
        = false := hconF
    cases cs with
    | true =>
      have hc1 := connectStep_true_connected none
        { s with nextPid := s.nextPid + 1 }
      have hred : sendRequest reqId true iv se s
          = ((sendRequestBody reqId iv se s.nextPid
              (connectStep none true
                { s with nextPid := s.nextPid + 1 }).1).1,
            (connectStep none true { s with nextPid := s.nextPid + 1 }).2
              ++ (sendRequestBody reqId iv se s.nextPid
                (connectStep none true
                  { s with nextPid := s.nextPid + 1 }).1).2) := by
        unfold sendRequest
        simp only
        rw [if_neg (by rw [hconF0]; exact Bool.false_ne_true),
          if_pos hc1]
      rw [hred]
      have hcevs := connectStep_evs_nil none true hB0 hconF0
      have hBc := invB_connectStep none true hB0
      have hbf := body_facts hBc hc1 reqId iv se s.nextPid
      rw [connectStep_nextUuid, connectStep_nextTimer] at hbf
      rw [hcevs]
      constructor
      · constructor
        · intro hex
          rw [List.nil_append] at hex
          rcases hbf.1.mp hex with h | h
          · exact Or.inr (Or.inl h)
          · exact Or.inr (Or.inr h)
        · rintro (⟨_, hcf⟩ | h | h)
          · cases hcf
          · rw [List.nil_append]
            exact hbf.1.mpr (Or.inl h)
          · rw [List.nil_append]
            exact hbf.1.mpr (Or.inr h)
      · rintro (⟨_, hcf⟩ | h | h)
        · cases hcf
        · exact hbf.2 (Or.inl h)
        · exact hbf.2 (Or.inr h)
    | false =>
      have hc0 := connectStep_false_not_connected none hconF0
      have hred : sendRequest reqId false iv se s
          = ((connectStep none false { s with nextPid := s.nextPid + 1 }).1,
            (connectStep none false { s with nextPid := s.nextPid + 1 }).2
              ++ [.settled s.nextPid (.rejected connectFailedErr)]) := by
        unfold sendRequest
        simp only
        rw [if_neg (by rw [hconF0]; exact Bool.false_ne_true),
          if_neg (by rw [hc0]; exact Bool.false_ne_true)]
      rw [hred]
      constructor
      · constructor
        · intro _
          exact Or.inl ⟨hconF, rfl⟩
        · intro _
          refine ⟨connectFailedErr, rfl, ?_⟩
          exact List.mem_append_right _ (List.mem_singleton_self _)
      · intro _
        constructor
        · rw [connectStep_pending_nil none false hB0 hconF0]
          rfl
        · intro c hmem
          have hlt := (invB_connectStep none false hB0).armedLt _ hmem
          rw [connectStep_nextTimer] at hlt
          exact absurd rfl (Nat.ne_of_lt hlt)

/-- C6: a `sendRequest` call on any reachable state rejects its promise
with a `Connection`-tagged error exactly when the implicit connect attempt
fails (the call was made while disconnected and the transport does not
open), a disconnect intervenes before the executor's re-check, or the
low-level `ws.send` throws; in every such case no pending entry for the
request's identifier remains in the table afterwards, and the timer the
call would have armed (handle `nextTimer`) is not armed — entry and timer
are removed before the error is surfaced. -/
theorem C6_send_connection_errors (ops : List Op) (reqId : Option String)
    (cs iv : Bool) (se : Option String) :
    ((∃ e : McpUnityError, e.etype = .connection ∧
        Ev.settled (run ops init).1.nextPid (.rejected e)
          ∈ (sendRequest reqId cs iv se (run ops init).1).2)
      ↔ ((isConnected (run ops init).1 = false ∧ cs = false) ∨ iv = true
        ∨ se ≠ none)) ∧
    (((isConnected (run ops init).1 = false ∧ cs = false) ∨ iv = true
        ∨ se ≠ none) →
      mapHas (pickReqId reqId (run ops init).1.nextUuid).1
        (sendRequest reqId cs iv se (run ops init).1).1.pendingRequests
        = false ∧
      (∀ c : TimerCl, ((run ops init).1.nextTimer, c)
        ∉ (sendRequest reqId cs iv se (run ops init).1).1.armed)) :=
  send_cases (invB_run ops) reqId cs iv se

theorem C6_send_connection_errors_witness :
    (((∃ e : McpUnityError, e.etype = .connection ∧
        Ev.settled (run [] init).1.nextPid (.rejected e)
          ∈ (sendRequest (some "A") false false none (run [] init).1).2)
      ↔ ((isConnected (run [] init).1 = false ∧ false = false)
        ∨ false = true ∨ (none : Option String) ≠ none)) ∧
    (((isConnected (run [] init).1 = false ∧ false = false)
        ∨ false = true ∨ (none : Option String) ≠ none) →
      mapHas (pickReqId (some "A") (run [] init).1.nextUuid).1
        (sendRequest (some "A") false false none
          (run [] init).1).1.pendingRequests = false ∧
      (∀ c : TimerCl, ((run [] init).1.nextTimer, c)
        ∉ (sendRequest (some "A") false false none
          (run [] init).1).1.armed))) :=
  C6_send_connection_errors [] (some "A") false false none

end McpUnity

namespace GetConsoleLogsTool

/-!
Model of `Server~/src/tools/getConsoleLogsTool.ts`: the zod parameter
schema and the `toolHandler` that forwards one `get_console_logs` request
to Unity and converts a non-successful response into a `ToolExecution`
error.  Number-typed zod fields are modelled over `ℚ` so that the
`.int()` refinement (denominator 1) is expressible.
-/

/-- Raw tool parameters as validated by the zod schema: every field
optional. -/
structure GetLogsParams where
  logType : Option String
  offset : Option ℚ
  limit : Option ℚ
  includeStackTrace : Option Bool

/-- `z.number().int().min(0)` applied to `offset`. -/
def offsetCheck (x : ℚ) : Bool :=
  (x.den == 1) && decide (0 ≤ x)

/-- `z.number().int().min(1).max(500)` applied to `limit`. -/
def limitCheck (x : ℚ) : Bool :=
  (x.den == 1) && decide (1 ≤ x) && decide (x ≤ 500)

/-- `z.enum(["info", "warning", "error"])` applied to `logType`. -/
def logTypeCheck (v : String) : Bool :=
  v == "info" || v == "warning" || v == "error"

/-- The whole `paramsSchema` (optional fields pass when absent). -/
def paramsSchemaAccepts (p : GetLogsParams) : Bool :=
  (match p.logType with | none => true | some v => logTypeCheck v) &&
  (match p.offset with | none => true | some v => offsetCheck v) &&
  (match p.limit with | none => true | some v => limitCheck v)

/-- The `params` object of the request the handler sends, after the
destructuring defaults `offset = 0`, `limit = 50`,
`includeStackTrace = true`. -/
structure GetLogsRequestParams where
  logType : Option String
  offset : ℚ
  limit : ℚ
  includeStackTrace : Bool
deriving DecidableEq, Repr

/-- A request forwarded to Unity by the tool handler. -/
structure UnityRequest where
  method : String
  params : GetLogsRequestParams
deriving DecidableEq, Repr

/-- The single request built by `toolHandler` from the validated
parameters. -/
def toolRequest (p : GetLogsParams) : UnityRequest :=
  { method := "get_console_logs"
    params :=
      { logType := p.logType
        offset := p.offset.getD 0
        limit := p.limit.getD 50
        includeStackTrace := p.includeStackTrace.getD true } }

/-- All requests a `toolHandler` invocation sends: exactly the one
`mcpUnity.sendRequest` call. -/
def toolHandlerRequests (p : GetLogsParams) : List UnityRequest :=
  [toolRequest p]

/-- The peer's response as inspected by the handler: the truthiness of
`response.success` and the optional `response.message`. -/
structure UnityResponse where
  success : Bool
  message : Option String
deriving DecidableEq, Repr

/-- What the handler does with the response. -/
inductive ToolOutcome
  | ok
  | thrown (e : McpUnity.McpUnityError)
deriving DecidableEq, Repr

/-- `if (!response.success) throw new McpUnityError(TOOL_EXECUTION,
response.message || "Failed to fetch logs from Unity")`. -/
def toolHandlerOutcome (r : UnityResponse) : ToolOutcome :=
  if r.success then .ok
  else .thrown ⟨.toolExecution,
    McpUnity.jsOr r.message "Failed to fetch logs from Unity", none⟩

/-- C10: every invocation of the `get_console_logs` tool handler sends
exactly one request, with method `"get_console_logs"` and params filled
with the defaults `offset = 0`, `limit = 50`, `includeStackTrace = true`
for omitted fields; the schema accepts a supplied `limit` exactly for
integers between 1 and 500 and a supplied `offset` exactly for integers
at least 0; and a response without a truthy `success` makes the handler
throw a `ToolExecution` error whose message is the response's message or
`"Failed to fetch logs from Unity"`. -/
theorem C10_get_console_logs :
    (∀ p : GetLogsParams, toolHandlerRequests p = [toolRequest p] ∧
      (toolHandlerRequests p).length = 1 ∧
      (toolRequest p).method = "get_console_logs" ∧
      (toolRequest p).params.logType = p.logType ∧
      (toolRequest p).params.offset = p.offset.getD 0 ∧
      (toolRequest p).params.limit = p.limit.getD 50 ∧
      (toolRequest p).params.includeStackTrace
        = p.includeStackTrace.getD true) ∧
    (∀ x : ℚ, limitCheck x = true ↔ x.den = 1 ∧ 1 ≤ x ∧ x ≤ 500) ∧
    (∀ x : ℚ, offsetCheck x = true ↔ x.den = 1 ∧ 0 ≤ x) ∧
    (∀ r : UnityResponse, r.success = false →
      toolHandlerOutcome r = .thrown ⟨.toolExecution,
        McpUnity.jsOr r.message "Failed to fetch logs from Unity", none⟩) ∧
    (∀ r : UnityResponse, r.success = true → toolHandlerOutcome r = .ok)
    := by
  refine ⟨fun p => ⟨rfl, rfl, rfl, rfl, rfl, rfl, rfl⟩, ?_, ?_, ?_, ?_⟩
  · intro x
    simp [limitCheck, Bool.and_eq_true, decide_eq_true_eq, and_assoc]
  · intro x
    simp [offsetCheck, Bool.and_eq_true, decide_eq_true_eq]
  · intro r h
    simp [toolHandlerOutcome, h]
  · intro r h
    simp [toolHandlerOutcome, h]

theorem C10_get_console_logs_witness :
    (toolHandlerRequests ⟨none, none, none, none⟩
      = [toolRequest ⟨none, none, none, none⟩] ∧
      (toolHandlerRequests ⟨none, none, none, none⟩).length = 1 ∧
      (toolRequest ⟨none, none, none, none⟩).method
        = "get_console_logs" ∧
      (toolRequest ⟨none, none, none, none⟩).params.logType
        = (none : Option String) ∧
      (toolRequest ⟨none, none, none, none⟩).params.offset
        = (none : Option ℚ).getD 0 ∧
      (toolRequest ⟨none, none, none, none⟩).params.limit
        = (none : Option ℚ).getD 50 ∧
      (toolRequest ⟨none, none, none, none⟩).params.includeStackTrace
        = (none : Option Bool).getD true) ∧
    (limitCheck (501 : ℚ) = true
      ↔ (501 : ℚ).den = 1 ∧ 1 ≤ (501 : ℚ) ∧ (501 : ℚ) ≤ 500) ∧
    (offsetCheck (0 : ℚ) = true ↔ (0 : ℚ).den = 1 ∧ 0 ≤ (0 : ℚ)) ∧
    (UnityResponse.success ⟨false, none⟩ = false →
      toolHandlerOutcome ⟨false, none⟩ = .thrown ⟨.toolExecution,
        McpUnity.jsOr (UnityResponse.message ⟨false, none⟩)
          "Failed to fetch logs from Unity", none⟩) :=
  ⟨C10_get_console_logs.1 ⟨none, none, none, none⟩,
    C10_get_console_logs.2.1 501,
    C10_get_console_logs.2.2.1 0,
    fun h => C10_get_console_logs.2.2.2.1 ⟨false, none⟩ h⟩

end GetConsoleLogsTool
